import Mathlib

/-!
# precision: tie points and evaluation measurements

A shallow embedding of `precision::point`, `precision::vector`, `precision::tie_point`,
`precision::math`, `precision::evaluation_measurements`, `precision::bilinear_interpolation`
and the functions `lagrange`, `cubic` and `bicubic` of interpolation.hxx.

* A C++ `double` is an element of a linear ordered field `R`, and the arithmetic of the
  estimators, of `compute_origins` and of the interpolation is the exact arithmetic of `R`; the
  definitions are computable and can be run at `R = ℚ`. A quotient by `0` is `0` in a field,
  where the code has an infinity or a NaN: statements about a division whose divisor can be `0`
  are made with `checked_div`, which fails on the divisor `0`
  (`estimate_length_var_checked`, `estimate_anisomorphism_checked`, `compute_origins_checked`).
* Where the rounding or the range of the format decides what the code does, the format is
  modelled on `ℚ`: `round_nearest_even p emin` rounds to `p` significant bits with gradual
  underflow, `binary64.round` is the rounding of a `double` and `binary64.sqrt` the correctly
  rounded `std::sqrt`; `math.compute_difference`, `vector.length_vector_rounded`,
  `vector.angle_b_vectors_argument` and `estimate_length_var_checked` take the rounding `fl` of
  the result of an operation as a parameter (the identity is exact arithmetic).
* `math::factorial` computes in `long double`, the x87 format of x86-64 (64 significant bits):
  `long_double` is a rounded value, `+infinity` or a NaN, and `long_double.to_long` is the
  conversion to `long`, with `LONG_MIN` where C++ leaves the conversion undefined.
  `binomial_value n k` is what `math::binomial_number( n, k )` returns; it is `C(n,k)` for
  `n <= 28` (`binomial_value_eq_choose`) and `C(29,k) - 1` for `n = 29`, `k = 1, 2, 3`
  (`binomial_value_29`).
* `std::sqrt` and `std::acos` are parameters `sqrt acos : R → R` of the functions that call them;
  statements that need their analytic properties are made at `R = ℝ` with `Real.sqrt` and
  `Real.arccos`.
* A call that aborts on an `assert` or leaves by `throw` returns `Except.error`. `vector.new`,
  `math` and the estimators are the build without `NDEBUG` (every `assert` is active);
  `vector.construct` and the setters of `vector` take the build as a parameter.
* `std::vector` and `std::list` are `List`; an iterator is a position (for the erasing loops of
  `remove_duplicate_points`) or the suffix of the list that starts at the iterator (for the
  read-only loops of the estimators). Sizes and counters are natural numbers: a collection has
  fewer entries than an `unsigned` or an `int` can count.
* `std::set<tie_point>` is the list of its elements in the increasing order of
  `tie_point::operator <`.
* `std::floor` is `Int.floor`, for the functions that call it (`cubic`, `bicubic`,
  `math::truncate`), over a field with a floor; the constant `0.01` is `1 / 100`, and `::trunc`
  is the integer part towards zero.
* `kept_at` and `kept_subsequence` are not code: they state by positions which entries
  `remove_duplicate_points` keeps.
-/

namespace precision

variable {R : Type} [LinearOrderedField R]

/-! ## Data model -/

/-- How a call can fail: an `assert` that does not hold, or the `throw ""` of `vector::vector`. -/
inductive Error where
  | assertion_failed
  | thrown
  deriving DecidableEq, Repr

deriving instance DecidableEq for Except

/-- The `assert( c )` statement of `<cassert>`. -/
def assert (c : Bool) : Except Error Unit :=
  if c then Except.ok () else Except.error Error.assertion_failed

/-- The class `point` (point.hxx): coordinates and their precisions. -/
structure point (R : Type) where
  x_ : R
  y_ : R
  sigma_x_ : R
  sigma_y_ : R
  deriving DecidableEq, Repr

/-- The constructor `point( x, y )` with the default precisions `1.0`. -/
def point.new (x y : R) : point R := ⟨x, y, 1, 1⟩

def point.get_x (p : point R) : R := p.x_

def point.get_y (p : point R) : R := p.y_

/-- The `point::operator ==`: `( x_ == p.x_ ) && ( y_ == p.y_ )`. -/
def point.eq (a p : point R) : Bool :=
  decide (a.x_ = p.x_) && decide (a.y_ = p.y_)

/-- The `point::operator !=`: `!( *this == p )`. -/
def point.ne (a p : point R) : Bool := !(a.eq p)

/-- The `point::operator <`: `x_ < p.x_ || ( x_ == p.x_ && y_ < p.y_ )`. -/
def point.lt (a p : point R) : Bool :=
  decide (a.x_ < p.x_) || (decide (a.x_ = p.x_) && decide (a.y_ < p.y_))

/-- The `point::operator -=`: subtracts the coordinates, keeps the precisions. -/
def point.sub_assign (a rhs : point R) : point R :=
  { a with x_ := a.x_ - rhs.x_, y_ := a.y_ - rhs.y_ }

/-- The enum `tie_point::type`. -/
inductive tie_point.type where
  | CONTROL_CHECK
  | CONTROL
  | CHECK
  | NONE
  deriving DecidableEq, Repr

/-- The class `tie_point` (tie_point.hxx): work point `x_y_`, reference point `u_v_`, role. -/
structure tie_point (R : Type) where
  x_y_ : point R
  u_v_ : point R
  type_ : tie_point.type
  deriving DecidableEq, Repr

/-- The getter `tie_point::get( x_y, u_v )`. -/
def tie_point.get (t : tie_point R) : point R × point R := (t.x_y_, t.u_v_)

def tie_point.get_type (t : tie_point R) : tie_point.type := t.type_

def tie_point.set_xy (t : tie_point R) (x_y : point R) : tie_point R := { t with x_y_ := x_y }

def tie_point.set_uv (t : tie_point R) (u_v : point R) : tie_point R := { t with u_v_ := u_v }

/-- The `tie_point::operator <`: `x_y_ < rhs.x_y_ || ( x_y_ == rhs.x_y_ && u_v_ < rhs.u_v_ )`. -/
def tie_point.lt (a rhs : tie_point R) : Bool :=
  a.x_y_.lt rhs.x_y_ || (a.x_y_.eq rhs.x_y_ && a.u_v_.lt rhs.u_v_)

/-- The `tie_point::operator ==`: `x_y_ == rhs.x_y_ && u_v_ == rhs.u_v_`. -/
def tie_point.eq (a rhs : tie_point R) : Bool :=
  a.x_y_.eq rhs.x_y_ && a.u_v_.eq rhs.u_v_

/-! ## `tie_point::remove_duplicate_points` -/

/-- The inner loop of `remove_duplicate_points` (tie_point.cxx, lines 85-101), one iteration per
unit of fuel: the state is the vector, the position `j` of `rg_j` and the flag
`work_coord_equal`. `erase( rg_j )` removes position `j` and leaves `j` where it is. -/
def remove_duplicate_points.inner (max_dif : R) (work_point1 ref_point1 : point R) :
    Nat → List (tie_point R) → Nat → Bool → Option (List (tie_point R) × Bool)
  | 0, _, _, _ => none
  | fuel + 1, registered_points, j, work_coord_equal =>
    if h : j < registered_points.length then
      let work_point2 := (registered_points[j]).get.1
      let ref_point2 := (registered_points[j]).get.2
      if ref_point1.eq ref_point2 then
        inner max_dif work_point1 ref_point1 fuel (registered_points.eraseIdx j) j
          (if |work_point1.get_x - work_point2.get_x| > max_dif ∨
              |work_point1.get_y - work_point2.get_y| > max_dif
            then false else work_coord_equal)
      else
        inner max_dif work_point1 ref_point1 fuel registered_points (j + 1) work_coord_equal
    else some (registered_points, work_coord_equal)

/-- The outer loop of `remove_duplicate_points` (tie_point.cxx, lines 80-110), one iteration per
unit of fuel: the state is the vector and the position `i` of `rg_i`. The inner loop gets
`size + 1` units of fuel. -/
def remove_duplicate_points.outer (max_dif : R) :
    Nat → List (tie_point R) → Nat → Option (List (tie_point R))
  | 0, _, _ => none
  | fuel + 1, registered_points, i =>
    if h : i + 1 < registered_points.length then
      let work_point1 := (registered_points[i]).get.1
      let ref_point1 := (registered_points[i]).get.2
      match remove_duplicate_points.inner max_dif work_point1 ref_point1
          (registered_points.length + 1) registered_points (i + 1) true with
      | none => none
      | some (registered_points, work_coord_equal) =>
        if !work_coord_equal then outer max_dif fuel (registered_points.eraseIdx i) i
        else outer max_dif fuel registered_points (i + 1)
    else some registered_points

/-- The function `tie_point::remove_duplicate_points`: the vector it leaves, `none` if the
`size + 1` units of fuel given to the outer loop do not suffice (they always do, see
`remove_duplicate_points_eq`). -/
def remove_duplicate_points (registered_points : List (tie_point R)) (max_dif : R) :
    Option (List (tie_point R)) :=
  remove_duplicate_points.outer max_dif (registered_points.length + 1) registered_points 0

/-- The test of lines 91-92 negated: both work coordinates differ by at most `max_dif`. -/
def work_close (max_dif : R) (work_point1 work_point2 : point R) : Bool :=
  !decide (|work_point1.get_x - work_point2.get_x| > max_dif ∨
    |work_point1.get_y - work_point2.get_y| > max_dif)

/-- What `remove_duplicate_points` computes, by recursion on the vector: the entries behind the
first one that share its reference point are dropped, the first one is kept if all of them were
close to it, and the rest is treated the same way. -/
def remove_duplicate_list (max_dif : R) : List (tie_point R) → List (tie_point R)
  | [] => []
  | t :: rest =>
    if rest.all (fun s => !(t.u_v_.eq s.u_v_) || work_close max_dif t.x_y_ s.x_y_) then
      t :: remove_duplicate_list max_dif (rest.filter (fun s => !(t.u_v_.eq s.u_v_)))
    else remove_duplicate_list max_dif (rest.filter (fun s => !(t.u_v_.eq s.u_v_)))
termination_by l => l.length
decreasing_by
  all_goals simp_wf
  all_goals exact Nat.lt_succ_of_le (List.length_filter_le _ _)

/-! ## `vector` -/

/-- The class `vector` (vector.hxx): the two end points. -/
structure vector (R : Type) where
  p1_ : point R
  p2_ : point R
  deriving DecidableEq, Repr

/-- The constructor `vector::vector( p1, p2 )` (vector.cxx, lines 13-23): the `assert`, then
the `throw`, then the two assignments. -/
def vector.new (p1 p2 : point R) : Except Error (vector R) := do
  assert (p1.ne p2)
  if p1.eq p2 then throw Error.thrown
  pure ⟨p1, p2⟩

def vector.get (v : vector R) : point R × point R := (v.p1_, v.p2_)

def vector.get_p1 (v : vector R) : point R := v.p1_

def vector.get_p2 (v : vector R) : point R := v.p2_

/-- The method `vector::length_vector` (vector.cxx, lines 67-71); `std::pow( a, 2 )` is
`a ^ 2`. -/
def vector.length_vector (sqrt : R → R) (a : vector R) : R :=
  sqrt ((a.p1_.get_x - a.p2_.get_x) ^ 2 + (a.p1_.get_y - a.p2_.get_y) ^ 2)

/-- The method `vector::angle_b_vectors` (vector.cxx, lines 73-92). -/
def vector.angle_b_vectors (sqrt acos : R → R) (a v : vector R) : R :=
  let p1_v := v.get.1
  let p2_v := v.get.2
  let x1 := a.p2_.get_x - a.p1_.get_x
  let y1 := a.p2_.get_y - a.p1_.get_y
  let x2 := p2_v.get_x - p1_v.get_x
  let y2 := p2_v.get_y - p1_v.get_y
  acos (((x1 * x2) + (y1 * y2)) / (sqrt (x1 ^ 2 + y1 ^ 2) * sqrt (x2 ^ 2 + y2 ^ 2)))

/-! ## Binary floating point: rounding to nearest, ties to even -/

/-- The power `2 ^ e` of two, for an integer `e`. -/
def pow2 (e : Int) : ℚ :=
  if 0 ≤ e then ((2 ^ e.toNat : Nat) : ℚ) else 1 / ((2 ^ (-e).toNat : Nat) : ℚ)

/-- The loop of `bit_length`: `n` is halved until it is 0, `acc` counts the halvings. -/
def bit_length.loop : Nat → Nat → Nat → Nat
  | 0, _, acc => acc
  | fuel + 1, n, acc => if n = 0 then acc else bit_length.loop fuel (n / 2) (acc + 1)

/-- The number of binary digits of `n` (0 for `n = 0`). -/
def bit_length (n : Nat) : Nat := bit_length.loop n n 0

/-- For `a > 0`, the integer `e` with `2 ^ e ≤ a < 2 ^ (e + 1)`. -/
def floor_log2 (a : ℚ) : Int :=
  let e : Int := (bit_length a.num.natAbs : Int) - (bit_length a.den : Int)
  if a < pow2 e then e - 1 else e

/-- The integer nearest to `m ≥ 0`, and the even one of the two nearest when `m` lies half-way
between them. -/
def round_half_even (m : ℚ) : Int :=
  let f : Int := m.floor
  if m - (f : ℚ) < 1 / 2 then f
  else if 1 / 2 < m - (f : ℚ) then f + 1
  else if f % 2 = 0 then f else f + 1

/-- The number nearest to `x` among the binary floating-point numbers with `p` significant bits
and least normal exponent `emin`, the one with an even last digit in a tie. Below `2 ^ emin`
the spacing stays the one of `2 ^ emin` (gradual underflow, down to 0). The largest number of
the format is not looked at here. -/
def round_nearest_even (p : Nat) (emin : Int) (x : ℚ) : ℚ :=
  if x = 0 then 0
  else
    let e : Int := max (floor_log2 |x|) emin
    let ulp : ℚ := pow2 (e - ((p : Int) - 1))
    (if x < 0 then -1 else 1) * ((round_half_even (|x| / ulp) : Int) : ℚ) * ulp

/-- The rounding of an arithmetic result to a `double` (IEEE binary64: 53 significant bits,
least normal exponent -1022); results of 2^1024 and more, which are the infinities of the
format, are outside this model. -/
def binary64.round (x : ℚ) : ℚ := round_nearest_even 53 (-1022) x

/-- The loop of `isqrt`, from the binary digit `b - 1` down to the digit 0 of the root. -/
def isqrt.loop : Nat → Nat → Nat → Nat
  | 0, _, r => r
  | b + 1, n, r =>
    if (r + 2 ^ b) * (r + 2 ^ b) ≤ n then isqrt.loop b n (r + 2 ^ b) else isqrt.loop b n r

/-- The integer part of the square root of `n`. -/
def isqrt (n : Nat) : Nat := isqrt.loop (bit_length n / 2 + 1) n 0

/-- The function `std::sqrt` on a `double` `x ≥ 0`: the `double` nearest to the square root.
With `k` such that the root of `x * 4 ^ k` has more than 60 binary digits before the point and
`s` the integer part of that root, the root lies at `s` or strictly between `s` and `s + 1`,
and no `double` and no middle of two `double`s lies strictly between `s / 2 ^ k` and
`(s + 1) / 2 ^ k`. (A negative argument, for which `std::sqrt` gives NaN, is not modelled.) -/
def binary64.sqrt (x : ℚ) : ℚ :=
  if x ≤ 0 then 0
  else
    let k : Int := 61 - floor_log2 x / 2
    let s : Nat := isqrt (x * pow2 (2 * k)).floor.toNat
    if ((s * s : Nat) : ℚ) = x * pow2 (2 * k) then binary64.round ((s : ℚ) / pow2 k)
    else binary64.round (((2 * s + 1 : Nat) : ℚ) / pow2 (k + 1))

/-- A non-negative `long double` of the x87 format (64 significant bits, exponents up to
16383), the `long double` of x86-64: a finite value, `+infinity`, or a NaN. -/
inductive long_double where
  | finite (x : ℚ)
  | infinity
  | nan
  deriving DecidableEq, Repr

/-- The largest finite `long double`, `(2 ^ 64 - 1) * 2 ^ (16383 - 63)`. -/
def long_double.max : ℚ := ((2 ^ 64 - 1 : Nat) : ℚ) * pow2 (16383 - 63)

/-- The `long double` that an operation with the exact result `x ≥ 0` gives: `x` rounded to 64
significant bits, and `+infinity` when the rounded value is above `long_double.max`. -/
def long_double.of_rat (x : ℚ) : long_double :=
  if round_nearest_even 64 (-16382) x > long_double.max then long_double.infinity
  else long_double.finite (round_nearest_even 64 (-16382) x)

/-- The product of two non-negative `long double`s. -/
def long_double.mul : long_double → long_double → long_double
  | long_double.finite a, long_double.finite b => long_double.of_rat (a * b)
  | long_double.finite a, long_double.infinity =>
    if a = 0 then long_double.nan else long_double.infinity
  | long_double.infinity, long_double.finite b =>
    if b = 0 then long_double.nan else long_double.infinity
  | long_double.infinity, long_double.infinity => long_double.infinity
  | long_double.nan, _ => long_double.nan
  | _, long_double.nan => long_double.nan

/-- The quotient of two non-negative `long double`s. -/
def long_double.div : long_double → long_double → long_double
  | long_double.finite a, long_double.finite b =>
    if b = 0 then (if a = 0 then long_double.nan else long_double.infinity)
    else long_double.of_rat (a / b)
  | long_double.finite _, long_double.infinity => long_double.finite 0
  | long_double.infinity, long_double.finite _ => long_double.infinity
  | long_double.infinity, long_double.infinity => long_double.nan
  | long_double.nan, _ => long_double.nan
  | _, long_double.nan => long_double.nan

/-- The conversion `long( x )` of a non-negative `long double`: the integer part of a finite
value below `2 ^ 63`. For the other values (`2 ^ 63` and more, `+infinity`, NaN) C++ leaves the
conversion undefined; the value here is `LONG_MIN = -2 ^ 63`, which the conversion instruction
of x86-64 stores. -/
def long_double.to_long : long_double → Int
  | long_double.finite x => if x < 2 ^ 63 then x.floor else -2 ^ 63
  | _ => -2 ^ 63

/-! ## `math::factorial` and `math::binomial_number` -/

/-- The loop `for( unsigned i = n; i > 1; i-- ) factorial *= i` of `math::factorial`, started
at `i` with the product `factorial` so far: every product is rounded to a `long double`. -/
def math.factorial.loop : Nat → long_double → long_double
  | 0, factorial => factorial
  | i + 1, factorial =>
    if i + 1 > 1 then
      math.factorial.loop i (factorial.mul (long_double.finite ((i + 1 : Nat) : ℚ)))
    else factorial

/-- The function `math::factorial` (math.cxx, lines 62-73). -/
def math.factorial (n : Int) : Except Error long_double := do
  assert (decide (n ≥ 0))
  pure (math.factorial.loop n.toNat (long_double.finite 1))

/-- The function `math::binomial_number` (math.cxx, lines 75-82): the product and the quotient
are `long double` operations, and the quotient is converted to `long`. -/
def math.binomial_number (n k : Int) : Except Error Int := do
  assert (decide (n > 0))
  assert (decide (k > 0))
  assert (decide (n ≥ k))
  let fn ← math.factorial n
  let fk ← math.factorial k
  let fnk ← math.factorial (n - k)
  pure (long_double.to_long (fn.div (fk.mul fnk)))

/-- The value that `math::binomial_number( n, k )` returns when its three `assert`s hold. -/
def binomial_value (n k : Nat) : Int :=
  long_double.to_long ((math.factorial.loop n (long_double.finite 1)).div
    ((math.factorial.loop k (long_double.finite 1)).mul
      (math.factorial.loop (n - k) (long_double.finite 1))))

/-! ## `vector::length_vector` and `vector::angle_b_vectors` with rounded operations -/

/-- The method `vector::length_vector` (vector.cxx, lines 67-71) with the result of every
arithmetic operation passed through `fl`: with the identity for `fl` it is
`vector.length_vector`, with `binary64.round` and `binary64.sqrt` it is the computation in
`double`s. -/
def vector.length_vector_rounded (fl sqrt : R → R) (a : vector R) : R :=
  sqrt (fl (fl (fl (a.p1_.get_x - a.p2_.get_x) ^ 2) + fl (fl (a.p1_.get_y - a.p2_.get_y) ^ 2)))

/-- The argument that `vector::angle_b_vectors` (vector.cxx, lines 73-92) passes to
`std::acos`, with the result of every arithmetic operation passed through `fl`. -/
def vector.angle_b_vectors_argument (fl sqrt : R → R) (a v : vector R) : R :=
  let p1_v := v.get.1
  let p2_v := v.get.2
  let x1 := fl (a.p2_.get_x - a.p1_.get_x)
  let y1 := fl (a.p2_.get_y - a.p1_.get_y)
  let x2 := fl (p2_v.get_x - p1_v.get_x)
  let y2 := fl (p2_v.get_y - p1_v.get_y)
  fl (fl (fl (x1 * x2) + fl (y1 * y2)) /
    fl (sqrt (fl (fl (x1 ^ 2) + fl (y1 ^ 2))) * sqrt (fl (fl (x2 ^ 2) + fl (y2 ^ 2)))))

/-! ## `evaluation_measurements` -/

/-- The class `evaluation_measurements` (evaluation_measurements.hxx): the three stored
measurements. -/
structure evaluation_measurements (R : Type) where
  length_variation_ : R
  anisomorphism_ : R
  similarity_ : R
  deriving DecidableEq, Repr

/-- The constructor `evaluation_measurements::evaluation_measurements`. -/
def evaluation_measurements.new : evaluation_measurements R := ⟨0, 0, 0⟩

/-- Insertion into a `std::set<tie_point>`, kept as the list of its elements in the increasing
order of `tie_point::operator <`: an element equivalent to one of the set is not inserted. -/
def std_set.insert (t : tie_point R) : List (tie_point R) → List (tie_point R)
  | [] => [t]
  | a :: s =>
    if t.lt a then t :: a :: s
    else if a.lt t then a :: std_set.insert t s
    else a :: s

/-- The range constructor `std::set<tie_point> tp( first, last )`: the elements are inserted one
after the other, from the first. -/
def std_set (tie_points : List (tie_point R)) : List (tie_point R) :=
  tie_points.foldl (fun s t => std_set.insert t s) []

/-- The inner loop of `estimate_length_var` (evaluation_measurements.cxx, lines 51-64) over the
elements behind `tpj_iterator`. The result is the value of `length_variation_` with `true` when
the loop ran to its end and `false` when it left by `return false`. -/
def estimate_length_var.inner (sqrt : R → R) (den : R) (x_y_i u_v_i : point R) :
    List (tie_point R) → R → Except Error (Bool × R)
  | [], length_variation_ => Except.ok (true, length_variation_)
  | tpj :: rest, length_variation_ =>
    let x_y_j := tpj.get.1
    let u_v_j := tpj.get.2
    if x_y_i.eq x_y_j || u_v_i.eq u_v_j then Except.ok (false, length_variation_)
    else
      match vector.new x_y_i x_y_j, vector.new u_v_i u_v_j with
      | Except.ok v_xy, Except.ok v_uv =>
        estimate_length_var.inner sqrt den x_y_i u_v_i rest
          (length_variation_ + (v_xy.length_vector sqrt / v_uv.length_vector sqrt) / den)
      | Except.error e, _ => Except.error e
      | _, Except.error e => Except.error e

/-- The outer loop of `estimate_length_var` (lines 47-67) from `tpi_iterator` on: it runs while
an element follows `tpi_iterator` (`i < list_size - 1`). -/
def estimate_length_var.outer (sqrt : R → R) (den : R) :
    List (tie_point R) → R → Except Error (Bool × R)
  | tpi :: tpj :: rest, length_variation_ =>
    match estimate_length_var.inner sqrt den tpi.get.1 tpi.get.2 (tpj :: rest)
        length_variation_ with
    | Except.error e => Except.error e
    | Except.ok (false, length_variation_) => Except.ok (false, length_variation_)
    | Except.ok (true, length_variation_) =>
      estimate_length_var.outer sqrt den (tpj :: rest) length_variation_
  | _, length_variation_ => Except.ok (true, length_variation_)

/-- The method `evaluation_measurements::estimate_length_var` (lines 27-70): the returned flag
and the object after the call. The assignment `length_variation_ = 0.0` of line 43 is the `0`
the outer loop starts from, and what the loops leave is the new `length_variation_`, also when
they leave by `return false`. -/
def estimate_length_var (sqrt : R → R) (m : evaluation_measurements R)
    (tie_points : List (tie_point R)) : Except Error (Bool × evaluation_measurements R) :=
  let tp := std_set tie_points
  if tp.length < 2 then Except.ok (false, m)
  else do
    let list_size := tp.length
    let den ← math.binomial_number list_size 2
    let r ← estimate_length_var.outer sqrt (den : R) tp 0
    pure (r.1, { m with length_variation_ := r.2 })

/-- The inner loop of `estimate_anisomorphism` (lines 101-118) over the elements behind
`tpj_iterator`: the state is `sum` and `den`. -/
def estimate_anisomorphism.inner (x_y_i u_v_i : point R) :
    List (tie_point R) → R × R → R × R
  | [], sd => sd
  | tpj :: rest, (sum, den) =>
    let x_y_j := tpj.get.1
    let u_v_j := tpj.get.2
    let num_1 := |x_y_i.get_x - x_y_j.get_x|
    let den_1 := |u_v_i.get_x - u_v_j.get_x|
    let num_2 := |x_y_i.get_y - x_y_j.get_y|
    let den_2 := |u_v_i.get_y - u_v_j.get_y|
    if den_1 * num_2 ≠ 0 then
      estimate_anisomorphism.inner x_y_i u_v_i rest (sum + (num_1 * den_2) / (den_1 * num_2), den)
    else
      estimate_anisomorphism.inner x_y_i u_v_i rest (sum, den - 1)

/-- The outer loop of `estimate_anisomorphism` (lines 96-121) from `tpi_iterator` on. -/
def estimate_anisomorphism.outer : List (tie_point R) → R × R → R × R
  | tpi :: tpj :: rest, sd =>
    estimate_anisomorphism.outer (tpj :: rest)
      (estimate_anisomorphism.inner tpi.get.1 tpi.get.2 (tpj :: rest) sd)
  | _, sd => sd

/-- The method `evaluation_measurements::estimate_anisomorphism` (lines 72-126). -/
def estimate_anisomorphism (m : evaluation_measurements R) (tie_points : List (tie_point R)) :
    Except Error (Bool × evaluation_measurements R) :=
  let tp := tie_points
  if tp.length < 2 then Except.ok (false, m)
  else do
    let list_size := tp.length
    let den ← math.binomial_number list_size 2
    let sd := estimate_anisomorphism.outer tp (0, (den : R))
    pure (true, { m with anisomorphism_ := if sd.2 ≠ 0 then sd.1 / sd.2 else 1 })

/-- The innermost loop of `estimate_similarity` (lines 162-176) over the elements behind
`tpk_iterator`: the state is `similarity_`. -/
def estimate_similarity.inner (sqrt acos : R → R) (den : R) (x_y_i u_v_i x_y_j u_v_j : point R) :
    List (tie_point R) → R → Except Error R
  | [], similarity_ => Except.ok similarity_
  | tpk :: rest, similarity_ =>
    let x_y_k := tpk.get.1
    let u_v_k := tpk.get.2
    match vector.new x_y_i x_y_j, vector.new x_y_i x_y_k,
        vector.new u_v_i u_v_j, vector.new u_v_i u_v_k with
    | Except.ok v_xy_ij, Except.ok v_xy_ik, Except.ok v_uv_ij, Except.ok v_uv_ik =>
      estimate_similarity.inner sqrt acos den x_y_i u_v_i x_y_j u_v_j rest
        (similarity_ + (v_xy_ij.angle_b_vectors sqrt acos v_xy_ik /
          v_uv_ij.angle_b_vectors sqrt acos v_uv_ik) / den)
    | Except.error e, _, _, _ => Except.error e
    | _, Except.error e, _, _ => Except.error e
    | _, _, Except.error e, _ => Except.error e
    | _, _, _, Except.error e => Except.error e

/-- The middle loop of `estimate_similarity` (lines 156-177) over the elements behind
`tpj_iterator`: it runs while an element follows the new `tpj_iterator`
(`j < list_size - 1`). -/
def estimate_similarity.middle (sqrt acos : R → R) (den : R) (x_y_i u_v_i : point R) :
    List (tie_point R) → R → Except Error R
  | tpj :: tpk :: rest, similarity_ =>
    match estimate_similarity.inner sqrt acos den x_y_i u_v_i tpj.get.1 tpj.get.2 (tpk :: rest)
        similarity_ with
    | Except.error e => Except.error e
    | Except.ok similarity_ =>
      estimate_similarity.middle sqrt acos den x_y_i u_v_i (tpk :: rest) similarity_
  | _, similarity_ => Except.ok similarity_

/-- The outer loop of `estimate_similarity` (lines 152-179) from `tpi_iterator` on: it runs
while two elements follow `tpi_iterator` (`i < list_size - 2`). -/
def estimate_similarity.outer (sqrt acos : R → R) (den : R) :
    List (tie_point R) → R → Except Error R
  | tpi :: tpj :: tpk :: rest, similarity_ =>
    match estimate_similarity.middle sqrt acos den tpi.get.1 tpi.get.2 (tpj :: tpk :: rest)
        similarity_ with
    | Except.error e => Except.error e
    | Except.ok similarity_ =>
      estimate_similarity.outer sqrt acos den (tpj :: tpk :: rest) similarity_
  | _, similarity_ => Except.ok similarity_

/-- The method `evaluation_measurements::estimate_similarity` (lines 128-182). -/
def estimate_similarity (sqrt acos : R → R) (m : evaluation_measurements R)
    (tie_points : List (tie_point R)) : Except Error (Bool × evaluation_measurements R) :=
  let tp := tie_points
  if tp.length < 3 then Except.ok (false, m)
  else do
    let list_size := tp.length
    let den ← math.binomial_number list_size 3
    let similarity_ ← estimate_similarity.outer sqrt acos (den : R) tp 0
    pure (true, { m with similarity_ := similarity_ })

/-! ## Sums over the pairs and triples of positions of a list -/

/-- The sum of `f a b` over the pairs of entries of a list with `a` before `b`. -/
def pair_sum {α : Type} (f : α → α → R) : List α → R
  | [] => 0
  | a :: l => (l.map (f a)).sum + pair_sum f l

/-- The sum of `f a b c` over the triples of entries of a list in the order of the list. -/
def triple_sum {α : Type} (f : α → α → α → R) : List α → R
  | [] => 0
  | a :: l => pair_sum (f a) l + triple_sum f l

/-- The pair counts as contributing in `estimate_anisomorphism`:
`|ref_a.x - ref_b.x| * |work_a.y - work_b.y| != 0`. -/
def anisomorphism_contributes (a b : tie_point R) : Prop :=
  |a.u_v_.x_ - b.u_v_.x_| * |a.x_y_.y_ - b.x_y_.y_| ≠ 0

instance anisomorphism_contributes.decidable (a b : tie_point R) :
    Decidable (anisomorphism_contributes a b) := by
  unfold anisomorphism_contributes; infer_instance

/-- The term of a contributing pair:
`(|work_a.x - work_b.x| * |ref_a.y - ref_b.y|) / (|ref_a.x - ref_b.x| * |work_a.y - work_b.y|)`. -/
def anisomorphism_ratio (a b : tie_point R) : R :=
  (|a.x_y_.x_ - b.x_y_.x_| * |a.u_v_.y_ - b.u_v_.y_|) /
    (|a.u_v_.x_ - b.u_v_.x_| * |a.x_y_.y_ - b.x_y_.y_|)

/-- The contributing pairs of a list: the pairs of positions `i < j` whose entries contribute. -/
def contributing_pairs (l : List (tie_point R)) : Finset (Fin l.length × Fin l.length) :=
  Finset.univ.filter (fun p => p.1 < p.2 ∧ anisomorphism_contributes (l.get p.1) (l.get p.2))

/-- The term of a triple in `estimate_similarity`: the angle between the work vectors
`a -> b` and `a -> c` divided by the angle between the reference vectors `a -> b` and `a -> c`,
both by `vector::angle_b_vectors`. -/
def similarity_ratio (sqrt acos : R → R) (a b c : tie_point R) : R :=
  vector.angle_b_vectors sqrt acos ⟨a.x_y_, b.x_y_⟩ ⟨a.x_y_, c.x_y_⟩ /
    vector.angle_b_vectors sqrt acos ⟨a.u_v_, b.u_v_⟩ ⟨a.u_v_, c.u_v_⟩

/-- The triples of positions `i < j < k` of a list of `n` entries. -/
def position_triples (n : Nat) : Finset (Fin n × Fin n × Fin n) :=
  Finset.univ.filter (fun t => t.1 < t.2.1 ∧ t.2.1 < t.2.2)

/-! ## The set of distinct tie points of a list -/

/-- The coordinates `(work.x, work.y, reference.x, reference.y)` of a tie point: what
`tie_point::operator ==` and `tie_point::operator <` look at. -/
def tie_point.key (t : tie_point R) : R × R × R × R :=
  (t.x_y_.x_, t.x_y_.y_, t.u_v_.x_, t.u_v_.y_)

/-- The set of the distinct (work, reference) coordinates of the tie points of a list. -/
def key_set (l : List (tie_point R)) : Finset (R × R × R × R) :=
  (l.map tie_point.key).toFinset

/-- The lexicographic order on the coordinates of a tie point. -/
def key_lt (a b : R × R × R × R) : Prop :=
  a.1 < b.1 ∨ (a.1 = b.1 ∧ (a.2.1 < b.2.1 ∨ (a.2.1 = b.2.1 ∧
    (a.2.2.1 < b.2.2.1 ∨ (a.2.2.1 = b.2.2.1 ∧ a.2.2.2 < b.2.2.2)))))

instance key_lt.decidable (a b : R × R × R × R) : Decidable (key_lt a b) := by
  unfold key_lt; infer_instance

/-- The unordered pairs of distinct elements of a set of coordinates, each by its one
representative `(a, b)` with `a` before `b` in the lexicographic order. -/
def key_pairs (S : Finset (R × R × R × R)) : Finset ((R × R × R × R) × (R × R × R × R)) :=
  (S ×ˢ S).filter (fun p => key_lt p.1 p.2)

/-- The Euclidean distance of two points given by their coordinates, with `sqrt` for
`std::sqrt`. -/
def distance (sqrt : R → R) (p q : R × R) : R :=
  sqrt ((p.1 - q.1) ^ 2 + (p.2 - q.2) ^ 2)

/-- The ratio of the distance of the work points to the distance of the reference points of two
tie points given by their coordinates. -/
def length_ratio (sqrt : R → R) (a b : R × R × R × R) : R :=
  distance sqrt (a.1, a.2.1) (b.1, b.2.1) / distance sqrt (a.2.2.1, a.2.2.2) (b.2.2.1, b.2.2.2)

/-- The coordinates with the lexicographic order of Mathlib. -/
def lex_key (a : R × R × R × R) : Lex (R × Lex (R × Lex (R × R))) :=
  toLex (a.1, toLex (a.2.1, toLex (a.2.2.1, a.2.2.2)))

/-- Neither the work points nor the reference points of the two tie points are equal: the pair
passes the test of line 57 of evaluation_measurements.cxx. -/
def nondegenerate (a b : tie_point R) : Prop :=
  a.x_y_.eq b.x_y_ = false ∧ a.u_v_.eq b.u_v_ = false

/-- The pairs of positions `p < q` that the loops of `estimate_length_var` treat before the
pair `(i, j)`: those with `p < i`, and those with `p = i` and `q < j`. -/
def pairs_before {n : Nat} (i j : Fin n) : Finset (Fin n × Fin n) :=
  Finset.univ.filter (fun pq => pq.1 < pq.2 ∧ (pq.1 < i ∨ (pq.1 = i ∧ pq.2 < j)))

/-! ## `vector` in a build with or without `NDEBUG` -/

/-- The `assert( c )` statement in a build where `NDEBUG` is defined (`ndebug = true`, the
statement expands to nothing) or is not (`ndebug = false`, the statement is `assert`). -/
def assert_build (ndebug c : Bool) : Except Error Unit :=
  if ndebug then Except.ok () else assert c

/-- The constructor `vector::vector( p1, p2 )` (vector.cxx, lines 13-23) in either build: the
`assert`, then the `throw`, then the two assignments. `vector.new` is the build without
`NDEBUG`. -/
def vector.construct (ndebug : Bool) (p1 p2 : point R) : Except Error (vector R) := do
  assert_build ndebug (p1.ne p2)
  if p1.eq p2 then throw Error.thrown
  pure ⟨p1, p2⟩

/-- The method `vector::set( p1, p2 )` (vector.cxx, lines 29-35): the `assert`, then the two
assignments. The result is the object after the call. -/
def vector.set (ndebug : Bool) (a : vector R) (p1 p2 : point R) : Except Error (vector R) := do
  assert_build ndebug (p1.ne p2)
  pure { a with p1_ := p1, p2_ := p2 }

/-- The method `vector::set_p1( p1 )` (vector.cxx, lines 37-42): `assert( p1 != p2_ )`, then the
assignment. -/
def vector.set_p1 (ndebug : Bool) (a : vector R) (p1 : point R) : Except Error (vector R) := do
  assert_build ndebug (p1.ne a.p2_)
  pure { a with p1_ := p1 }

/-- The method `vector::set_p2( p2 )` (vector.cxx, lines 44-49): `assert( p1_ != p2 )`, then the
assignment. -/
def vector.set_p2 (ndebug : Bool) (a : vector R) (p2 : point R) : Except Error (vector R) := do
  assert_build ndebug (a.p1_.ne p2)
  pure { a with p2_ := p2 }

/-! ## `tie_point::compute_origins` and `tie_point::change_origins` -/

/-- The loop of `compute_origins` (tie_point.cxx, lines 126-142) from the iterator `it` on: the
state is the four sums and the count `n`. -/
def compute_origins.loop : List (tie_point R) → R → R → R → R → Nat → R × R × R × R × Nat
  | [], x0, y0, u0, v0, n => (x0, y0, u0, v0, n)
  | it :: rest, x0, y0, u0, v0, n =>
    if it.get_type = tie_point.type.CONTROL ∨ it.get_type = tie_point.type.CONTROL_CHECK then
      let x_y := it.get.1
      let u_v := it.get.2
      compute_origins.loop rest (x0 + x_y.get_x) (y0 + x_y.get_y) (u0 + u_v.get_x)
        (v0 + u_v.get_y) (n + 1)
    else compute_origins.loop rest x0 y0 u0 v0 n

/-- The function `tie_point::compute_origins` (tie_point.cxx, lines 113-146): the points
assigned to `xy0` and `uv0`. The count `n` is converted to `double` for the divisions, and the
two points are built by `point( x, y )`. -/
def compute_origins (tie_points : List (tie_point R)) : point R × point R :=
  let st := compute_origins.loop tie_points 0 0 0 0 0
  (point.new (st.1 / (st.2.2.2.2 : R)) (st.2.1 / (st.2.2.2.2 : R)),
    point.new (st.2.2.1 / (st.2.2.2.2 : R)) (st.2.2.2.1 / (st.2.2.2.2 : R)))

/-- The function `tie_point::change_origins` (tie_point.cxx, lines 148-166) from the iterator
`it` on: the list after the call. -/
def change_origins : List (tie_point R) → point R → point R → List (tie_point R)
  | [], _, _ => []
  | it :: rest, xy0, uv0 =>
    let x_y := it.get.1
    let u_v := it.get.2
    let x_y := x_y.sub_assign xy0
    let u_v := u_v.sub_assign uv0
    (it.set_xy x_y).set_uv u_v :: change_origins rest xy0 uv0

/-- The role of the tie point is `CONTROL` or `CONTROL_CHECK`. -/
def is_control (t : tie_point R) : Bool :=
  decide (t.type_ = tie_point.type.CONTROL ∨ t.type_ = tie_point.type.CONTROL_CHECK)

/-- The arithmetic mean of the values of `f` over a list of tie points. -/
def mean (f : tie_point R → R) (l : List (tie_point R)) : R :=
  (l.map f).sum / (l.length : R)

/-- Every pair of entries for which `estimate_similarity` builds a vector is nondegenerate:
every entry that is followed by at least two entries, against each entry behind it. -/
def similarity_checked : List (tie_point R) → Prop
  | a :: b :: c :: rest =>
    (∀ x ∈ b :: c :: rest, nondegenerate a x) ∧ similarity_checked (b :: c :: rest)
  | _ => True

/-! ## `math::compute_difference` -/

/-- The function `math::compute_difference` (math.cxx, lines 18-31), with the result of every
arithmetic operation passed through `fl` (`std::fabs` is exact): the identity for `fl` is exact
arithmetic, `binary64.round` is the arithmetic of `double`s. -/
def math.compute_difference (fl : R → R) (lhs rhs : R) : Except Error R := do
  let res := if fl (lhs * rhs) < 0 then fl (|lhs| + |rhs|) else |fl (|lhs| - |rhs|)|
  assert (decide (res ≥ 0))
  pure res

/-! ## `bilinear_interpolation` -/

/-- The class `bilinear_interpolation` (bilinear_interpolation.hxx): the corner coordinates, the
four function values and the four coefficients. -/
structure bilinear_interpolation (R : Type) where
  x1_ : R
  y1_ : R
  x2_ : R
  y2_ : R
  q11_ : R
  q12_ : R
  q21_ : R
  q22_ : R
  a_ : R
  b_ : R
  c_ : R
  d_ : R
  deriving DecidableEq, Repr

/-- The constructor `bilinear_interpolation::bilinear_interpolation`
(bilinear_interpolation.cxx, lines 10-25). -/
def bilinear_interpolation.new (x1 y1 x2 y2 q11 q12 q21 q22 : R) : bilinear_interpolation R :=
  let quoc := (x2 - x1) * (y2 - y1)
  { x1_ := x1, y1_ := y1, x2_ := x2, y2_ := y2,
    q11_ := q11, q12_ := q12, q21_ := q21, q22_ := q22,
    a_ := q11 / quoc, b_ := q21 / quoc, c_ := q12 / quoc, d_ := q22 / quoc }

/-- The method `bilinear_interpolation::interpolate_at` (bilinear_interpolation.cxx, lines
31-42): `ret` starts at `0.` and gets the four terms one after the other. -/
def bilinear_interpolation.interpolate_at (t : bilinear_interpolation R) (x y : R) : R :=
  let ret : R := 0
  let ret := ret + t.a_ * (t.x2_ - x) * (t.y2_ - y)
  let ret := ret + t.b_ * (x - t.x1_) * (t.y2_ - y)
  let ret := ret + t.c_ * (t.x2_ - x) * (y - t.y1_)
  let ret := ret + t.d_ * (x - t.x1_) * (y - t.y1_)
  ret

/-! ## `lagrange`, `cubic` and `bicubic` (interpolation.hxx) -/

/-- The body of the loop of the vector form of `lagrange` (interpolation.hxx, lines 147-158) at
the index `i`: the state is `p0`, `p1`, `p2`, `p3`. -/
def lagrange.step (dx : List R) (x : R) (p : R × R × R × R) (i : Nat) : R × R × R × R :=
  (if i > 1 then p.1 * ((x - dx.getD i 0) / (dx.getD 0 0 - dx.getD i 0)) else p.1,
    if i ≠ 1 then p.2.1 * ((x - dx.getD i 0) / (dx.getD 1 0 - dx.getD i 0)) else p.2.1,
    if i ≠ 2 then p.2.2.1 * ((x - dx.getD i 0) / (dx.getD 2 0 - dx.getD i 0)) else p.2.2.1,
    if i ≠ 3 then p.2.2.2 * ((x - dx.getD i 0) / (dx.getD 3 0 - dx.getD i 0)) else p.2.2.2)

/-- The vector form of `lagrange` (interpolation.hxx, lines 133-162): the two `assert`s, the
four initial products, the loop over `i = 1, ..., dx.size() - 1`, and the sum. The indices read
are below the sizes once the `assert`s hold. -/
def lagrange (dx im : List R) (x : R) : Except Error R := do
  assert (decide (dx.length > 3))
  assert (decide (dx.length = im.length))
  let p0 := im.getD 0 0 * (x - dx.getD 1 0) / (dx.getD 0 0 - dx.getD 1 0)
  let p1 := im.getD 1 0 * (x - dx.getD 0 0) / (dx.getD 1 0 - dx.getD 0 0)
  let p2 := im.getD 2 0 * (x - dx.getD 0 0) / (dx.getD 2 0 - dx.getD 0 0)
  let p3 := im.getD 3 0 * (x - dx.getD 0 0) / (dx.getD 3 0 - dx.getD 0 0)
  let p := (List.range' 1 (dx.length - 1)).foldl (lagrange.step dx x) (p0, p1, p2, p3)
  pure (p.1 + p.2.1 + p.2.2.1 + p.2.2.2)

/-- The row `weights_[i]` of the cache of `cubic` (interpolation.hxx, lines 228-235), with
`u = 0.01 * i`. -/
def cubic.weights (i : Nat) : R × R × R × R :=
  let u : R := (1 / 100) * (i : R)
  (-u * (1 - u) * (1 - u), (1 - u) * (1 + u - u * u), u * (1 + u - u * u), -u * u * (1 - u))

/-- The function `cubic` (interpolation.hxx, lines 219-248): the index `m` of the cached row is
`floor( ( distance - floor( distance ) ) * 100.0 + 0.5 )`. -/
def cubic [FloorRing R] (distance pt1 pt2 pt3 pt4 : R) : R :=
  let m : Nat := (Int.floor ((distance - (Int.floor distance : R)) * 100 + 1 / 2)).toNat
  let result : R := 0
  let result := result + pt1 * (cubic.weights m : R × R × R × R).1
  let result := result + pt2 * (cubic.weights m : R × R × R × R).2.1
  let result := result + pt3 * (cubic.weights m : R × R × R × R).2.2.1
  let result := result + pt4 * (cubic.weights m : R × R × R × R).2.2.2
  result

/-- The 22-argument form of `bicubic` (interpolation.hxx, lines 363-394). -/
def bicubic [FloorRing R] (xo xf yo yf f1 f2 f3 f4 f5 f6 f7 f8 f9 f10 f11 f12 f13 f14 f15 f16
    x y : R) : Except Error R := do
  assert (decide (x > xo))
  assert (decide (x < xf))
  let delta := (xf - xo) / 3
  assert (decide (x ≥ xo + delta))
  assert (decide (x ≤ xo + delta + delta))
  let distancex := (x - (xo + delta)) / delta
  let horizontal0 := cubic distancex f1 f2 f3 f4
  let horizontal1 := cubic distancex f5 f6 f7 f8
  let horizontal2 := cubic distancex f9 f10 f11 f12
  let horizontal3 := cubic distancex f13 f14 f15 f16
  let delta := (yf - yo) / 3
  assert (decide (y ≥ yo + delta))
  assert (decide (y ≤ yo + delta + delta))
  let distancey := (y - (yo + delta)) / delta
  pure (cubic distancey horizontal0 horizontal1 horizontal2 horizontal3)

/-! ## `math::truncate` -/

/-- The function `trunc` of the C library: the integer part of `x`, rounded towards zero. -/
def trunc [FloorRing R] (x : R) : R :=
  if 0 ≤ x then (Int.floor x : R) else (Int.ceil x : R)

/-- The function `math::truncate` (math.cxx, lines 40-52); `have_trunc` tells whether the build
defines `HAVE_TRUNC`, and `std::pow( 10, digits )` is `10 ^ digits`. -/
def math.truncate [FloorRing R] (have_trunc : Bool) (value : R) (digits : Int) : R :=
  let p : R := (10 : R) ^ digits
  if have_trunc then trunc (value * p) / p
  else if value ≥ 0 then (Int.floor (value * p) : R) / p
  else (Int.ceil (value * p) : R) / p

/-! ## The entries that `remove_duplicate_points` keeps, by position -/

/-- The entry `e` at the position `p` of `L`, if no entry before `p` has a reference point equal
to the one of `e` and every entry behind `p` whose reference point equals the one of `e` has
both work coordinates within `max_dif` of those of `e`; nothing otherwise. -/
def kept_at (max_dif : R) (L : List (tie_point R)) (p : Nat) : Option (tie_point R) :=
  match L[p]? with
  | none => none
  | some e =>
    if (L.take p).all (fun s => !(s.u_v_.eq e.u_v_)) &&
        (L.drop (p + 1)).all (fun s => !(s.u_v_.eq e.u_v_) ||
          decide (|e.x_y_.x_ - s.x_y_.x_| ≤ max_dif ∧ |e.x_y_.y_ - s.x_y_.y_| ≤ max_dif))
    then some e else none

/-- The subsequence of `L` of the entries kept by `kept_at`, in the order of `L`. -/
def kept_subsequence (max_dif : R) (L : List (tie_point R)) : List (tie_point R) :=
  (List.range L.length).filterMap (kept_at max_dif L)

/-! ## `estimate_length_var` and `estimate_anisomorphism` with checked divisions -/

/-- How a run with checked divisions can fail: as the run itself does, or in a division by
zero. -/
inductive Failure where
  | error (e : Error)
  | division_by_zero
  deriving DecidableEq, Repr

/-- The quotient `a / b`, and the failure `division_by_zero` when `b` is 0. -/
def checked_div (a b : R) : Except Failure R :=
  if b = 0 then Except.error Failure.division_by_zero else Except.ok (a / b)

/-- A result of the run itself as a result of the run with checked divisions. -/
def lift_error {α : Type} : Except Error α → Except Failure α
  | Except.ok a => Except.ok a
  | Except.error e => Except.error (Failure.error e)

/-- The inner loop of `estimate_length_var` (lines 51-64) as `estimate_length_var.inner`, with
the two divisions of line 63 checked and the result of every arithmetic operation passed
through `fl` (the identity for `fl` is exact arithmetic, `binary64.round` is the arithmetic of
`double`s). -/
def estimate_length_var.inner_checked (fl sqrt : R → R) (den : R) (x_y_i u_v_i : point R) :
    List (tie_point R) → R → Except Failure (Bool × R)
  | [], length_variation_ => Except.ok (true, length_variation_)
  | tpj :: rest, length_variation_ =>
    let x_y_j := tpj.get.1
    let u_v_j := tpj.get.2
    if x_y_i.eq x_y_j || u_v_i.eq u_v_j then Except.ok (false, length_variation_)
    else
      match lift_error (vector.new x_y_i x_y_j), lift_error (vector.new u_v_i u_v_j) with
      | Except.ok v_xy, Except.ok v_uv =>
        match checked_div (v_xy.length_vector_rounded fl sqrt)
            (v_uv.length_vector_rounded fl sqrt) with
        | Except.error e => Except.error e
        | Except.ok q =>
          match checked_div (fl q) den with
          | Except.error e => Except.error e
          | Except.ok t =>
            estimate_length_var.inner_checked fl sqrt den x_y_i u_v_i rest
              (fl (length_variation_ + fl t))
      | Except.error e, _ => Except.error e
      | _, Except.error e => Except.error e

/-- The outer loop of `estimate_length_var` (lines 47-67) over the checked inner loop. -/
def estimate_length_var.outer_checked (fl sqrt : R → R) (den : R) :
    List (tie_point R) → R → Except Failure (Bool × R)
  | tpi :: tpj :: rest, length_variation_ =>
    match estimate_length_var.inner_checked fl sqrt den tpi.get.1 tpi.get.2 (tpj :: rest)
        length_variation_ with
    | Except.error e => Except.error e
    | Except.ok (false, length_variation_) => Except.ok (false, length_variation_)
    | Except.ok (true, length_variation_) =>
      estimate_length_var.outer_checked fl sqrt den (tpj :: rest) length_variation_
  | _, length_variation_ => Except.ok (true, length_variation_)

/-- The method `estimate_length_var` (lines 27-70) with checked divisions and the arithmetic
operations of its loops rounded by `fl`. -/
def estimate_length_var_checked (fl sqrt : R → R) (m : evaluation_measurements R)
    (tie_points : List (tie_point R)) : Except Failure (Bool × evaluation_measurements R) :=
  let tp := std_set tie_points
  if tp.length < 2 then Except.ok (false, m)
  else do
    let list_size := tp.length
    let den ← lift_error (math.binomial_number list_size 2)
    let r ← estimate_length_var.outer_checked fl sqrt (den : R) tp 0
    pure (r.1, { m with length_variation_ := r.2 })

/-- The inner loop of `estimate_anisomorphism` (lines 101-118) as
`estimate_anisomorphism.inner`, with the division of line 114 checked. -/
def estimate_anisomorphism.inner_checked (x_y_i u_v_i : point R) :
    List (tie_point R) → R × R → Except Failure (R × R)
  | [], sd => Except.ok sd
  | tpj :: rest, (sum, den) =>
    let x_y_j := tpj.get.1
    let u_v_j := tpj.get.2
    let num_1 := |x_y_i.get_x - x_y_j.get_x|
    let den_1 := |u_v_i.get_x - u_v_j.get_x|
    let num_2 := |x_y_i.get_y - x_y_j.get_y|
    let den_2 := |u_v_i.get_y - u_v_j.get_y|
    if den_1 * num_2 ≠ 0 then
      match checked_div (num_1 * den_2) (den_1 * num_2) with
      | Except.error e => Except.error e
      | Except.ok t => estimate_anisomorphism.inner_checked x_y_i u_v_i rest (sum + t, den)
    else
      estimate_anisomorphism.inner_checked x_y_i u_v_i rest (sum, den - 1)

/-- The outer loop of `estimate_anisomorphism` (lines 96-121) over the checked inner loop. -/
def estimate_anisomorphism.outer_checked : List (tie_point R) → R × R → Except Failure (R × R)
  | tpi :: tpj :: rest, sd =>
    match estimate_anisomorphism.inner_checked tpi.get.1 tpi.get.2 (tpj :: rest) sd with
    | Except.error e => Except.error e
    | Except.ok sd => estimate_anisomorphism.outer_checked (tpj :: rest) sd
  | _, sd => Except.ok sd

/-- The method `estimate_anisomorphism` (lines 72-126) with checked divisions, the one of line
123 included. -/
def estimate_anisomorphism_checked (m : evaluation_measurements R)
    (tie_points : List (tie_point R)) : Except Failure (Bool × evaluation_measurements R) :=
  let tp := tie_points
  if tp.length < 2 then Except.ok (false, m)
  else do
    let list_size := tp.length
    let den ← lift_error (math.binomial_number list_size 2)
    let sd ← estimate_anisomorphism.outer_checked tp (0, (den : R))
    let anisomorphism_ ← if sd.2 ≠ 0 then checked_div sd.1 sd.2 else Except.ok 1
    pure (true, { m with anisomorphism_ := anisomorphism_ })

/-! ## `tie_point::compute_origins` with checked divisions -/

/-- The function `tie_point::compute_origins` (tie_point.cxx, lines 113-146) as
`compute_origins`, with the four divisions of lines 144-145 checked. -/
def compute_origins_checked (tie_points : List (tie_point R)) :
    Except Failure (point R × point R) :=
  let st := compute_origins.loop tie_points 0 0 0 0 0
  match checked_div st.1 (st.2.2.2.2 : R), checked_div st.2.1 (st.2.2.2.2 : R),
      checked_div st.2.2.1 (st.2.2.2.2 : R), checked_div st.2.2.2.1 (st.2.2.2.2 : R) with
  | Except.ok x, Except.ok y, Except.ok u, Except.ok v =>
    Except.ok (point.new x y, point.new u v)
  | Except.error e, _, _, _ => Except.error e
  | _, Except.error e, _, _ => Except.error e
  | _, _, Except.error e, _ => Except.error e
  | _, _, _, Except.error e => Except.error e

/-! ## Lemmas on `remove_duplicate_points` -/

theorem point_eq_iff (a p : point R) : a.eq p = true ↔ a.x_ = p.x_ ∧ a.y_ = p.y_ := by
  simp [point.eq]

theorem remove_duplicate_points_inner_eq (max_dif : R) (w r : point R) :
    ∀ (fuel : Nat) (pre suf : List (tie_point R)) (b : Bool), suf.length < fuel →
      remove_duplicate_points.inner max_dif w r fuel (pre ++ suf) pre.length b =
        some (pre ++ suf.filter (fun s => !(r.eq s.u_v_)),
          b && suf.all (fun s => !(r.eq s.u_v_) || work_close max_dif w s.x_y_)) := by
  intro fuel
  induction fuel with
  | zero => intro pre suf b h; exact absurd h (Nat.not_lt_zero _)
  | succ fuel ih =>
    intro pre suf b h
    cases suf with
    | nil => simp [remove_duplicate_points.inner]
    | cons t ts =>
      have hlen : pre.length < (pre ++ t :: ts).length := by simp
      have hget : (pre ++ t :: ts)[pre.length] = t := by
        rw [List.getElem_append_right (le_refl _)]; simp
      have hts : ts.length < fuel := by simpa using h
      rw [remove_duplicate_points.inner, dif_pos hlen]
      simp only [hget, tie_point.get]
      by_cases hr : r.eq t.u_v_ = true
      · rw [if_pos hr]
        have herase : (pre ++ t :: ts).eraseIdx pre.length = pre ++ ts := by
          simp [List.eraseIdx_append_of_length_le]
        rw [herase, ih pre ts _ hts]
        by_cases hc : |w.get_x - t.x_y_.get_x| > max_dif ∨ |w.get_y - t.x_y_.get_y| > max_dif
        · have hw : work_close max_dif w t.x_y_ = false := by
            unfold work_close; rw [decide_eq_true hc]; rfl
          rw [if_pos hc]
          simp [List.filter_cons, hr, hw]
        · have hw : work_close max_dif w t.x_y_ = true := by
            unfold work_close; rw [decide_eq_false hc]; rfl
          rw [if_neg hc]
          simp [List.filter_cons, hr, hw]
      · rw [if_neg hr]
        have happ : pre ++ t :: ts = (pre ++ [t]) ++ ts := by simp
        have hl : pre.length + 1 = (pre ++ [t]).length := by simp
        rw [happ, hl, ih (pre ++ [t]) ts b hts]
        simp [hr]

theorem remove_duplicate_points_outer_eq (max_dif : R) :
    ∀ (fuel : Nat) (pre suf : List (tie_point R)), suf.length < fuel →
      remove_duplicate_points.outer max_dif fuel (pre ++ suf) pre.length =
        some (pre ++ remove_duplicate_list max_dif suf) := by
  intro fuel
  induction fuel with
  | zero => intro pre suf h; exact absurd h (Nat.not_lt_zero _)
  | succ fuel ih =>
    intro pre suf h
    cases suf with
    | nil => simp [remove_duplicate_points.outer, remove_duplicate_list]
    | cons t rest =>
      cases rest with
      | nil => simp [remove_duplicate_points.outer, remove_duplicate_list]
      | cons u rest =>
        have hlen : pre.length + 1 < (pre ++ t :: u :: rest).length := by simp
        have hget : (pre ++ t :: u :: rest)[pre.length] = t := by
          rw [List.getElem_append_right (le_refl _)]; simp
        have happ : pre ++ t :: u :: rest = (pre ++ [t]) ++ (u :: rest) := by simp
        have hl : pre.length + 1 = (pre ++ [t]).length := by simp
        have hfuel : (u :: rest).length < ((pre ++ [t]) ++ (u :: rest)).length + 1 := by
          simp only [List.length_append]; omega
        have hinner := remove_duplicate_points_inner_eq max_dif t.x_y_ t.u_v_
          (((pre ++ [t]) ++ (u :: rest)).length + 1) (pre ++ [t]) (u :: rest) true hfuel
        rw [← happ, ← hl] at hinner
        have hrest : ((u :: rest).filter (fun s => !(t.u_v_.eq s.u_v_))).length < fuel := by
          have h1 := List.length_filter_le (fun s => !(t.u_v_.eq s.u_v_)) (u :: rest)
          simp only [List.length_cons] at h h1 ⊢
          omega
        rw [remove_duplicate_points.outer, dif_pos hlen]
        simp only [hget, tie_point.get, hinner, Bool.true_and]
        rw [remove_duplicate_list]
        by_cases hall : (u :: rest).all
            (fun s => !(t.u_v_.eq s.u_v_) || work_close max_dif t.x_y_ s.x_y_) = true
        · rw [if_pos hall]
          simp only [hall, Bool.not_true, Bool.false_eq_true, if_false]
          have h2 := ih (pre ++ [t]) ((u :: rest).filter (fun s => !(t.u_v_.eq s.u_v_))) hrest
          rw [← hl] at h2
          rw [h2]
          simp
        · rw [if_neg hall]
          simp only [Bool.not_eq_true] at hall
          simp only [hall, Bool.not_false, if_true]
          have he : (pre ++ [t] ++ (u :: rest).filter (fun s => !(t.u_v_.eq s.u_v_))).eraseIdx
              pre.length = pre ++ (u :: rest).filter (fun s => !(t.u_v_.eq s.u_v_)) := by
            simp [List.eraseIdx_append_of_length_le]
          rw [he]
          exact ih pre _ hrest

/-- The fuel of `remove_duplicate_points` always suffices, and the vector it leaves is
`remove_duplicate_list`. -/
theorem remove_duplicate_points_eq (l : List (tie_point R)) (max_dif : R) :
    remove_duplicate_points l max_dif = some (remove_duplicate_list max_dif l) := by
  have h := remove_duplicate_points_outer_eq max_dif (l.length + 1) [] l (Nat.lt_succ_self _)
  simpa [remove_duplicate_points] using h

theorem remove_duplicate_list_sublist (max_dif : R) (l : List (tie_point R)) :
    (remove_duplicate_list max_dif l).Sublist l := by
  induction l using remove_duplicate_list.induct max_dif with
  | case1 => simp [remove_duplicate_list]
  | case2 t rest hall ih =>
    rw [remove_duplicate_list, if_pos hall]
    exact (ih.trans (List.filter_sublist _)).cons₂ t
  | case3 t rest hall ih =>
    rw [remove_duplicate_list, if_neg hall]
    exact (ih.trans (List.filter_sublist _)).cons t

theorem remove_duplicate_list_pairwise (max_dif : R) (l : List (tie_point R)) :
    (remove_duplicate_list max_dif l).Pairwise (fun a b => a.u_v_.eq b.u_v_ = false) := by
  induction l using remove_duplicate_list.induct max_dif with
  | case1 => simp [remove_duplicate_list]
  | case2 t rest hall ih =>
    rw [remove_duplicate_list, if_pos hall]
    refine List.Pairwise.cons ?_ ih
    intro s hs
    have hs1 := (remove_duplicate_list_sublist max_dif _).subset hs
    simpa using (List.mem_filter.mp hs1).2
  | case3 t rest hall ih =>
    rw [remove_duplicate_list, if_neg hall]
    exact ih

theorem point_eq_swap (a p : point R) : a.eq p = p.eq a := by
  rw [Bool.eq_iff_iff, point_eq_iff, point_eq_iff]
  constructor <;> rintro ⟨h1, h2⟩ <;> exact ⟨h1.symm, h2.symm⟩

/-- C1: whatever the sequence and `max_dif`, `remove_duplicate_points` returns, and no two
entries at different positions of the sequence it leaves have equal reference points. -/
theorem remove_duplicate_points_no_equal_reference (l : List (tie_point R)) (max_dif : R) :
    ∃ r, remove_duplicate_points l max_dif = some r ∧
      ∀ i j : Fin r.length, i ≠ j → (r.get i).u_v_.eq (r.get j).u_v_ = false := by
  refine ⟨_, remove_duplicate_points_eq l max_dif, ?_⟩
  have hp := List.pairwise_iff_get.mp (remove_duplicate_list_pairwise max_dif l)
  intro i j hij
  rcases lt_or_gt_of_ne hij with h | h
  · exact hp i j h
  · rw [point_eq_swap]; exact hp j i h

/-- C2: for a two-entry sequence `[a, b]` with equal reference points,
`remove_duplicate_points` leaves exactly `[a]` if both work coordinates differ by at most
`max_dif`, and the empty sequence otherwise. -/
theorem remove_duplicate_points_pair (a b : tie_point R) (max_dif : R)
    (h : a.u_v_.eq b.u_v_ = true) :
    remove_duplicate_points [a, b] max_dif =
      some (if |a.x_y_.x_ - b.x_y_.x_| ≤ max_dif ∧ |a.x_y_.y_ - b.x_y_.y_| ≤ max_dif
        then [a] else []) := by
  rw [remove_duplicate_points_eq]
  by_cases hc : |a.x_y_.x_ - b.x_y_.x_| ≤ max_dif ∧ |a.x_y_.y_ - b.x_y_.y_| ≤ max_dif
  · rw [if_pos hc]
    simp [remove_duplicate_list, h, work_close, point.get_x, point.get_y, hc.1, hc.2]
  · rw [if_neg hc]
    have hc2 : |a.x_y_.x_ - b.x_y_.x_| ≤ max_dif → max_dif < |a.x_y_.y_ - b.x_y_.y_| := by
      intro h1
      by_contra h2
      exact hc ⟨h1, not_lt.mp h2⟩
    simp [remove_duplicate_list, h, work_close, point.get_x, point.get_y]
    exact hc2

/-- The documented example of C2: work points `(0,0)` and `(0.001,0.001)`, both with reference
`(5,5)`: `max_dif = 0.01` leaves the first entry, `max_dif = 0.0001` leaves none. -/
theorem remove_duplicate_points_pair_witness :
    remove_duplicate_points
        [(⟨⟨0, 0, 1, 1⟩, ⟨5, 5, 1, 1⟩, tie_point.type.CONTROL_CHECK⟩ : tie_point ℚ),
          ⟨⟨1 / 1000, 1 / 1000, 1, 1⟩, ⟨5, 5, 1, 1⟩, tie_point.type.CONTROL_CHECK⟩] (1 / 100) =
      some [⟨⟨0, 0, 1, 1⟩, ⟨5, 5, 1, 1⟩, tie_point.type.CONTROL_CHECK⟩] ∧
    remove_duplicate_points
        [(⟨⟨0, 0, 1, 1⟩, ⟨5, 5, 1, 1⟩, tie_point.type.CONTROL_CHECK⟩ : tie_point ℚ),
          ⟨⟨1 / 1000, 1 / 1000, 1, 1⟩, ⟨5, 5, 1, 1⟩, tie_point.type.CONTROL_CHECK⟩] (1 / 10000) =
      some [] :=
  ⟨(remove_duplicate_points_pair _ _ _ (by decide!)).trans (by decide!),
    (remove_duplicate_points_pair _ _ _ (by decide!)).trans (by decide!)⟩

/-- C6: for a list of 0 or 1 entries the three estimators return `false` and leave the three
stored measurements as they were, and so does `estimate_similarity` for a list of exactly 2
entries. -/
theorem estimators_too_few (sqrt acos : R → R) (m : evaluation_measurements R)
    (l : List (tie_point R)) :
    (l.length ≤ 1 →
      estimate_length_var sqrt m l = Except.ok (false, m) ∧
      estimate_anisomorphism m l = Except.ok (false, m) ∧
      estimate_similarity sqrt acos m l = Except.ok (false, m)) ∧
    (l.length = 2 → estimate_similarity sqrt acos m l = Except.ok (false, m)) := by
  constructor
  · intro h
    have hset : (std_set l).length < 2 := by
      match l, h with
      | [], _ => simp [std_set]
      | [a], _ => simp [std_set, std_set.insert]
    refine ⟨?_, ?_, ?_⟩
    · simp only [estimate_length_var, if_pos hset]
    · have h2 : l.length < 2 := by omega
      simp only [estimate_anisomorphism, if_pos h2]
    · have h3 : l.length < 3 := by omega
      simp only [estimate_similarity, if_pos h3]
  · intro h
    have h3 : l.length < 3 := by omega
    simp only [estimate_similarity, if_pos h3]

/-! ## Lemmas on the sums over pairs and triples -/

theorem list_map_sum_eq_fin {α : Type} (g : α → R) (l : List α) :
    (l.map g).sum = ∑ j : Fin l.length, g (l.get j) := by
  induction l with
  | nil => simp
  | cons a l ih =>
    rw [List.map_cons, List.sum_cons, ih]
    exact (Fin.sum_univ_succ (fun j : Fin (l.length + 1) => g ((a :: l).get j))).symm

theorem pair_sum_eq_fin {α : Type} (f : α → α → R) (l : List α) :
    pair_sum f l =
      ∑ i : Fin l.length, ∑ j : Fin l.length, if i < j then f (l.get i) (l.get j) else 0 := by
  induction l with
  | nil => simp [pair_sum]
  | cons a l ih =>
    rw [pair_sum, ih, list_map_sum_eq_fin]
    have h1 := Fin.sum_univ_succ (fun i : Fin (l.length + 1) =>
      ∑ j : Fin (l.length + 1), if i < j then f ((a :: l).get i) ((a :: l).get j) else 0)
    refine Eq.trans ?_ h1.symm
    congr 1
    · have h2 := Fin.sum_univ_succ (fun j : Fin (l.length + 1) =>
        if (0 : Fin (l.length + 1)) < j then f ((a :: l).get (0 : Fin (l.length + 1))) ((a :: l).get j) else 0)
      refine Eq.trans ?_ h2.symm
      simp [Fin.succ_pos]
    · refine Finset.sum_congr rfl (fun i _ => ?_)
      have h3 := Fin.sum_univ_succ (fun j : Fin (l.length + 1) =>
        if i.succ < j then f ((a :: l).get i.succ) ((a :: l).get j) else 0)
      refine Eq.trans ?_ h3.symm
      simp [Fin.succ_lt_succ_iff]

theorem triple_sum_eq_fin {α : Type} (f : α → α → α → R) (l : List α) :
    triple_sum f l =
      ∑ i : Fin l.length, ∑ j : Fin l.length, ∑ k : Fin l.length,
        if i < j ∧ j < k then f (l.get i) (l.get j) (l.get k) else 0 := by
  induction l with
  | nil => simp [triple_sum]
  | cons a l ih =>
    rw [triple_sum, ih, pair_sum_eq_fin]
    have h1 := Fin.sum_univ_succ (fun i : Fin (l.length + 1) =>
      ∑ j : Fin (l.length + 1), ∑ k : Fin (l.length + 1),
        if i < j ∧ j < k then f ((a :: l).get i) ((a :: l).get j) ((a :: l).get k) else 0)
    refine Eq.trans ?_ h1.symm
    congr 1
    · have h2 := Fin.sum_univ_succ (fun j : Fin (l.length + 1) =>
        ∑ k : Fin (l.length + 1),
          if (0 : Fin (l.length + 1)) < j ∧ j < k
            then f ((a :: l).get (0 : Fin (l.length + 1))) ((a :: l).get j) ((a :: l).get k) else 0)
      refine Eq.trans ?_ h2.symm
      simp only [lt_self_iff_false, false_and, if_false, Finset.sum_const_zero, zero_add]
      refine Finset.sum_congr rfl (fun j _ => ?_)
      have h3 := Fin.sum_univ_succ (fun k : Fin (l.length + 1) =>
          if (0 : Fin (l.length + 1)) < j.succ ∧ j.succ < k
            then f ((a :: l).get (0 : Fin (l.length + 1))) ((a :: l).get j.succ) ((a :: l).get k) else 0)
      refine Eq.trans ?_ h3.symm
      simp [Fin.succ_pos, Fin.succ_lt_succ_iff]
    · refine Finset.sum_congr rfl (fun i _ => ?_)
      have h2 := Fin.sum_univ_succ (fun j : Fin (l.length + 1) =>
        ∑ k : Fin (l.length + 1),
          if i.succ < j ∧ j < k
            then f ((a :: l).get i.succ) ((a :: l).get j) ((a :: l).get k) else 0)
      refine Eq.trans ?_ h2.symm
      simp only [Fin.not_lt_zero, false_and, if_false, Finset.sum_const_zero, zero_add]
      refine Finset.sum_congr rfl (fun j _ => ?_)
      have h3 := Fin.sum_univ_succ (fun k : Fin (l.length + 1) =>
          if i.succ < j.succ ∧ j.succ < k
            then f ((a :: l).get i.succ) ((a :: l).get j.succ) ((a :: l).get k) else 0)
      refine Eq.trans ?_ h3.symm
      simp [Fin.succ_lt_succ_iff]

/-! ## Lemmas on `math` and `vector` -/

theorem math_factorial_eq (n : Nat) :
    math.factorial (n : Int) = Except.ok (math.factorial.loop n (long_double.finite 1)) := by
  simp [math.factorial, assert, bind, Except.bind, pure, Except.pure]

/-- When the three `assert`s hold, `binomial_number( n, k )` returns `binomial_value n k`. -/
theorem math_binomial_number_value (n k : Nat) (hk : 0 < k) (hkn : k ≤ n) :
    math.binomial_number (n : Int) (k : Int) = Except.ok (binomial_value n k) := by
  have hn : 0 < n := lt_of_lt_of_le hk hkn
  have hsub : (n : Int) - (k : Int) = ((n - k : Nat) : Int) := by omega
  have h1 : decide ((n : Int) > 0) = true := by simpa using hn
  have h2 : decide ((k : Int) > 0) = true := by simpa using hk
  have h3 : decide ((n : Int) ≥ (k : Int)) = true := by simpa using hkn
  unfold math.binomial_number
  rw [h1, h2, h3, hsub, math_factorial_eq, math_factorial_eq, math_factorial_eq]
  rfl

/-- For `1 ≤ k ≤ n ≤ 28` the rounded computation gives the binomial coefficient: the table of
the 406 values, evaluated. -/
theorem binomial_value_table :
    (List.range 29).all (fun n => (List.range 29).all (fun k =>
      !(decide (0 < k ∧ k ≤ n)) ||
        decide (binomial_value n k = ((n.choose k : Nat) : Int)))) = true := by
  decide!

theorem binomial_value_eq_choose (n k : Nat) (hk : 0 < k) (hkn : k ≤ n) (hn : n ≤ 28) :
    binomial_value n k = ((n.choose k : Nat) : Int) := by
  have h := binomial_value_table
  rw [List.all_eq_true] at h
  have h1 := h n (List.mem_range.mpr (by omega))
  rw [List.all_eq_true] at h1
  have h2 := h1 k (List.mem_range.mpr (by omega))
  simpa [hk, hkn] using h2

theorem math_binomial_number_eq (n k : Nat) (hk : 0 < k) (hkn : k ≤ n) (hn : n ≤ 28) :
    math.binomial_number (n : Int) (k : Int) = Except.ok ((n.choose k : Nat) : Int) := by
  rw [math_binomial_number_value n k hk hkn, binomial_value_eq_choose n k hk hkn hn]

/-- From 29 on the rounded computation misses binomial coefficients: `binomial_number( 29, k )`
is one below `C(29, k)` for `k = 1, 2, 3`. -/
theorem binomial_value_29 :
    binomial_value 29 1 = 28 ∧ binomial_value 29 2 = 405 ∧ binomial_value 29 3 = 3653 := by
  decide!

theorem vector_new_of_ne (p1 p2 : point R) (h : p1.eq p2 = false) :
    vector.new p1 p2 = Except.ok ⟨p1, p2⟩ := by
  simp [vector.new, assert, point.ne, h, bind, Except.bind, pure, Except.pure]

theorem vector_new_of_eq (p1 p2 : point R) (h : p1.eq p2 = true) :
    vector.new p1 p2 = Except.error Error.assertion_failed := by
  simp [vector.new, assert, point.ne, h, bind, Except.bind]

/-! ## Lemmas on `pair_sum` -/

theorem pair_sum_add {α : Type} (f g : α → α → R) (l : List α) :
    pair_sum (fun a b => f a b + g a b) l = pair_sum f l + pair_sum g l := by
  induction l with
  | nil => simp [pair_sum]
  | cons a l ih =>
    simp only [pair_sum, ih, List.sum_map_add]
    ring

theorem pair_sum_div {α : Type} (f : α → α → R) (c : R) (l : List α) :
    pair_sum (fun a b => f a b / c) l = pair_sum f l / c := by
  induction l with
  | nil => simp [pair_sum]
  | cons a l ih =>
    have h : (l.map (fun b => f a b / c)).sum = (l.map (f a)).sum / c := by
      simp only [div_eq_mul_inv, List.sum_map_mul_right]
    rw [pair_sum, ih, h, pair_sum, add_div]

theorem pair_sum_one {α : Type} (l : List α) :
    pair_sum (fun _ _ => (1 : R)) l = ((l.length.choose 2 : Nat) : R) := by
  induction l with
  | nil => simp [pair_sum]
  | cons a l ih =>
    rw [pair_sum, ih, List.length_cons, Nat.choose_succ_succ, Nat.choose_one_right]
    simp

theorem pair_sum_ite_eq_sum_filter {α : Type} (P : α → α → Prop) [DecidableRel P]
    (g : α → α → R) (l : List α) :
    pair_sum (fun a b => if P a b then g a b else 0) l =
      ∑ p in (Finset.univ : Finset (Fin l.length × Fin l.length)).filter
          (fun p => p.1 < p.2 ∧ P (l.get p.1) (l.get p.2)),
        g (l.get p.1) (l.get p.2) := by
  rw [pair_sum_eq_fin, Finset.sum_filter, Fintype.sum_prod_type]
  refine Finset.sum_congr rfl (fun i _ => Finset.sum_congr rfl (fun j _ => ?_))
  by_cases h1 : i < j <;> by_cases h2 : P (l.get i) (l.get j) <;> simp [h1, h2]

theorem pair_sum_congr {α : Type} (f g : α → α → R) (l : List α)
    (h : ∀ a ∈ l, ∀ b ∈ l, f a b = g a b) : pair_sum f l = pair_sum g l := by
  induction l with
  | nil => simp [pair_sum]
  | cons a l ih =>
    have h1 : l.map (f a) = l.map (g a) :=
      List.map_congr_left (fun b hb => h a (List.mem_cons_self a l) b (List.mem_cons_of_mem a hb))
    rw [pair_sum, pair_sum, h1,
      ih (fun x hx y hy => h x (List.mem_cons_of_mem a hx) y (List.mem_cons_of_mem a hy))]

theorem pair_sum_cons {α : Type} (f : α → α → R) (a : α) (l : List α) :
    pair_sum f (a :: l) = (l.map (f a)).sum + pair_sum f l := rfl

/-! ## Lemmas on `estimate_anisomorphism` -/

theorem estimate_anisomorphism_inner_eq (a : tie_point R) (l : List (tie_point R)) (s d : R) :
    estimate_anisomorphism.inner a.x_y_ a.u_v_ l (s, d) =
      (s + (l.map (fun b =>
          if anisomorphism_contributes a b then anisomorphism_ratio a b else 0)).sum,
        d - (l.map (fun b => if anisomorphism_contributes a b then (0 : R) else 1)).sum) := by
  induction l generalizing s d with
  | nil => simp [estimate_anisomorphism.inner]
  | cons b l ih =>
    by_cases h : anisomorphism_contributes a b
    · have h' : |a.u_v_.x_ - b.u_v_.x_| * |a.x_y_.y_ - b.x_y_.y_| ≠ 0 := h
      simp only [estimate_anisomorphism.inner, tie_point.get, point.get_x, point.get_y, if_pos h',
        ih, List.map_cons, List.sum_cons, if_pos h]
      simp only [anisomorphism_ratio, zero_add, add_assoc]
    · have h' : ¬ |a.u_v_.x_ - b.u_v_.x_| * |a.x_y_.y_ - b.x_y_.y_| ≠ 0 := h
      simp only [estimate_anisomorphism.inner, tie_point.get, point.get_x, point.get_y, if_neg h',
        ih, List.map_cons, List.sum_cons, if_neg h]
      simp only [zero_add, sub_sub]

theorem estimate_anisomorphism_outer_eq (l : List (tie_point R)) (s d : R) :
    estimate_anisomorphism.outer l (s, d) =
      (s + pair_sum (fun a b =>
          if anisomorphism_contributes a b then anisomorphism_ratio a b else 0) l,
        d - pair_sum (fun a b => if anisomorphism_contributes a b then (0 : R) else 1) l) := by
  induction l generalizing s d with
  | nil => simp [estimate_anisomorphism.outer, pair_sum]
  | cons a l ih =>
    cases l with
    | nil => simp [estimate_anisomorphism.outer, pair_sum]
    | cons b rest =>
      rw [estimate_anisomorphism.outer]
      simp only [tie_point.get, estimate_anisomorphism_inner_eq, ih]
      rw [pair_sum_cons _ a, pair_sum_cons _ a, add_assoc, sub_sub]

theorem contributing_pairs_card (l : List (tie_point R)) :
    pair_sum (fun a b => if anisomorphism_contributes a b then (1 : R) else 0) l =
      ((contributing_pairs l).card : R) := by
  rw [pair_sum_ite_eq_sum_filter, contributing_pairs]
  simp

theorem skipped_pairs_count (l : List (tie_point R)) :
    pair_sum (fun a b => if anisomorphism_contributes a b then (0 : R) else 1) l =
      ((l.length.choose 2 : Nat) : R) - ((contributing_pairs l).card : R) := by
  rw [← contributing_pairs_card, ← pair_sum_one l]
  have h : (fun (_ _ : tie_point R) => (1 : R)) = (fun a b =>
      (if anisomorphism_contributes a b then (0 : R) else 1) +
        (if anisomorphism_contributes a b then (1 : R) else 0)) := by
    funext a b
    by_cases h : anisomorphism_contributes a b <;> simp [h]
  rw [h, pair_sum_add]
  simp

/-- The counter `den`, started at `d`, ends at `d` minus the number of the skipped pairs. -/
theorem estimate_anisomorphism_outer_den (l : List (tie_point R)) (d : R) :
    (estimate_anisomorphism.outer l (0, d)).2 =
      d - (((l.length.choose 2 : Nat) : R) - ((contributing_pairs l).card : R)) := by
  rw [estimate_anisomorphism_outer_eq, skipped_pairs_count]

theorem estimate_anisomorphism_outer_den_choose (l : List (tie_point R)) :
    (estimate_anisomorphism.outer l (0, ((l.length.choose 2 : Nat) : R))).2 =
      ((contributing_pairs l).card : R) := by
  rw [estimate_anisomorphism_outer_den]
  ring

theorem estimate_anisomorphism_outer_sum (l : List (tie_point R)) (d : R) :
    (estimate_anisomorphism.outer l (0, d)).1 =
      ∑ p in contributing_pairs l, anisomorphism_ratio (l.get p.1) (l.get p.2) := by
  rw [estimate_anisomorphism_outer_eq, pair_sum_ite_eq_sum_filter, contributing_pairs]
  simp

theorem estimate_anisomorphism_unfold (m : evaluation_measurements R) (l : List (tie_point R))
    (h : 2 ≤ l.length) :
    estimate_anisomorphism m l = Except.ok (true, { m with anisomorphism_ :=
      if (estimate_anisomorphism.outer l (0, ((binomial_value l.length 2 : Int) : R))).2 ≠ 0
      then
        (estimate_anisomorphism.outer l (0, ((binomial_value l.length 2 : Int) : R))).1 /
          (estimate_anisomorphism.outer l (0, ((binomial_value l.length 2 : Int) : R))).2
      else 1 }) := by
  have h2 : ¬ l.length < 2 := by omega
  have hb := math_binomial_number_value l.length 2 (by norm_num) h
  simp only [estimate_anisomorphism, if_neg h2]
  rw [show ((2 : Int)) = ((2 : Nat) : Int) from rfl, hb]
  simp [bind, Except.bind, pure, Except.pure]

theorem estimate_anisomorphism_unfold_small (m : evaluation_measurements R)
    (l : List (tie_point R)) (h : 2 ≤ l.length) (h28 : l.length ≤ 28) :
    estimate_anisomorphism m l = Except.ok (true, { m with anisomorphism_ :=
      if (estimate_anisomorphism.outer l (0, ((l.length.choose 2 : Nat) : R))).2 ≠ 0 then
        (estimate_anisomorphism.outer l (0, ((l.length.choose 2 : Nat) : R))).1 /
          (estimate_anisomorphism.outer l (0, ((l.length.choose 2 : Nat) : R))).2
      else 1 }) := by
  rw [estimate_anisomorphism_unfold m l h,
    binomial_value_eq_choose l.length 2 (by norm_num) h h28, Int.cast_natCast]

/-- What `estimate_anisomorphism` stores for a list of `n >= 2` tie points, whatever the value
`den` that `binomial_number( n, 2 )` returned: the counter ends at `den` minus the number of the
skipped pairs, and the sum of the ratios of the contributing pairs is divided by it unless it
is `0`. -/
theorem estimate_anisomorphism_stored (m : evaluation_measurements R) (l : List (tie_point R))
    (h : 2 ≤ l.length) :
    estimate_anisomorphism m l = Except.ok (true, { m with anisomorphism_ :=
      if ((binomial_value l.length 2 : Int) : R) -
          (((l.length.choose 2 : Nat) : R) - ((contributing_pairs l).card : R)) ≠ 0 then
        (∑ p in contributing_pairs l, anisomorphism_ratio (l.get p.1) (l.get p.2)) /
          (((binomial_value l.length 2 : Int) : R) -
            (((l.length.choose 2 : Nat) : R) - ((contributing_pairs l).card : R)))
      else 1 }) := by
  rw [estimate_anisomorphism_unfold m l h, estimate_anisomorphism_outer_den,
    estimate_anisomorphism_outer_sum]

/-- For a list of `2 <= n <= 28` tie points (where `binomial_number( n, 2 )` is `C(n,2)`)
`estimate_anisomorphism` returns `true` and stores the sum of the ratios of the contributing
pairs divided by their number, or `1` when no pair contributes; the running counter `den` ends
equal to the number of contributing pairs. -/
theorem estimate_anisomorphism_mean_small (m : evaluation_measurements R)
    (l : List (tie_point R)) (h : 2 ≤ l.length) (h28 : l.length ≤ 28) :
    estimate_anisomorphism m l = Except.ok (true, { m with anisomorphism_ :=
      if (contributing_pairs l).card = 0 then 1
      else (∑ p in contributing_pairs l, anisomorphism_ratio (l.get p.1) (l.get p.2)) /
        ((contributing_pairs l).card : R) }) ∧
    (estimate_anisomorphism.outer l (0, ((binomial_value l.length 2 : Int) : R))).2 =
      ((contributing_pairs l).card : R) := by
  rw [binomial_value_eq_choose l.length 2 (by norm_num) h h28, Int.cast_natCast]
  refine ⟨?_, estimate_anisomorphism_outer_den_choose l⟩
  rw [estimate_anisomorphism_unfold_small m l h h28, estimate_anisomorphism_outer_den_choose,
    estimate_anisomorphism_outer_sum]
  by_cases hc : (contributing_pairs l).card = 0
  · simp [hc]
  · have hc' : ((contributing_pairs l).card : R) ≠ 0 := Nat.cast_ne_zero.mpr hc
    rw [if_pos hc', if_neg hc]

/-- An example: three tie points, two contributing pairs with ratios `1` and `0`. -/
theorem estimate_anisomorphism_mean_small_example :
    estimate_anisomorphism (⟨5, 6, 7⟩ : evaluation_measurements ℚ)
        [⟨⟨0, 0, 1, 1⟩, ⟨0, 0, 1, 1⟩, tie_point.type.CONTROL⟩,
          ⟨⟨1, 1, 1, 1⟩, ⟨2, 2, 1, 1⟩, tie_point.type.CONTROL⟩,
          ⟨⟨1, 2, 1, 1⟩, ⟨3, 3, 1, 1⟩, tie_point.type.CONTROL⟩] =
      Except.ok (true, ⟨5, 1 / 2, 7⟩) :=
  (estimate_anisomorphism_mean_small _ _ (by decide) (by decide)).1.trans (by decide!)

theorem anisomorphism_ratio_of_double (a b : tie_point R)
    (ha : a.u_v_.x_ = 2 * a.x_y_.x_ ∧ a.u_v_.y_ = 2 * a.x_y_.y_)
    (hb : b.u_v_.x_ = 2 * b.x_y_.x_ ∧ b.u_v_.y_ = 2 * b.x_y_.y_)
    (h : anisomorphism_contributes a b) : anisomorphism_ratio a b = 1 := by
  unfold anisomorphism_contributes at h
  unfold anisomorphism_ratio
  rw [ha.1, hb.1] at h ⊢
  rw [ha.2, hb.2]
  have hx : |2 * a.x_y_.x_ - 2 * b.x_y_.x_| = 2 * |a.x_y_.x_ - b.x_y_.x_| := by
    rw [← mul_sub, abs_mul, abs_two]
  have hy : |2 * a.x_y_.y_ - 2 * b.x_y_.y_| = 2 * |a.x_y_.y_ - b.x_y_.y_| := by
    rw [← mul_sub, abs_mul, abs_two]
  rw [hx] at h ⊢
  rw [hy]
  rw [div_eq_one_iff_eq h]
  ring

/-- For a list of at least 2 and at most 28 tie points whose reference points are the work
points scaled by 2 on both axes, `estimate_anisomorphism` returns `true` and stores `1`. -/
theorem estimate_anisomorphism_uniform_scale_small (m : evaluation_measurements R)
    (l : List (tie_point R)) (h : 2 ≤ l.length) (h28 : l.length ≤ 28)
    (hs : ∀ t ∈ l, t.u_v_.x_ = 2 * t.x_y_.x_ ∧ t.u_v_.y_ = 2 * t.x_y_.y_) :
    estimate_anisomorphism m l = Except.ok (true, { m with anisomorphism_ := 1 }) := by
  have hsum : (estimate_anisomorphism.outer l (0, ((l.length.choose 2 : Nat) : R))).1 =
      ((contributing_pairs l).card : R) := by
    rw [estimate_anisomorphism_outer_eq, ← contributing_pairs_card, zero_add]
    refine pair_sum_congr _ _ l (fun a ha b hb => ?_)
    by_cases hc : anisomorphism_contributes a b
    · rw [if_pos hc, if_pos hc, anisomorphism_ratio_of_double a b (hs a ha) (hs b hb) hc]
    · rw [if_neg hc, if_neg hc]
  rw [estimate_anisomorphism_unfold_small m l h h28, estimate_anisomorphism_outer_den_choose,
    hsum]
  by_cases hc : ((contributing_pairs l).card : R) = 0
  · simp [hc]
  · rw [if_pos hc, div_self hc]

/-- An example: three tie points with reference `= 2 * work`. -/
theorem estimate_anisomorphism_uniform_scale_small_example :
    estimate_anisomorphism (⟨5, 6, 7⟩ : evaluation_measurements ℚ)
        [⟨⟨0, 0, 1, 1⟩, ⟨0, 0, 1, 1⟩, tie_point.type.CONTROL⟩,
          ⟨⟨1, 3, 1, 1⟩, ⟨2, 6, 1, 1⟩, tie_point.type.CONTROL⟩,
          ⟨⟨4, 3, 1, 1⟩, ⟨8, 6, 1, 1⟩, tie_point.type.CONTROL⟩] =
      Except.ok (true, ⟨5, 1, 7⟩) :=
  estimate_anisomorphism_uniform_scale_small _ _ (by decide) (by decide) (by decide!)

/-! ## Lemmas on `estimate_similarity` -/

theorem triple_sum_cons {α : Type} (f : α → α → α → R) (a : α) (l : List α) :
    triple_sum f (a :: l) = pair_sum (f a) l + triple_sum f l := rfl

theorem triple_sum_eq_sum_filter {α : Type} (f : α → α → α → R) (l : List α) :
    triple_sum f l =
      ∑ t in (position_triples l.length), f (l.get t.1) (l.get t.2.1) (l.get t.2.2) := by
  rw [triple_sum_eq_fin, position_triples, Finset.sum_filter, Fintype.sum_prod_type]
  refine Finset.sum_congr rfl (fun i _ => ?_)
  rw [Fintype.sum_prod_type]

theorem estimate_similarity_inner_eq (sqrt acos : R → R) (den : R) (a b : tie_point R)
    (hw : a.x_y_.eq b.x_y_ = false) (hr : a.u_v_.eq b.u_v_ = false) (l : List (tie_point R))
    (hl : ∀ c ∈ l, a.x_y_.eq c.x_y_ = false ∧ a.u_v_.eq c.u_v_ = false) (s : R) :
    estimate_similarity.inner sqrt acos den a.x_y_ a.u_v_ b.x_y_ b.u_v_ l s =
      Except.ok (s + (l.map (fun c => similarity_ratio sqrt acos a b c / den)).sum) := by
  induction l generalizing s with
  | nil => simp [estimate_similarity.inner]
  | cons c l ih =>
    have hc := hl c (List.mem_cons_self c l)
    rw [estimate_similarity.inner]
    simp only [tie_point.get, vector_new_of_ne _ _ hw, vector_new_of_ne _ _ hr,
      vector_new_of_ne _ _ hc.1, vector_new_of_ne _ _ hc.2]
    rw [ih (fun x hx => hl x (List.mem_cons_of_mem c hx))]
    simp only [List.map_cons, List.sum_cons, similarity_ratio, add_assoc]

theorem estimate_similarity_middle_eq (sqrt acos : R → R) (den : R) (a : tie_point R)
    (l : List (tie_point R))
    (hl : ∀ c ∈ l, a.x_y_.eq c.x_y_ = false ∧ a.u_v_.eq c.u_v_ = false) (s : R) :
    estimate_similarity.middle sqrt acos den a.x_y_ a.u_v_ l s =
      Except.ok (s + pair_sum (fun b c => similarity_ratio sqrt acos a b c / den) l) := by
  induction l generalizing s with
  | nil => simp [estimate_similarity.middle, pair_sum]
  | cons b l ih =>
    cases l with
    | nil => simp [estimate_similarity.middle, pair_sum]
    | cons c rest =>
      have hb := hl b (List.mem_cons_self b _)
      have hrest : ∀ x ∈ c :: rest, a.x_y_.eq x.x_y_ = false ∧ a.u_v_.eq x.u_v_ = false :=
        fun x hx => hl x (List.mem_cons_of_mem b hx)
      rw [estimate_similarity.middle]
      simp only [tie_point.get]
      rw [estimate_similarity_inner_eq sqrt acos den a b hb.1 hb.2 (c :: rest) hrest]
      simp only []
      rw [ih hrest, pair_sum_cons _ b, add_assoc]

theorem estimate_similarity_outer_eq (sqrt acos : R → R) (den : R) (l : List (tie_point R))
    (hw : l.Pairwise (fun a b => a.x_y_.eq b.x_y_ = false))
    (hr : l.Pairwise (fun a b => a.u_v_.eq b.u_v_ = false)) (s : R) :
    estimate_similarity.outer sqrt acos den l s =
      Except.ok (s + triple_sum (fun a b c => similarity_ratio sqrt acos a b c / den) l) := by
  induction l generalizing s with
  | nil => simp [estimate_similarity.outer, triple_sum]
  | cons a l ih =>
    have hw' := List.pairwise_cons.mp hw
    have hr' := List.pairwise_cons.mp hr
    match l, ih, hw', hr' with
    | [], _, _, _ => simp [estimate_similarity.outer, triple_sum, pair_sum]
    | [b], _, _, _ => simp [estimate_similarity.outer, triple_sum, pair_sum]
    | b :: c :: rest, ih, hw', hr' =>
      rw [estimate_similarity.outer]
      simp only [tie_point.get]
      rw [estimate_similarity_middle_eq sqrt acos den a (b :: c :: rest)
        (fun x hx => ⟨hw'.1 x hx, hr'.1 x hx⟩)]
      simp only []
      rw [ih hw'.2 hr'.2, triple_sum_cons _ a, add_assoc]

/-- What `estimate_similarity` stores for a list of `n >= 3` tie points with pairwise distinct
work points and pairwise distinct reference points, whatever the value `den` that
`binomial_number( n, 3 )` returned: the sum over the position triples `i < j < k` of
`similarity_ratio / den` (a quotient by a reference angle `0` is the `0` of the field here, not
the infinity or NaN of a `double`). -/
theorem estimate_similarity_stored (sqrt acos : R → R) (m : evaluation_measurements R)
    (l : List (tie_point R)) (h : 3 ≤ l.length)
    (hw : l.Pairwise (fun a b => a.x_y_.eq b.x_y_ = false))
    (hr : l.Pairwise (fun a b => a.u_v_.eq b.u_v_ = false)) :
    estimate_similarity sqrt acos m l = Except.ok (true, { m with similarity_ :=
      (∑ t in position_triples l.length,
        similarity_ratio sqrt acos (l.get t.1) (l.get t.2.1) (l.get t.2.2) /
          ((binomial_value l.length 3 : Int) : R)) }) := by
  have h3 : ¬ l.length < 3 := by omega
  have hb := math_binomial_number_value l.length 3 (by norm_num) h
  simp only [estimate_similarity, if_neg h3]
  rw [show ((3 : Int)) = ((3 : Nat) : Int) from rfl, hb]
  simp only [bind, Except.bind]
  rw [estimate_similarity_outer_eq sqrt acos _ l hw hr, triple_sum_eq_sum_filter]
  simp [pure, Except.pure]

/-- For `3 <= n <= 28` the divisor is `C(n,3)`. -/
theorem estimate_similarity_sum_small (sqrt acos : R → R) (m : evaluation_measurements R)
    (l : List (tie_point R)) (h : 3 ≤ l.length) (h28 : l.length ≤ 28)
    (hw : l.Pairwise (fun a b => a.x_y_.eq b.x_y_ = false))
    (hr : l.Pairwise (fun a b => a.u_v_.eq b.u_v_ = false)) :
    estimate_similarity sqrt acos m l = Except.ok (true, { m with similarity_ :=
      (∑ t in position_triples l.length,
        similarity_ratio sqrt acos (l.get t.1) (l.get t.2.1) (l.get t.2.2) /
          ((l.length.choose 3 : Nat) : R)) }) := by
  rw [estimate_similarity_stored sqrt acos m l h hw hr,
    binomial_value_eq_choose l.length 3 (by norm_num) h h28, Int.cast_natCast]

/-! ## Lemmas on the order of tie points and on `std_set` -/

theorem key_lt_iff_lex (a b : R × R × R × R) : key_lt a b ↔ lex_key a < lex_key b := by
  simp only [key_lt, lex_key, Prod.Lex.lt_iff, ofLex_toLex]

theorem key_lt_irrefl (a : R × R × R × R) : ¬ key_lt a a := by
  rw [key_lt_iff_lex]; exact lt_irrefl _

theorem key_lt_trans {a b c : R × R × R × R} (h1 : key_lt a b) (h2 : key_lt b c) :
    key_lt a c := by
  rw [key_lt_iff_lex] at *; exact lt_trans h1 h2

theorem key_lt_asymm {a b : R × R × R × R} (h1 : key_lt a b) : ¬ key_lt b a := by
  rw [key_lt_iff_lex] at *; exact lt_asymm h1

theorem key_eq_of_not_lt {a b : R × R × R × R} (h1 : ¬ key_lt a b) (h2 : ¬ key_lt b a) :
    a = b := by
  rw [key_lt_iff_lex] at *
  have h : lex_key a = lex_key b := le_antisymm (not_lt.mp h2) (not_lt.mp h1)
  obtain ⟨a1, a2, a3, a4⟩ := a
  obtain ⟨b1, b2, b3, b4⟩ := b
  simpa [lex_key] using h

theorem point_lt_iff (a p : point R) :
    a.lt p = true ↔ a.x_ < p.x_ ∨ (a.x_ = p.x_ ∧ a.y_ < p.y_) := by
  simp [point.lt]

theorem tie_point_lt_iff (a b : tie_point R) : a.lt b = true ↔ key_lt a.key b.key := by
  simp only [tie_point.lt, Bool.or_eq_true, Bool.and_eq_true, point_lt_iff, point_eq_iff,
    key_lt, tie_point.key]
  tauto

theorem tie_point_eq_iff (a b : tie_point R) : a.eq b = true ↔ a.key = b.key := by
  simp only [tie_point.eq, Bool.and_eq_true, point_eq_iff, tie_point.key, Prod.mk.injEq]
  tauto

theorem std_set_mem_insert (t : tie_point R) (s : List (tie_point R)) (k : R × R × R × R) :
    k ∈ (std_set.insert t s).map tie_point.key ↔ k = t.key ∨ k ∈ s.map tie_point.key := by
  induction s with
  | nil => simp [std_set.insert]
  | cons a s ih =>
    rw [std_set.insert]
    by_cases h1 : t.lt a = true
    · rw [if_pos h1]; simp
    · rw [if_neg h1]
      by_cases h2 : a.lt t = true
      · rw [if_pos h2, List.map_cons, List.mem_cons, ih]
        simp only [List.map_cons, List.mem_cons]
        tauto
      · rw [if_neg h2]
        rw [tie_point_lt_iff] at h1 h2
        have hk : t.key = a.key := key_eq_of_not_lt h1 h2
        simp only [List.map_cons, List.mem_cons, hk]
        tauto

theorem std_set_insert_sorted (t : tie_point R) (s : List (tie_point R))
    (hs : (s.map tie_point.key).Pairwise key_lt) :
    ((std_set.insert t s).map tie_point.key).Pairwise key_lt := by
  induction s with
  | nil => simp [std_set.insert]
  | cons a s ih =>
    rw [List.map_cons, List.pairwise_cons] at hs
    rw [std_set.insert]
    by_cases h1 : t.lt a = true
    · rw [if_pos h1]
      rw [tie_point_lt_iff] at h1
      simp only [List.map_cons, List.pairwise_cons, List.mem_cons]
      refine ⟨?_, hs.1, hs.2⟩
      rintro k (rfl | hk)
      · exact h1
      · exact key_lt_trans h1 (hs.1 k hk)
    · rw [if_neg h1]
      by_cases h2 : a.lt t = true
      · rw [if_pos h2, List.map_cons, List.pairwise_cons]
        refine ⟨?_, ih hs.2⟩
        intro k hk
        rw [std_set_mem_insert] at hk
        rcases hk with rfl | hk
        · exact (tie_point_lt_iff a t).mp h2
        · exact hs.1 k hk
      · rw [if_neg h2, List.map_cons, List.pairwise_cons]
        exact hs

theorem std_set_foldl_spec (l s : List (tie_point R))
    (hs : (s.map tie_point.key).Pairwise key_lt) :
    ((l.foldl (fun s t => std_set.insert t s) s).map tie_point.key).Pairwise key_lt ∧
    ∀ k, k ∈ (l.foldl (fun s t => std_set.insert t s) s).map tie_point.key ↔
      k ∈ l.map tie_point.key ∨ k ∈ s.map tie_point.key := by
  induction l generalizing s with
  | nil => simp [hs]
  | cons t l ih =>
    have h := ih (std_set.insert t s) (std_set_insert_sorted t s hs)
    refine ⟨h.1, fun k => ?_⟩
    rw [List.foldl_cons, h.2 k, std_set_mem_insert]
    simp only [List.map_cons, List.mem_cons]
    tauto

theorem std_set_sorted (l : List (tie_point R)) :
    ((std_set l).map tie_point.key).Pairwise key_lt :=
  (std_set_foldl_spec l [] (by simp)).1

theorem std_set_keys (l : List (tie_point R)) : key_set (std_set l) = key_set l := by
  ext k
  simp only [key_set, List.mem_toFinset]
  rw [std_set, (std_set_foldl_spec l [] (by simp)).2 k]
  simp

theorem std_set_nodup (l : List (tie_point R)) : ((std_set l).map tie_point.key).Nodup := by
  refine (std_set_sorted l).imp ?_
  intro a b h hab
  rw [hab] at h
  exact key_lt_irrefl b h

theorem std_set_length (l : List (tie_point R)) : (std_set l).length = (key_set l).card := by
  rw [← std_set_keys, key_set, List.toFinset_card_of_nodup (std_set_nodup l), List.length_map]

/-! ## Lemmas on `estimate_length_var` -/

theorem nondegenerate_iff (a b : tie_point R) :
    nondegenerate a b ↔ ((a.key.1, a.key.2.1) ≠ (b.key.1, b.key.2.1) ∧
      (a.key.2.2.1, a.key.2.2.2) ≠ (b.key.2.2.1, b.key.2.2.2)) := by
  simp only [nondegenerate, ← Bool.not_eq_true, point_eq_iff, tie_point.key, ne_eq,
    Prod.mk.injEq]

theorem nondegenerate_symm (a b : tie_point R) (h : nondegenerate a b) : nondegenerate b a := by
  unfold nondegenerate at *
  rw [point_eq_swap b.x_y_, point_eq_swap b.u_v_]
  exact h

theorem not_nondegenerate_iff (a b : tie_point R) :
    ¬ nondegenerate a b ↔ (a.x_y_.eq b.x_y_ || a.u_v_.eq b.u_v_) = true := by
  unfold nondegenerate
  cases a.x_y_.eq b.x_y_ <;> cases a.u_v_.eq b.u_v_ <;> simp

theorem length_vector_ratio (sqrt : R → R) (a b : tie_point R) :
    vector.length_vector sqrt ⟨a.x_y_, b.x_y_⟩ / vector.length_vector sqrt ⟨a.u_v_, b.u_v_⟩ =
      length_ratio sqrt a.key b.key := rfl

theorem estimate_length_var_inner_ok (sqrt : R → R) (den : R) (a : tie_point R)
    (l : List (tie_point R)) (hl : ∀ b ∈ l, nondegenerate a b) (lv : R) :
    estimate_length_var.inner sqrt den a.x_y_ a.u_v_ l lv =
      Except.ok (true, lv + (l.map (fun b => length_ratio sqrt a.key b.key / den)).sum) := by
  induction l generalizing lv with
  | nil => simp [estimate_length_var.inner]
  | cons b l ih =>
    have hb := hl b (List.mem_cons_self b l)
    have hb' : ¬ (a.x_y_.eq b.x_y_ || a.u_v_.eq b.u_v_) = true := by
      rw [← not_nondegenerate_iff]; exact not_not.mpr hb
    rw [estimate_length_var.inner]
    simp only [tie_point.get, if_neg hb', vector_new_of_ne _ _ hb.1, vector_new_of_ne _ _ hb.2]
    rw [ih (fun x hx => hl x (List.mem_cons_of_mem b hx)), length_vector_ratio]
    simp only [List.map_cons, List.sum_cons, add_assoc]

theorem estimate_length_var_inner_flag (sqrt : R → R) (den : R) (a : tie_point R)
    (l : List (tie_point R)) (lv : R) :
    ∃ b lv', estimate_length_var.inner sqrt den a.x_y_ a.u_v_ l lv = Except.ok (b, lv') ∧
      (b = true ↔ ∀ c ∈ l, nondegenerate a c) := by
  induction l generalizing lv with
  | nil => exact ⟨true, lv, by simp [estimate_length_var.inner]⟩
  | cons c l ih =>
    by_cases hc : nondegenerate a c
    · have hc' : ¬ (a.x_y_.eq c.x_y_ || a.u_v_.eq c.u_v_) = true := by
        rw [← not_nondegenerate_iff]; exact not_not.mpr hc
      obtain ⟨b, lv', h1, h2⟩ := ih
        (lv + (vector.length_vector sqrt ⟨a.x_y_, c.x_y_⟩ /
          vector.length_vector sqrt ⟨a.u_v_, c.u_v_⟩) / den)
      refine ⟨b, lv', ?_, ?_⟩
      · rw [estimate_length_var.inner]
        simp only [tie_point.get, if_neg hc', vector_new_of_ne _ _ hc.1,
          vector_new_of_ne _ _ hc.2]
        exact h1
      · rw [h2]
        simp [hc]
    · refine ⟨false, lv, ?_, ?_⟩
      · rw [estimate_length_var.inner]
        simp only [tie_point.get, if_pos ((not_nondegenerate_iff a c).mp hc)]
      · simp [hc]

theorem estimate_length_var_outer_ok (sqrt : R → R) (den : R) (l : List (tie_point R))
    (hl : l.Pairwise nondegenerate) (lv : R) :
    estimate_length_var.outer sqrt den l lv =
      Except.ok (true, lv + pair_sum (fun a b => length_ratio sqrt a.key b.key / den) l) := by
  induction l generalizing lv with
  | nil => simp [estimate_length_var.outer, pair_sum]
  | cons a l ih =>
    have hl' := List.pairwise_cons.mp hl
    match l, ih, hl' with
    | [], _, _ => simp [estimate_length_var.outer, pair_sum]
    | b :: rest, ih, hl' =>
      rw [estimate_length_var.outer]
      simp only [tie_point.get]
      rw [estimate_length_var_inner_ok sqrt den a (b :: rest) hl'.1]
      simp only []
      rw [ih hl'.2, pair_sum_cons _ a, add_assoc]

theorem estimate_length_var_outer_flag (sqrt : R → R) (den : R) (l : List (tie_point R))
    (lv : R) :
    ∃ b lv', estimate_length_var.outer sqrt den l lv = Except.ok (b, lv') ∧
      (b = true ↔ l.Pairwise nondegenerate) := by
  induction l generalizing lv with
  | nil => exact ⟨true, lv, by simp [estimate_length_var.outer]⟩
  | cons a l ih =>
    match l, ih with
    | [], _ => exact ⟨true, lv, by simp [estimate_length_var.outer]⟩
    | c :: rest, ih =>
      obtain ⟨b1, lv1, h1, h2⟩ := estimate_length_var_inner_flag sqrt den a (c :: rest) lv
      cases b1 with
      | false =>
        refine ⟨false, lv1, ?_, ?_⟩
        · rw [estimate_length_var.outer]
          simp only [tie_point.get, h1]
        · rw [List.pairwise_cons]
          constructor
          · intro h; exact absurd h (by simp)
          · intro h; exact h2.mpr h.1
      | true =>
        obtain ⟨b2, lv2, h3, h4⟩ := ih lv1
        refine ⟨b2, lv2, ?_, ?_⟩
        · rw [estimate_length_var.outer]
          simp only [tie_point.get, h1]
          exact h3
        · rw [h4, List.pairwise_cons (a := a)]
          constructor
          · intro h; exact ⟨h2.mp rfl, h⟩
          · intro h; exact h.2

theorem estimate_length_var_of_outer (sqrt : R → R) (m : evaluation_measurements R)
    (l : List (tie_point R)) (h : 2 ≤ (key_set l).card) (b : Bool) (lv : R)
    (ho : estimate_length_var.outer sqrt ((binomial_value (key_set l).card 2 : Int) : R)
      (std_set l) 0 = Except.ok (b, lv)) :
    estimate_length_var sqrt m l = Except.ok (b, { m with length_variation_ := lv }) := by
  have h2 : ¬ (std_set l).length < 2 := by rw [std_set_length]; omega
  have hb := math_binomial_number_value (key_set l).card 2 (by norm_num) h
  simp only [estimate_length_var, if_neg h2]
  rw [std_set_length, show ((2 : Int)) = ((2 : Nat) : Int) from rfl, hb]
  simp only [bind, Except.bind, ho, pure, Except.pure]

theorem estimate_length_var_of_outer_small (sqrt : R → R) (m : evaluation_measurements R)
    (l : List (tie_point R)) (h : 2 ≤ (key_set l).card) (h28 : (key_set l).card ≤ 28)
    (b : Bool) (lv : R)
    (ho : estimate_length_var.outer sqrt (((key_set l).card.choose 2 : Nat) : R) (std_set l) 0 =
      Except.ok (b, lv)) :
    estimate_length_var sqrt m l = Except.ok (b, { m with length_variation_ := lv }) := by
  refine estimate_length_var_of_outer sqrt m l h b lv ?_
  rw [binomial_value_eq_choose (key_set l).card 2 (by norm_num) h h28, Int.cast_natCast]
  exact ho

theorem estimate_length_var_of_lt (sqrt : R → R) (m : evaluation_measurements R)
    (l : List (tie_point R)) (h : (key_set l).card < 2) :
    estimate_length_var sqrt m l = Except.ok (false, m) := by
  have h2 : (std_set l).length < 2 := by rw [std_set_length]; exact h
  simp only [estimate_length_var, if_pos h2]

theorem std_set_pairwise_iff (l : List (tie_point R)) :
    (std_set l).Pairwise nondegenerate ↔
      ∀ a ∈ key_set l, ∀ b ∈ key_set l, a ≠ b →
        ((a.1, a.2.1) ≠ (b.1, b.2.1) ∧ (a.2.2.1, a.2.2.2) ≠ (b.2.2.1, b.2.2.2)) := by
  constructor
  · intro h a ha b hb hab
    rw [← std_set_keys, key_set, List.mem_toFinset, List.mem_map] at ha hb
    obtain ⟨ta, hta, rfl⟩ := ha
    obtain ⟨tb, htb, rfl⟩ := hb
    have hne : ta ≠ tb := fun e => hab (by rw [e])
    exact (nondegenerate_iff ta tb).mp
      (List.Pairwise.forall (fun x y hxy => nondegenerate_symm x y hxy) h hta htb hne)
  · intro h
    have hs : (std_set l).Pairwise (fun a b => key_lt a.key b.key) :=
      List.pairwise_map.mp (std_set_sorted l)
    refine hs.imp_of_mem ?_
    intro a b ha hb hab
    have hka : a.key ∈ key_set l := by
      rw [← std_set_keys, key_set, List.mem_toFinset]; exact List.mem_map_of_mem _ ha
    have hkb : b.key ∈ key_set l := by
      rw [← std_set_keys, key_set, List.mem_toFinset]; exact List.mem_map_of_mem _ hb
    have hne : a.key ≠ b.key := fun e => key_lt_irrefl b.key (e ▸ hab)
    exact (nondegenerate_iff a b).mpr (h a.key hka b.key hkb hne)

theorem pair_sum_map {α β : Type} (g : β → β → R) (f : α → β) (l : List α) :
    pair_sum (fun a b => g (f a) (f b)) l = pair_sum g (l.map f) := by
  induction l with
  | nil => simp [pair_sum]
  | cons a l ih => simp only [pair_sum, List.map_cons, List.map_map, ih]; rfl

theorem sum_key_pairs (g : (R × R × R × R) → (R × R × R × R) → R)
    (S : Finset (R × R × R × R)) :
    ∑ p in key_pairs S, g p.1 p.2 = ∑ a in S, ∑ b in S, if key_lt a b then g a b else 0 := by
  rw [key_pairs, Finset.sum_filter, Finset.sum_product]

theorem pair_sum_sorted (g : (R × R × R × R) → (R × R × R × R) → R)
    (ks : List (R × R × R × R)) (hks : ks.Pairwise key_lt) :
    pair_sum g ks = ∑ p in key_pairs ks.toFinset, g p.1 p.2 := by
  induction ks with
  | nil => simp [pair_sum, key_pairs]
  | cons k ks ih =>
    rw [List.pairwise_cons] at hks
    have hk : k ∉ ks.toFinset := by
      rw [List.mem_toFinset]
      intro hmem
      exact key_lt_irrefl k (hks.1 k hmem)
    have hnodup : ks.Nodup := by
      refine hks.2.imp ?_
      intro a b h hab
      rw [hab] at h
      exact key_lt_irrefl b h
    rw [pair_sum_cons, ih hks.2, sum_key_pairs, sum_key_pairs, List.toFinset_cons,
      Finset.sum_insert hk, Finset.sum_insert hk]
    have h1 : (∑ b in ks.toFinset, if key_lt k b then g k b else 0) = (ks.map (g k)).sum := by
      rw [List.sum_toFinset _ hnodup]
      congr 1
      refine List.map_congr_left (fun b hb => ?_)
      rw [if_pos (hks.1 b hb)]
    have h2 : ∀ a ∈ ks.toFinset,
        (∑ b in insert k ks.toFinset, if key_lt a b then g a b else 0) =
          ∑ b in ks.toFinset, if key_lt a b then g a b else 0 := by
      intro a ha
      rw [Finset.sum_insert hk, if_neg (key_lt_asymm (hks.1 a (List.mem_toFinset.mp ha))),
        zero_add]
    rw [if_neg (key_lt_irrefl k), zero_add, h1, Finset.sum_congr rfl h2]

theorem pair_sum_congr_pairwise {α : Type} (f g : α → α → R) (l : List α)
    (h : l.Pairwise (fun a b => f a b = g a b)) : pair_sum f l = pair_sum g l := by
  induction l with
  | nil => simp [pair_sum]
  | cons a l ih =>
    rw [List.pairwise_cons] at h
    have h1 : l.map (f a) = l.map (g a) := List.map_congr_left (fun b hb => h.1 b hb)
    rw [pair_sum, pair_sum, h1, ih h.2]

theorem length_ratio_symm (sqrt : R → R) (a b : R × R × R × R) :
    length_ratio sqrt a b = length_ratio sqrt b a := by
  simp only [length_ratio, distance]
  have h : ∀ x y : R, (x - y) ^ 2 = (y - x) ^ 2 := fun x y => by ring
  rw [h a.1, h a.2.1, h a.2.2.1, h a.2.2.2]

theorem key_pairs_card (l : List (tie_point R)) :
    (key_pairs (key_set l)).card = (key_set l).card.choose 2 := by
  have h1 := pair_sum_sorted (fun _ _ => (1 : R)) _ (std_set_sorted l)
  rw [pair_sum_one, List.length_map, std_set_length] at h1
  have h2 : key_set l = ((std_set l).map tie_point.key).toFinset := (std_set_keys l).symm
  rw [← h2] at h1
  simp only [Finset.sum_const, nsmul_eq_mul, mul_one] at h1
  exact (Nat.cast_injective h1).symm

/-- What `estimate_length_var` stores when the set of the distinct tie points of the list has
`n >= 2` elements with pairwise distinct work points and pairwise distinct reference points,
whatever the value `den` that `binomial_number( n, 2 )` returned: the sum over the unordered
pairs of the set of the ratio of the work distance to the reference distance, divided by
`den`. -/
theorem estimate_length_var_stored (sqrt : R → R) (m : evaluation_measurements R)
    (l : List (tie_point R)) (h : 2 ≤ (key_set l).card)
    (hd : ∀ a ∈ key_set l, ∀ b ∈ key_set l, a ≠ b →
      ((a.1, a.2.1) ≠ (b.1, b.2.1) ∧ (a.2.2.1, a.2.2.2) ≠ (b.2.2.1, b.2.2.2))) :
    estimate_length_var sqrt m l = Except.ok (true, { m with length_variation_ :=
      (∑ p in key_pairs (key_set l), length_ratio sqrt p.1 p.2) /
        ((binomial_value (key_set l).card 2 : Int) : R) }) := by
  refine estimate_length_var_of_outer sqrt m l h true _ ?_
  rw [estimate_length_var_outer_ok sqrt _ _ ((std_set_pairwise_iff l).mpr hd), zero_add,
    pair_sum_div, pair_sum_map (length_ratio sqrt) tie_point.key,
    pair_sum_sorted _ _ (std_set_sorted l)]
  have h2 : ((std_set l).map tie_point.key).toFinset = key_set l := std_set_keys l
  rw [h2]

/-- For a set of `2 <= n <= 28` elements the divisor is `C(n,2)`: the stored value is the mean
of the ratios over the unordered pairs of the set. -/
theorem estimate_length_var_mean_small (sqrt : R → R) (m : evaluation_measurements R)
    (l : List (tie_point R)) (h : 2 ≤ (key_set l).card) (h28 : (key_set l).card ≤ 28)
    (hd : ∀ a ∈ key_set l, ∀ b ∈ key_set l, a ≠ b →
      ((a.1, a.2.1) ≠ (b.1, b.2.1) ∧ (a.2.2.1, a.2.2.2) ≠ (b.2.2.1, b.2.2.2))) :
    estimate_length_var sqrt m l = Except.ok (true, { m with length_variation_ :=
      (∑ p in key_pairs (key_set l), length_ratio sqrt p.1 p.2) /
        (((key_set l).card.choose 2 : Nat) : R) }) := by
  rw [estimate_length_var_stored sqrt m l h hd,
    binomial_value_eq_choose (key_set l).card 2 (by norm_num) h h28, Int.cast_natCast]

/-- An example with `Rat.sqrt`: three distinct tie points on a line (one given twice, in
another role), every pair with ratio `1/2`. -/
theorem estimate_length_var_mean_small_example :
    estimate_length_var Rat.sqrt (⟨5, 6, 7⟩ : evaluation_measurements ℚ)
        [⟨⟨3, 4, 1, 1⟩, ⟨6, 8, 1, 1⟩, tie_point.type.CONTROL⟩,
          ⟨⟨0, 0, 1, 1⟩, ⟨0, 0, 1, 1⟩, tie_point.type.CONTROL⟩,
          ⟨⟨3, 4, 1, 1⟩, ⟨6, 8, 1, 1⟩, tie_point.type.CHECK⟩,
          ⟨⟨6, 8, 1, 1⟩, ⟨12, 16, 1, 1⟩, tie_point.type.CONTROL⟩] =
      Except.ok (true, ⟨(5 / 10 + 10 / 20 + 5 / 10) / 3, 6, 7⟩) :=
  (estimate_length_var_mean_small _ _ _ (by decide!) (by decide!) (by decide!)).trans
    (by decide!)

/-- C4: `estimate_length_var` returns `false` if and only if the set of the distinct tie points
of the list has fewer than 2 elements or two distinct elements of it have equal work points or
equal reference points; in every other case it returns `true`. -/
theorem estimate_length_var_false_iff (sqrt : R → R) (m : evaluation_measurements R)
    (l : List (tie_point R)) :
    ∃ b m', estimate_length_var sqrt m l = Except.ok (b, m') ∧
      (b = false ↔ ((key_set l).card < 2 ∨
        ∃ a ∈ key_set l, ∃ c ∈ key_set l, a ≠ c ∧
          ((a.1, a.2.1) = (c.1, c.2.1) ∨ (a.2.2.1, a.2.2.2) = (c.2.2.1, c.2.2.2)))) := by
  by_cases h : (key_set l).card < 2
  · exact ⟨false, m, estimate_length_var_of_lt sqrt m l h, by simp [h]⟩
  · obtain ⟨b, lv, ho, hb⟩ := estimate_length_var_outer_flag sqrt
      ((binomial_value (key_set l).card 2 : Int) : R) (std_set l) 0
    refine ⟨b, _, estimate_length_var_of_outer sqrt m l (by omega) b lv ho, ?_⟩
    rw [← Bool.not_eq_true, hb, std_set_pairwise_iff]
    constructor
    · intro hn
      right
      by_contra hc
      apply hn
      intro a ha c hc' hac
      constructor
      · intro he; exact hc ⟨a, ha, c, hc', hac, Or.inl he⟩
      · intro he; exact hc ⟨a, ha, c, hc', hac, Or.inr he⟩
    · rintro (h1 | ⟨a, ha, c, hc, hac, he⟩) hn
      · exact h h1
      · rcases he with he | he
        · exact (hn a ha c hc hac).1 he
        · exact (hn a ha c hc hac).2 he

theorem length_ratio_of_identity (sqrt : R → R) (hsqrt : ∀ x, 0 < x → sqrt x ≠ 0)
    (a b : tie_point R) (ha : a.u_v_.eq a.x_y_ = true) (hb : b.u_v_.eq b.x_y_ = true)
    (hab : nondegenerate a b) : length_ratio sqrt a.key b.key = 1 := by
  rw [point_eq_iff] at ha hb
  have hne : ¬ (a.x_y_.x_ = b.x_y_.x_ ∧ a.x_y_.y_ = b.x_y_.y_) := by
    rw [← point_eq_iff, Bool.not_eq_true]; exact hab.1
  have hpos : 0 < (a.x_y_.x_ - b.x_y_.x_) ^ 2 + (a.x_y_.y_ - b.x_y_.y_) ^ 2 := by
    by_cases hx : a.x_y_.x_ = b.x_y_.x_
    · have hy : a.x_y_.y_ - b.x_y_.y_ ≠ 0 := fun e => hne ⟨hx, sub_eq_zero.mp e⟩
      have := sq_nonneg (a.x_y_.x_ - b.x_y_.x_)
      have := pow_pos (abs_pos.mpr hy) 2
      rw [sq_abs] at this
      linarith
    · have hx' : a.x_y_.x_ - b.x_y_.x_ ≠ 0 := fun e => hx (sub_eq_zero.mp e)
      have := sq_nonneg (a.x_y_.y_ - b.x_y_.y_)
      have := pow_pos (abs_pos.mpr hx') 2
      rw [sq_abs] at this
      linarith
  simp only [length_ratio, distance, tie_point.key, ha.1, ha.2, hb.1, hb.2]
  exact div_self (hsqrt _ hpos)

/-- When every tie point of the list has its reference point equal to its work point and the
list holds `n >= 2` distinct tie points, `estimate_length_var` returns `true` and stores
`C(n,2) / den`, with `den` the value that `binomial_number( n, 2 )` returned, for every `sqrt`
that is not zero at a positive argument (as `std::sqrt`). -/
theorem estimate_length_var_identity_stored (sqrt : R → R) (hsqrt : ∀ x, 0 < x → sqrt x ≠ 0)
    (m : evaluation_measurements R) (l : List (tie_point R)) (h : 2 ≤ (key_set l).card)
    (he : ∀ t ∈ l, t.u_v_.eq t.x_y_ = true) :
    estimate_length_var sqrt m l = Except.ok (true, { m with length_variation_ :=
      (((key_set l).card.choose 2 : Nat) : R) /
        ((binomial_value (key_set l).card 2 : Int) : R) }) := by
  have hkey : ∀ a ∈ key_set l, a.2.2.1 = a.1 ∧ a.2.2.2 = a.2.1 := by
    intro a ha
    rw [key_set, List.mem_toFinset, List.mem_map] at ha
    obtain ⟨t, ht, rfl⟩ := ha
    exact (point_eq_iff _ _).mp (he t ht)
  have hset : ∀ t ∈ std_set l, t.u_v_.eq t.x_y_ = true := by
    intro t ht
    have hk : t.key ∈ key_set l := by
      rw [← std_set_keys, key_set, List.mem_toFinset]; exact List.mem_map_of_mem _ ht
    exact (point_eq_iff _ _).mpr (hkey _ hk)
  have hd : ∀ a ∈ key_set l, ∀ b ∈ key_set l, a ≠ b →
      ((a.1, a.2.1) ≠ (b.1, b.2.1) ∧ (a.2.2.1, a.2.2.2) ≠ (b.2.2.1, b.2.2.2)) := by
    intro a ha b hb hab
    obtain ⟨a1, a2, a3, a4⟩ := a
    obtain ⟨b1, b2, b3, b4⟩ := b
    have h1 := hkey _ ha
    have h2 := hkey _ hb
    simp only at h1 h2
    simp only [ne_eq, Prod.mk.injEq] at hab ⊢
    constructor
    · rintro ⟨e1, e2⟩
      exact hab ⟨e1, e2, by rw [h1.1, h2.1, e1], by rw [h1.2, h2.2, e2]⟩
    · rintro ⟨e1, e2⟩
      exact hab ⟨by rw [← h1.1, ← h2.1, e1], by rw [← h1.2, ← h2.2, e2], e1, e2⟩
  have hp : (std_set l).Pairwise nondegenerate := (std_set_pairwise_iff l).mpr hd
  refine estimate_length_var_of_outer sqrt m l h true _ ?_
  rw [estimate_length_var_outer_ok sqrt _ _ hp, zero_add, pair_sum_div]
  have h1 : pair_sum (fun a b => length_ratio sqrt a.key b.key) (std_set l) =
      pair_sum (fun _ _ => (1 : R)) (std_set l) := by
    refine pair_sum_congr_pairwise _ _ _ (hp.imp_of_mem ?_)
    intro a b ha hb hab
    exact length_ratio_of_identity sqrt hsqrt a b (hset a ha) (hset b hb) hab
  rw [h1, pair_sum_one, std_set_length]

/-- With at most 28 distinct tie points the stored value is `1`. -/
theorem estimate_length_var_identity_small (sqrt : R → R) (hsqrt : ∀ x, 0 < x → sqrt x ≠ 0)
    (m : evaluation_measurements R) (l : List (tie_point R)) (h : 2 ≤ (key_set l).card)
    (h28 : (key_set l).card ≤ 28) (he : ∀ t ∈ l, t.u_v_.eq t.x_y_ = true) :
    estimate_length_var sqrt m l = Except.ok (true, { m with length_variation_ := 1 }) := by
  have hc : (((key_set l).card.choose 2 : Nat) : R) ≠ 0 :=
    Nat.cast_ne_zero.mpr (Nat.pos_iff_ne_zero.mp (Nat.choose_pos h))
  rw [estimate_length_var_identity_stored sqrt hsqrt m l h he,
    binomial_value_eq_choose (key_set l).card 2 (by norm_num) h h28, Int.cast_natCast,
    div_self hc]

/-- An example at the real numbers with `Real.sqrt`: two tie points with reference equal to
work, one of them given twice. -/
theorem estimate_length_var_identity_small_example :
    estimate_length_var Real.sqrt (⟨5, 6, 7⟩ : evaluation_measurements ℝ)
        [⟨⟨0, 0, 1, 1⟩, ⟨0, 0, 1, 1⟩, tie_point.type.CONTROL⟩,
          ⟨⟨3, 4, 1, 1⟩, ⟨3, 4, 1, 1⟩, tie_point.type.CONTROL⟩,
          ⟨⟨0, 0, 1, 1⟩, ⟨0, 0, 1, 1⟩, tie_point.type.CHECK⟩] =
      Except.ok (true, ⟨1, 6, 7⟩) := by
  have hcard : (key_set [(⟨⟨0, 0, 1, 1⟩, ⟨0, 0, 1, 1⟩, tie_point.type.CONTROL⟩ : tie_point ℝ),
      ⟨⟨3, 4, 1, 1⟩, ⟨3, 4, 1, 1⟩, tie_point.type.CONTROL⟩,
      ⟨⟨0, 0, 1, 1⟩, ⟨0, 0, 1, 1⟩, tie_point.type.CHECK⟩]).card = 2 := by
    have h : ((0 : ℝ), (0 : ℝ), (0 : ℝ), (0 : ℝ)) ≠ (3, 4, 3, 4) := by
      intro e
      have e1 : (0 : ℝ) = 3 := congrArg Prod.fst e
      norm_num at e1
    have hs : key_set [(⟨⟨0, 0, 1, 1⟩, ⟨0, 0, 1, 1⟩, tie_point.type.CONTROL⟩ : tie_point ℝ),
        ⟨⟨3, 4, 1, 1⟩, ⟨3, 4, 1, 1⟩, tie_point.type.CONTROL⟩,
        ⟨⟨0, 0, 1, 1⟩, ⟨0, 0, 1, 1⟩, tie_point.type.CHECK⟩] =
        {((0 : ℝ), (0 : ℝ), (0 : ℝ), (0 : ℝ)), (3, 4, 3, 4)} := by
      ext k
      simp only [key_set, tie_point.key, List.map_cons, List.map_nil, List.toFinset_cons,
        List.toFinset_nil, Finset.mem_insert, Finset.mem_singleton, Finset.not_mem_empty]
      tauto
    rw [hs, Finset.card_pair h]
  exact estimate_length_var_identity_small Real.sqrt (fun x hx => (Real.sqrt_pos.mpr hx).ne')
    _ _ (by rw [hcard]) (by rw [hcard]; norm_num) (by simp [point.eq])

/-! ## The state `estimate_length_var` leaves when it fails on a pair -/

theorem sum_before_zero_succ {α : Type} (f : α → α → R) (a : α) (l : List α)
    (j : Fin l.length) :
    (∑ p : Fin (l.length + 1), ∑ q : Fin (l.length + 1),
      if p < q ∧ (p < (0 : Fin (l.length + 1)) ∨ (p = (0 : Fin (l.length + 1)) ∧ q < j.succ))
        then f ((a :: l).get p) ((a :: l).get q) else 0) =
      ∑ q : Fin l.length, if q < j then f a (l.get q) else 0 := by
  rw [Fin.sum_univ_succ, Fin.sum_univ_succ]
  simp [Fin.succ_lt_succ_iff, Fin.succ_pos, Fin.succ_ne_zero]

theorem sum_before_succ_succ {α : Type} (f : α → α → R) (a : α) (l : List α)
    (i j : Fin l.length) :
    (∑ p : Fin (l.length + 1), ∑ q : Fin (l.length + 1),
      if p < q ∧ (p < i.succ ∨ (p = i.succ ∧ q < j.succ))
        then f ((a :: l).get p) ((a :: l).get q) else 0) =
      (l.map (f a)).sum + ∑ p : Fin l.length, ∑ q : Fin l.length,
        if p < q ∧ (p < i ∨ (p = i ∧ q < j)) then f (l.get p) (l.get q) else 0 := by
  rw [Fin.sum_univ_succ, list_map_sum_eq_fin]
  congr 1
  · rw [Fin.sum_univ_succ]
    simp [Fin.succ_pos]
  · refine Finset.sum_congr rfl (fun p _ => ?_)
    rw [Fin.sum_univ_succ]
    simp [Fin.succ_lt_succ_iff, Fin.succ_inj]

theorem estimate_length_var_inner_fail (sqrt : R → R) (den : R) (a : tie_point R)
    (l : List (tie_point R)) (lv : R) (h : ¬ ∀ c ∈ l, nondegenerate a c) :
    ∃ j : Fin l.length, ¬ nondegenerate a (l.get j) ∧
      (∀ q : Fin l.length, q < j → nondegenerate a (l.get q)) ∧
      estimate_length_var.inner sqrt den a.x_y_ a.u_v_ l lv =
        Except.ok (false, lv + ∑ q : Fin l.length,
          if q < j then length_ratio sqrt a.key (l.get q).key / den else 0) := by
  induction l generalizing lv with
  | nil => exact absurd (fun c hc => absurd hc (List.not_mem_nil c)) h
  | cons c l ih =>
    by_cases hc : nondegenerate a c
    · have hc' : ¬ (a.x_y_.eq c.x_y_ || a.u_v_.eq c.u_v_) = true := by
        rw [← not_nondegenerate_iff]; exact not_not.mpr hc
      have hl : ¬ ∀ x ∈ l, nondegenerate a x := by
        intro hall
        apply h
        intro x hx
        rcases List.mem_cons.mp hx with rfl | hx
        · exact hc
        · exact hall x hx
      obtain ⟨j, h1, h2, h3⟩ := ih (lv + (vector.length_vector sqrt ⟨a.x_y_, c.x_y_⟩ /
          vector.length_vector sqrt ⟨a.u_v_, c.u_v_⟩) / den) hl
      refine ⟨j.succ, h1, ?_, ?_⟩
      · intro q
        refine Fin.cases ?_ (fun q' => ?_) q
        · intro _; exact hc
        · intro hq; exact h2 q' (Fin.succ_lt_succ_iff.mp hq)
      · rw [estimate_length_var.inner]
        simp only [tie_point.get, if_neg hc', vector_new_of_ne _ _ hc.1,
          vector_new_of_ne _ _ hc.2]
        rw [h3, length_vector_ratio]
        refine congrArg (fun z => Except.ok (false, z)) ?_
        have hs := Fin.sum_univ_succ (fun q : Fin (l.length + 1) =>
          if q < j.succ then length_ratio sqrt a.key ((c :: l).get q).key / den else 0)
        refine Eq.trans ?_ (congrArg (fun z => lv + z) hs.symm)
        simp [Fin.succ_lt_succ_iff, Fin.succ_pos, add_assoc]
    · refine ⟨(0 : Fin (l.length + 1)), hc, ?_, ?_⟩
      · intro q hq; exact absurd hq (Fin.not_lt_zero q)
      · rw [estimate_length_var.inner]
        simp only [tie_point.get, if_pos ((not_nondegenerate_iff a c).mp hc)]
        have hz : (∑ q : Fin (c :: l).length,
            if q < (0 : Fin (l.length + 1))
              then length_ratio sqrt a.key ((c :: l).get q).key / den else 0) = 0 :=
          Finset.sum_eq_zero (fun q _ => if_neg (Fin.not_lt_zero q))
        rw [hz, add_zero]

theorem estimate_length_var_outer_fail (sqrt : R → R) (den : R) (l : List (tie_point R))
    (lv : R) (h : ¬ l.Pairwise nondegenerate) :
    ∃ i j : Fin l.length, i < j ∧ ¬ nondegenerate (l.get i) (l.get j) ∧
      (∀ p q : Fin l.length, p < q → (p < i ∨ (p = i ∧ q < j)) →
        nondegenerate (l.get p) (l.get q)) ∧
      estimate_length_var.outer sqrt den l lv =
        Except.ok (false, lv + ∑ p : Fin l.length, ∑ q : Fin l.length,
          if p < q ∧ (p < i ∨ (p = i ∧ q < j))
            then length_ratio sqrt (l.get p).key (l.get q).key / den else 0) := by
  induction l generalizing lv with
  | nil => exact absurd List.Pairwise.nil h
  | cons a l ih =>
    match l, ih, h with
    | [], _, h => exact absurd (List.pairwise_singleton _ _) h
    | c :: rest, ih, h =>
      by_cases ha : ∀ x ∈ c :: rest, nondegenerate a x
      · have hl : ¬ (c :: rest).Pairwise nondegenerate :=
          fun hp => h (List.pairwise_cons.mpr ⟨ha, hp⟩)
        obtain ⟨i, j, h1, h2, h3, h4⟩ := ih
          (lv + ((c :: rest).map (fun b => length_ratio sqrt a.key b.key / den)).sum) hl
        refine ⟨i.succ, j.succ, Fin.succ_lt_succ_iff.mpr h1, h2, ?_, ?_⟩
        · intro p q
          refine Fin.cases ?_ (fun p' => ?_) p
          · refine Fin.cases ?_ (fun q' => ?_) q
            · intro hlt; exact absurd hlt (lt_irrefl _)
            · intro _ _; exact ha _ (List.get_mem _ _ _)
          · refine Fin.cases ?_ (fun q' => ?_) q
            · intro hlt; exact absurd hlt (Fin.not_lt_zero _)
            · intro hlt hb
              refine h3 p' q' (Fin.succ_lt_succ_iff.mp hlt) ?_
              rcases hb with hb | ⟨hb1, hb2⟩
              · exact Or.inl (Fin.succ_lt_succ_iff.mp hb)
              · exact Or.inr ⟨Fin.succ_injective _ hb1, Fin.succ_lt_succ_iff.mp hb2⟩
        · rw [estimate_length_var.outer]
          simp only [tie_point.get]
          rw [estimate_length_var_inner_ok sqrt den a (c :: rest) ha]
          simp only []
          rw [h4, add_assoc]
          refine congrArg (fun z => Except.ok (false, lv + z)) ?_
          exact (sum_before_succ_succ
            (fun x y => length_ratio sqrt x.key y.key / den) a (c :: rest) i j).symm
      · obtain ⟨j, h1, h2, h3⟩ := estimate_length_var_inner_fail sqrt den a (c :: rest) lv ha
        refine ⟨(0 : Fin ((c :: rest).length + 1)), j.succ, Fin.succ_pos j, h1, ?_, ?_⟩
        · intro p q hlt hb
          rcases hb with hb | ⟨hb1, hb2⟩
          · exact absurd hb (Fin.not_lt_zero p)
          · subst hb1
            revert hlt hb2
            refine Fin.cases ?_ (fun q' => ?_) q
            · intro _ y; exact absurd y (lt_irrefl _)
            · intro x _; exact h2 q' (Fin.succ_lt_succ_iff.mp x)
        · rw [estimate_length_var.outer]
          simp only [tie_point.get, h3]
          refine congrArg (fun z => Except.ok (false, lv + z)) ?_
          have hz := sum_before_zero_succ
            (fun x y => length_ratio sqrt x.key y.key / den) a (c :: rest) j
          exact hz.symm

/-- The counterexample to C5: the set is `(0,0)->(0,0)`, `(0,0)->(3,3)`; the first pair has
equal work points, the call returns `false`, and the stored `length_variation`, `5` before the
call, is `0` after it. -/
theorem estimate_length_var_failure_resets :
    estimate_length_var Rat.sqrt (⟨5, 6, 7⟩ : evaluation_measurements ℚ)
        [⟨⟨0, 0, 1, 1⟩, ⟨0, 0, 1, 1⟩, tie_point.type.CONTROL⟩,
          ⟨⟨0, 0, 1, 1⟩, ⟨3, 3, 1, 1⟩, tie_point.type.CONTROL⟩] =
      Except.ok (false, ⟨0, 6, 7⟩) ∧ (0 : ℚ) ≠ 5 := by
  decide!

/-- C5 as amended: when `estimate_length_var` returns `false`, `anisomorphism` and `similarity`
are as before the call; `length_variation` is as before the call when the set of distinct tie
points has fewer than 2 elements; otherwise the call failed on a pair `(i, j)` of positions of
the set, the first in the order of the loops with equal work points or equal reference points,
and `length_variation` is the sum over the pairs before `(i, j)` of the ratio of the work
distance to the reference distance divided by `den`, the value that `binomial_number( n, 2 )`
returned for the `n` elements of the set. -/
theorem estimate_length_var_false_state (sqrt : R → R) (m m' : evaluation_measurements R)
    (l : List (tie_point R)) (h : estimate_length_var sqrt m l = Except.ok (false, m')) :
    m'.anisomorphism_ = m.anisomorphism_ ∧ m'.similarity_ = m.similarity_ ∧
    ((key_set l).card < 2 → m'.length_variation_ = m.length_variation_) ∧
    (2 ≤ (key_set l).card → ∃ i j : Fin (std_set l).length, i < j ∧
      ¬ nondegenerate ((std_set l).get i) ((std_set l).get j) ∧
      (∀ p q : Fin (std_set l).length, p < q → (p < i ∨ (p = i ∧ q < j)) →
        nondegenerate ((std_set l).get p) ((std_set l).get q)) ∧
      math.binomial_number ((key_set l).card : Int) 2 =
        Except.ok (binomial_value (key_set l).card 2) ∧
      m'.length_variation_ = ∑ pq in pairs_before i j,
        length_ratio sqrt ((std_set l).get pq.1).key ((std_set l).get pq.2).key /
          ((binomial_value (key_set l).card 2 : Int) : R)) := by
  by_cases hc : (key_set l).card < 2
  · rw [estimate_length_var_of_lt sqrt m l hc] at h
    have hm : m = m' := by simpa using h
    subst hm
    exact ⟨rfl, rfl, fun _ => rfl, fun h2 => absurd hc (by omega)⟩
  · obtain ⟨b, lv, ho, hb⟩ := estimate_length_var_outer_flag sqrt
      ((binomial_value (key_set l).card 2 : Int) : R) (std_set l) 0
    rw [estimate_length_var_of_outer sqrt m l (by omega) b lv ho] at h
    have hbm : b = false ∧ { m with length_variation_ := lv } = m' := by simpa using h
    obtain ⟨hbf, hm⟩ := hbm
    subst hm
    have hnp : ¬ (std_set l).Pairwise nondegenerate := by
      rw [← hb, hbf]; simp
    obtain ⟨i, j, h1, h2, h3, h4⟩ := estimate_length_var_outer_fail sqrt
      ((binomial_value (key_set l).card 2 : Int) : R) (std_set l) 0 hnp
    refine ⟨rfl, rfl, fun h2 => absurd h2 hc, fun hc2 => ⟨i, j, h1, h2, h3,
      math_binomial_number_value (key_set l).card 2 (by norm_num) hc2, ?_⟩⟩
    rw [ho, zero_add] at h4
    have hlv : lv = _ := congrArg Prod.snd (Except.ok.inj h4)
    rw [pairs_before, Finset.sum_filter, Fintype.sum_prod_type]
    exact hlv

/-- An example of C5 as amended: the set is `(0,0)->(0,0)`, `(3,4)->(0,10)`, `(3,4)->(6,8)`;
the first two pairs give `1/6` each, the third has equal work points. -/
theorem estimate_length_var_false_state_witness :
    estimate_length_var Rat.sqrt (⟨5, 6, 7⟩ : evaluation_measurements ℚ)
        [⟨⟨0, 0, 1, 1⟩, ⟨0, 0, 1, 1⟩, tie_point.type.CONTROL⟩,
          ⟨⟨3, 4, 1, 1⟩, ⟨6, 8, 1, 1⟩, tie_point.type.CONTROL⟩,
          ⟨⟨3, 4, 1, 1⟩, ⟨0, 10, 1, 1⟩, tie_point.type.CONTROL⟩] =
      Except.ok (false, ⟨1 / 3, 6, 7⟩) ∧
    (⟨1 / 3, 6, 7⟩ : evaluation_measurements ℚ).anisomorphism_ = 6 ∧
    (⟨1 / 3, 6, 7⟩ : evaluation_measurements ℚ).similarity_ = 7 :=
  ⟨by decide!,
    (estimate_length_var_false_state Rat.sqrt ⟨5, 6, 7⟩ ⟨1 / 3, 6, 7⟩
      [⟨⟨0, 0, 1, 1⟩, ⟨0, 0, 1, 1⟩, tie_point.type.CONTROL⟩,
        ⟨⟨3, 4, 1, 1⟩, ⟨6, 8, 1, 1⟩, tie_point.type.CONTROL⟩,
        ⟨⟨3, 4, 1, 1⟩, ⟨0, 10, 1, 1⟩, tie_point.type.CONTROL⟩] (by decide!)).1,
    (estimate_length_var_false_state Rat.sqrt ⟨5, 6, 7⟩ ⟨1 / 3, 6, 7⟩
      [⟨⟨0, 0, 1, 1⟩, ⟨0, 0, 1, 1⟩, tie_point.type.CONTROL⟩,
        ⟨⟨3, 4, 1, 1⟩, ⟨6, 8, 1, 1⟩, tie_point.type.CONTROL⟩,
        ⟨⟨3, 4, 1, 1⟩, ⟨0, 10, 1, 1⟩, tie_point.type.CONTROL⟩] (by decide!)).2.1⟩

/-! ## `vector`: construction and the setters -/

theorem vector_construct_debug (p1 p2 : point R) :
    vector.construct false p1 p2 = vector.new p1 p2 := rfl

theorem vector_construct_of_ne (ndebug : Bool) (p1 p2 : point R) (h : p1.eq p2 = false) :
    vector.construct ndebug p1 p2 = Except.ok ⟨p1, p2⟩ := by
  cases ndebug <;>
    simp [vector.construct, assert_build, assert, point.ne, h, bind, Except.bind, pure,
      Except.pure]

theorem vector_construct_of_eq (ndebug : Bool) (p1 p2 : point R) (h : p1.eq p2 = true) :
    vector.construct ndebug p1 p2 =
      Except.error (if ndebug then Error.thrown else Error.assertion_failed) := by
  cases ndebug <;>
    simp [vector.construct, assert_build, assert, point.ne, h, bind, Except.bind, throw,
      throwThe, MonadExceptOf.throw]

/-- C19: in either build, constructing `vector( p1, p2 )` fails if and only if `p1 == p2`
(equal `x` and equal `y`, whatever the sigmas), and when `p1 != p2` it succeeds with a vector
whose `get_p1()` is `p1` and `get_p2()` is `p2`. -/
theorem vector_construct_fails_iff (ndebug : Bool) (p1 p2 : point R) :
    ((∃ e, vector.construct ndebug p1 p2 = Except.error e) ↔
      (p1.x_ = p2.x_ ∧ p1.y_ = p2.y_)) ∧
    (¬ (p1.x_ = p2.x_ ∧ p1.y_ = p2.y_) →
      ∃ v, vector.construct ndebug p1 p2 = Except.ok v ∧ v.get_p1 = p1 ∧ v.get_p2 = p2) := by
  by_cases h : p1.eq p2 = true
  · have hxy := (point_eq_iff p1 p2).mp h
    refine ⟨⟨fun _ => hxy, fun _ => ⟨_, vector_construct_of_eq ndebug p1 p2 h⟩⟩,
      fun hn => absurd hxy hn⟩
  · have hxy : ¬ (p1.x_ = p2.x_ ∧ p1.y_ = p2.y_) := fun hc => h ((point_eq_iff p1 p2).mpr hc)
    have hf : p1.eq p2 = false := by simpa using h
    have hok := vector_construct_of_ne ndebug p1 p2 hf
    refine ⟨⟨?_, fun hc => absurd hc hxy⟩, fun _ => ⟨_, hok, rfl, rfl⟩⟩
    rintro ⟨e, he⟩
    rw [hok] at he
    exact absurd he (by simp)

/-- In a build without `NDEBUG` the three setters fail on equal end points and give no
object. -/
theorem vector_setters_debug (a : vector R) (p1 p2 : point R) :
    (p1.eq p2 = true → vector.set false a p1 p2 = Except.error Error.assertion_failed) ∧
    (p1.eq a.p2_ = true → vector.set_p1 false a p1 = Except.error Error.assertion_failed) ∧
    (a.p1_.eq p2 = true → vector.set_p2 false a p2 = Except.error Error.assertion_failed) := by
  refine ⟨fun h => ?_, fun h => ?_, fun h => ?_⟩ <;>
    simp [vector.set, vector.set_p1, vector.set_p2, assert_build, assert, point.ne, h, bind,
      Except.bind]

/-- In a build with `NDEBUG` the three setters store whatever they are given. -/
theorem vector_setters_ndebug (a : vector R) (p1 p2 : point R) :
    vector.set true a p1 p2 = Except.ok ⟨p1, p2⟩ ∧
    vector.set_p1 true a p1 = Except.ok ⟨p1, a.p2_⟩ ∧
    vector.set_p2 true a p2 = Except.ok ⟨a.p1_, p2⟩ := by
  refine ⟨?_, ?_, ?_⟩ <;>
    simp [vector.set, vector.set_p1, vector.set_p2, assert_build, bind, Except.bind, pure,
      Except.pure]

/-- C20, the code at the failing input: in a build with `NDEBUG`, on the vector
`(0,0) -> (1,1)` the calls `set( (2,2), (2,2) )`, `set_p1( (1,1) )` and `set_p2( (0,0) )`
succeed and leave a vector whose end points are equal. -/
theorem vector_setters_ndebug_store_equal_points :
    vector.set true (⟨⟨0, 0, 1, 1⟩, ⟨1, 1, 1, 1⟩⟩ : vector ℚ) ⟨2, 2, 1, 1⟩ ⟨2, 2, 1, 1⟩ =
      Except.ok ⟨⟨2, 2, 1, 1⟩, ⟨2, 2, 1, 1⟩⟩ ∧
    vector.set_p1 true (⟨⟨0, 0, 1, 1⟩, ⟨1, 1, 1, 1⟩⟩ : vector ℚ) ⟨1, 1, 1, 1⟩ =
      Except.ok ⟨⟨1, 1, 1, 1⟩, ⟨1, 1, 1, 1⟩⟩ ∧
    vector.set_p2 true (⟨⟨0, 0, 1, 1⟩, ⟨1, 1, 1, 1⟩⟩ : vector ℚ) ⟨0, 0, 1, 1⟩ =
      Except.ok ⟨⟨0, 0, 1, 1⟩, ⟨0, 0, 1, 1⟩⟩ := by
  decide!

/-! ## Lemmas on `compute_origins` and `change_origins` -/

theorem compute_origins_loop_eq (l : List (tie_point R)) (x0 y0 u0 v0 : R) (n : Nat) :
    compute_origins.loop l x0 y0 u0 v0 n =
      (x0 + ((l.filter is_control).map (fun t => t.x_y_.x_)).sum,
        y0 + ((l.filter is_control).map (fun t => t.x_y_.y_)).sum,
        u0 + ((l.filter is_control).map (fun t => t.u_v_.x_)).sum,
        v0 + ((l.filter is_control).map (fun t => t.u_v_.y_)).sum,
        n + (l.filter is_control).length) := by
  induction l generalizing x0 y0 u0 v0 n with
  | nil => simp [compute_origins.loop]
  | cons t l ih =>
    have hiff : is_control t = true ↔
        (t.get_type = tie_point.type.CONTROL ∨ t.get_type = tie_point.type.CONTROL_CHECK) := by
      simp [is_control, tie_point.get_type]
    rw [compute_origins.loop]
    by_cases h : t.get_type = tie_point.type.CONTROL ∨ t.get_type = tie_point.type.CONTROL_CHECK
    · have hc : is_control t = true := hiff.mpr h
      rw [if_pos h]
      simp only [ih, tie_point.get, point.get_x, point.get_y, List.filter_cons, hc, if_true,
        List.map_cons, List.sum_cons, List.length_cons, add_assoc, Nat.add_comm 1]
    · have hc : ¬ is_control t = true := fun hc => h (hiff.mp hc)
      rw [if_neg h]
      simp only [ih, List.filter_cons, hc, if_false, Bool.false_eq_true]

theorem compute_origins_eq (l : List (tie_point R)) :
    compute_origins l =
      (point.new (mean (fun t => t.x_y_.x_) (l.filter is_control))
          (mean (fun t => t.x_y_.y_) (l.filter is_control)),
        point.new (mean (fun t => t.u_v_.x_) (l.filter is_control))
          (mean (fun t => t.u_v_.y_) (l.filter is_control))) := by
  simp only [compute_origins, compute_origins_loop_eq, mean, zero_add]

theorem change_origins_eq_map (l : List (tie_point R)) (xy0 uv0 : point R) :
    change_origins l xy0 uv0 = l.map (fun t =>
      ⟨⟨t.x_y_.x_ - xy0.x_, t.x_y_.y_ - xy0.y_, t.x_y_.sigma_x_, t.x_y_.sigma_y_⟩,
        ⟨t.u_v_.x_ - uv0.x_, t.u_v_.y_ - uv0.y_, t.u_v_.sigma_x_, t.u_v_.sigma_y_⟩,
        t.type_⟩) := by
  induction l with
  | nil => rfl
  | cons t l ih =>
    rw [change_origins, ih]
    rfl

theorem change_origins_filter (l : List (tie_point R)) (xy0 uv0 : point R) :
    (change_origins l xy0 uv0).filter is_control =
      change_origins (l.filter is_control) xy0 uv0 := by
  rw [change_origins_eq_map, change_origins_eq_map, List.filter_map]
  congr 1

theorem mean_change_origins (f g : tie_point R → R) (c : R) (l : List (tie_point R))
    (xy0 uv0 : point R) (hl : l ≠ [])
    (hg : ∀ t : tie_point R,
      g ⟨⟨t.x_y_.x_ - xy0.x_, t.x_y_.y_ - xy0.y_, t.x_y_.sigma_x_, t.x_y_.sigma_y_⟩,
        ⟨t.u_v_.x_ - uv0.x_, t.u_v_.y_ - uv0.y_, t.u_v_.sigma_x_, t.u_v_.sigma_y_⟩,
        t.type_⟩ = f t - c) :
    mean g (change_origins l xy0 uv0) = mean f l - c := by
  have hlen : ((l.length : Nat) : R) ≠ 0 :=
    Nat.cast_ne_zero.mpr (fun h => hl (List.length_eq_zero.mp h))
  have hsum : ((change_origins l xy0 uv0).map g).sum = (l.map f).sum - l.length * c := by
    rw [change_origins_eq_map, List.map_map]
    clear hl hlen
    induction l with
    | nil => simp
    | cons t l ih =>
      simp only [List.map_cons, List.sum_cons, List.length_cons, Function.comp, hg] at ih ⊢
      rw [ih]
      push_cast
      ring
  have hlen2 : (change_origins l xy0 uv0).length = l.length := by
    rw [change_origins_eq_map, List.length_map]
  rw [mean, mean, hsum, hlen2]
  field_simp

/-- C14: for a list with at least one entry of role `CONTROL` or `CONTROL_CHECK`,
`compute_origins` returns the arithmetic means of the work and of the reference coordinates
over exactly the entries of role `CONTROL` or `CONTROL_CHECK`; a list with the same such
entries, whatever its entries of role `CHECK` or `NONE`, gives the same result. -/
theorem compute_origins_mean (l : List (tie_point R)) (h : ∃ t ∈ l, is_control t = true) :
    compute_origins l =
      (point.new (mean (fun t => t.x_y_.x_) (l.filter is_control))
          (mean (fun t => t.x_y_.y_) (l.filter is_control)),
        point.new (mean (fun t => t.u_v_.x_) (l.filter is_control))
          (mean (fun t => t.u_v_.y_) (l.filter is_control))) ∧
    (l.filter is_control).length ≠ 0 ∧
    ∀ l' : List (tie_point R), l'.filter is_control = l.filter is_control →
      compute_origins l' = compute_origins l := by
  refine ⟨compute_origins_eq l, ?_, fun l' hl' => ?_⟩
  · obtain ⟨t, ht, hc⟩ := h
    exact List.length_pos.mp (List.length_pos_of_mem (List.mem_filter.mpr ⟨ht, hc⟩)) ∘
      List.length_eq_zero.mp
  · rw [compute_origins_eq, compute_origins_eq, hl']

/-- The example of C14: two control entries and one `CHECK` entry. -/
theorem compute_origins_mean_witness :
    compute_origins
        [(⟨⟨1, 2, 1, 1⟩, ⟨10, 20, 1, 1⟩, tie_point.type.CONTROL⟩ : tie_point ℚ),
          ⟨⟨100, 100, 1, 1⟩, ⟨100, 100, 1, 1⟩, tie_point.type.CHECK⟩,
          ⟨⟨3, 6, 1, 1⟩, ⟨30, 60, 1, 1⟩, tie_point.type.CONTROL_CHECK⟩] =
      (point.new 2 4, point.new 20 40) :=
  (compute_origins_mean _ (by decide!)).1.trans (by decide!)

theorem compute_origins_checked_of_no_control (l : List (tie_point R))
    (h : ∀ t ∈ l, is_control t = false) :
    compute_origins.loop l 0 0 0 0 0 = (0, 0, 0, 0, 0) ∧
    compute_origins_checked l = Except.error Failure.division_by_zero := by
  have hf : l.filter is_control = [] := by
    rw [List.filter_eq_nil_iff]
    intro t ht
    rw [h t ht]
    simp
  have hl : compute_origins.loop l 0 0 0 0 0 = (0, 0, 0, 0, 0) := by
    rw [compute_origins_loop_eq, hf]
    simp
  refine ⟨hl, ?_⟩
  simp [compute_origins_checked, hl, checked_div]

/-- The counterexample to C15: on the empty list and on a list with a single `CHECK` entry the
loop of `compute_origins` ends with the four sums `0` and the count `n = 0`, and the run
reaches the divisions of lines 144-145 with the divisor `0`: no `assert` has failed and nothing
was thrown (the failure of the checked run is the division by zero, not an `Error` of the
code), and the function goes on to assign the two points. -/
theorem compute_origins_no_control_returns :
    compute_origins.loop ([] : List (tie_point ℚ)) 0 0 0 0 0 = (0, 0, 0, 0, 0) ∧
    compute_origins_checked ([] : List (tie_point ℚ)) =
      Except.error Failure.division_by_zero ∧
    compute_origins.loop
        [(⟨⟨1, 2, 1, 1⟩, ⟨3, 4, 1, 1⟩, tie_point.type.CHECK⟩ : tie_point ℚ)] 0 0 0 0 0 =
      (0, 0, 0, 0, 0) ∧
    compute_origins_checked
        [(⟨⟨1, 2, 1, 1⟩, ⟨3, 4, 1, 1⟩, tie_point.type.CHECK⟩ : tie_point ℚ)] =
      Except.error Failure.division_by_zero ∧
    (∀ e : Error, (Except.error Failure.division_by_zero : Except Failure (point ℚ × point ℚ)) ≠
      Except.error (Failure.error e)) := by
  refine ⟨by decide!, by decide!, by decide!, by decide!, fun e h => ?_⟩
  cases h

/-- C15 as amended: for a list without an entry of role `CONTROL` or `CONTROL_CHECK`
`compute_origins` reports no error: its loop ends with the four sums `0` and the count `n = 0`,
and lines 144-145 divide the sums by that count, a division of `0` by `0` (the failure of the
run with checked divisions is `division_by_zero`, not an `Error` of the code). -/
theorem compute_origins_no_control (l : List (tie_point R))
    (h : ∀ t ∈ l, is_control t = false) :
    compute_origins.loop l 0 0 0 0 0 = (0, 0, 0, 0, 0) ∧
    compute_origins_checked l = Except.error Failure.division_by_zero ∧
    (∀ e : Error, compute_origins_checked l ≠ Except.error (Failure.error e)) := by
  obtain ⟨h1, h2⟩ := compute_origins_checked_of_no_control l h
  refine ⟨h1, h2, fun e he => ?_⟩
  rw [h2] at he
  cases he

/-- The example of C15 as amended: a `CHECK` entry and a `NONE` entry. -/
theorem compute_origins_no_control_witness :
    (∀ t ∈ [(⟨⟨1, 2, 1, 1⟩, ⟨3, 4, 1, 1⟩, tie_point.type.CHECK⟩ : tie_point ℚ),
        ⟨⟨5, 6, 1, 1⟩, ⟨7, 8, 1, 1⟩, tie_point.type.NONE⟩], is_control t = false) ∧
    compute_origins_checked
        [(⟨⟨1, 2, 1, 1⟩, ⟨3, 4, 1, 1⟩, tie_point.type.CHECK⟩ : tie_point ℚ),
          ⟨⟨5, 6, 1, 1⟩, ⟨7, 8, 1, 1⟩, tie_point.type.NONE⟩] =
      Except.error Failure.division_by_zero :=
  ⟨by decide!, (compute_origins_no_control _ (by decide!)).2.1⟩

/-- With at least one entry of role `CONTROL` or `CONTROL_CHECK` no division of
`compute_origins` is by zero: the run with checked divisions returns what `compute_origins`
returns. -/
theorem compute_origins_checked_of_control (l : List (tie_point R))
    (h : ∃ t ∈ l, is_control t = true) :
    compute_origins_checked l = Except.ok (compute_origins l) := by
  have hne : ((l.filter is_control).length : R) ≠ 0 := by
    obtain ⟨t, ht, hc⟩ := h
    exact Nat.cast_ne_zero.mpr
      (List.length_pos.mp (List.length_pos_of_mem (List.mem_filter.mpr ⟨ht, hc⟩)) ∘
        List.length_eq_zero.mp)
  simp only [compute_origins_checked, compute_origins, compute_origins_loop_eq, zero_add,
    checked_div, if_neg hne]

/-- C16: `change_origins` keeps the number and the order of the entries and replaces every
entry, whatever its role, by the entry with the work coordinates minus those of `xy0`, the
reference coordinates minus those of `uv0`, and the same sigmas and role. -/
theorem change_origins_entries (l : List (tie_point R)) (xy0 uv0 : point R) :
    (change_origins l xy0 uv0).length = l.length ∧
    change_origins l xy0 uv0 = l.map (fun t =>
      ⟨⟨t.x_y_.x_ - xy0.x_, t.x_y_.y_ - xy0.y_, t.x_y_.sigma_x_, t.x_y_.sigma_y_⟩,
        ⟨t.u_v_.x_ - uv0.x_, t.u_v_.y_ - uv0.y_, t.u_v_.sigma_x_, t.u_v_.sigma_y_⟩,
        t.type_⟩) := by
  refine ⟨?_, change_origins_eq_map l xy0 uv0⟩
  rw [change_origins_eq_map, List.length_map]

/-- C17: for a list with at least one entry of role `CONTROL` or `CONTROL_CHECK`,
`compute_origins` of the list shifted by `change_origins` to its own origins returns the work
origin `(0,0)` and the reference origin `(0,0)`. -/
theorem compute_origins_change_origins (l : List (tie_point R))
    (h : ∃ t ∈ l, is_control t = true) :
    compute_origins (change_origins l (compute_origins l).1 (compute_origins l).2) =
      (point.new 0 0, point.new 0 0) := by
  have hne : l.filter is_control ≠ [] := by
    obtain ⟨t, ht, hc⟩ := h
    exact List.ne_nil_of_mem (List.mem_filter.mpr ⟨ht, hc⟩)
  rw [compute_origins_eq (change_origins _ _ _), change_origins_filter]
  rw [mean_change_origins (fun t => t.x_y_.x_) _ (compute_origins l).1.x_ _ _ _ hne
      (fun _ => rfl),
    mean_change_origins (fun t => t.x_y_.y_) _ (compute_origins l).1.y_ _ _ _ hne
      (fun _ => rfl),
    mean_change_origins (fun t => t.u_v_.x_) _ (compute_origins l).2.x_ _ _ _ hne
      (fun _ => rfl),
    mean_change_origins (fun t => t.u_v_.y_) _ (compute_origins l).2.y_ _ _ _ hne
      (fun _ => rfl)]
  simp [compute_origins_eq, point.new]

/-- The example of C17: the list of the example of C14, whose origins are `(2,4)` and
`(20,40)`. -/
theorem compute_origins_change_origins_witness :
    compute_origins (change_origins
        [(⟨⟨1, 2, 1, 1⟩, ⟨10, 20, 1, 1⟩, tie_point.type.CONTROL⟩ : tie_point ℚ),
          ⟨⟨100, 100, 1, 1⟩, ⟨100, 100, 1, 1⟩, tie_point.type.CHECK⟩,
          ⟨⟨3, 6, 1, 1⟩, ⟨30, 60, 1, 1⟩, tie_point.type.CONTROL_CHECK⟩]
        (point.new 2 4) (point.new 20 40)) =
      (point.new 0 0, point.new 0 0) :=
  (show compute_origins (change_origins
        [(⟨⟨1, 2, 1, 1⟩, ⟨10, 20, 1, 1⟩, tie_point.type.CONTROL⟩ : tie_point ℚ),
          ⟨⟨100, 100, 1, 1⟩, ⟨100, 100, 1, 1⟩, tie_point.type.CHECK⟩,
          ⟨⟨3, 6, 1, 1⟩, ⟨30, 60, 1, 1⟩, tie_point.type.CONTROL_CHECK⟩]
        (point.new 2 4) (point.new 20 40)) =
      compute_origins (change_origins
        [(⟨⟨1, 2, 1, 1⟩, ⟨10, 20, 1, 1⟩, tie_point.type.CONTROL⟩ : tie_point ℚ),
          ⟨⟨100, 100, 1, 1⟩, ⟨100, 100, 1, 1⟩, tie_point.type.CHECK⟩,
          ⟨⟨3, 6, 1, 1⟩, ⟨30, 60, 1, 1⟩, tie_point.type.CONTROL_CHECK⟩]
        (compute_origins
          [(⟨⟨1, 2, 1, 1⟩, ⟨10, 20, 1, 1⟩, tie_point.type.CONTROL⟩ : tie_point ℚ),
          ⟨⟨100, 100, 1, 1⟩, ⟨100, 100, 1, 1⟩, tie_point.type.CHECK⟩,
          ⟨⟨3, 6, 1, 1⟩, ⟨30, 60, 1, 1⟩, tie_point.type.CONTROL_CHECK⟩]).1
        (compute_origins
          [(⟨⟨1, 2, 1, 1⟩, ⟨10, 20, 1, 1⟩, tie_point.type.CONTROL⟩ : tie_point ℚ),
          ⟨⟨100, 100, 1, 1⟩, ⟨100, 100, 1, 1⟩, tie_point.type.CHECK⟩,
          ⟨⟨3, 6, 1, 1⟩, ⟨30, 60, 1, 1⟩, tie_point.type.CONTROL_CHECK⟩]).2)
    from by decide!).trans (compute_origins_change_origins _ (by decide!))

/-- C18: `change_origins` with `o1`, `o2` followed by `change_origins` with the negated
offsets restores the list: every coordinate, sigma and role. -/
theorem change_origins_round_trip (l : List (tie_point R)) (o1 o2 : point R) :
    change_origins (change_origins l o1 o2) (point.new (-o1.x_) (-o1.y_))
      (point.new (-o2.x_) (-o2.y_)) = l := by
  rw [change_origins_eq_map, change_origins_eq_map, List.map_map]
  conv_rhs => rw [← List.map_id l]
  refine List.map_congr_left (fun t _ => ?_)
  obtain ⟨⟨x, y, sx, sy⟩, ⟨u, v, su, sv⟩, ty⟩ := t
  simp [point.new]

/-! ## `estimate_length_var` depends on the set of coordinates only -/

theorem std_set_map_key_eq (l1 l2 : List (tie_point R)) (h : key_set l1 = key_set l2) :
    (std_set l1).map tie_point.key = (std_set l2).map tie_point.key := by
  haveI : IsAntisymm (R × R × R × R) key_lt :=
    ⟨fun a b h1 h2 => absurd h2 (key_lt_asymm h1)⟩
  have hf : ((std_set l1).map tie_point.key).toFinset =
      ((std_set l2).map tie_point.key).toFinset := by
    have h1 : key_set (std_set l1) = key_set l1 := std_set_keys l1
    have h2 : key_set (std_set l2) = key_set l2 := std_set_keys l2
    unfold key_set at h1 h2 h
    rw [h1, h2, h]
  exact List.eq_of_perm_of_sorted
    (List.perm_of_nodup_nodup_toFinset_eq (std_set_nodup l1) (std_set_nodup l2) hf)
    (std_set_sorted l1) (std_set_sorted l2)

theorem nondegenerate_congr (a b a' b' : tie_point R) (ha : a.key = a'.key)
    (hb : b.key = b'.key) : nondegenerate a b ↔ nondegenerate a' b' := by
  rw [nondegenerate_iff, nondegenerate_iff, ha, hb]

theorem estimate_length_var_inner_congr (sqrt : R → R) (den : R) (a a' : tie_point R)
    (ha : a.key = a'.key) (l l' : List (tie_point R))
    (hl : l.map tie_point.key = l'.map tie_point.key) (lv : R) :
    estimate_length_var.inner sqrt den a.x_y_ a.u_v_ l lv =
      estimate_length_var.inner sqrt den a'.x_y_ a'.u_v_ l' lv := by
  induction l generalizing l' lv with
  | nil =>
    cases l' with
    | nil => rfl
    | cons b' l' => simp at hl
  | cons b l ih =>
    cases l' with
    | nil => simp at hl
    | cons b' l' =>
      rw [List.map_cons, List.map_cons, List.cons.injEq] at hl
      have hiff := nondegenerate_congr a b a' b' ha hl.1
      by_cases hb : nondegenerate a b
      · have hb' := hiff.mp hb
        have h1 : ¬ (a.x_y_.eq b.x_y_ || a.u_v_.eq b.u_v_) = true := by
          rw [← not_nondegenerate_iff]; exact not_not.mpr hb
        have h2 : ¬ (a'.x_y_.eq b'.x_y_ || a'.u_v_.eq b'.u_v_) = true := by
          rw [← not_nondegenerate_iff]; exact not_not.mpr hb'
        rw [estimate_length_var.inner, estimate_length_var.inner]
        simp only [tie_point.get, if_neg h1, if_neg h2, vector_new_of_ne _ _ hb.1,
          vector_new_of_ne _ _ hb.2, vector_new_of_ne _ _ hb'.1, vector_new_of_ne _ _ hb'.2]
        rw [length_vector_ratio, length_vector_ratio, ha, hl.1]
        exact ih l' hl.2 _
      · have hb' : ¬ nondegenerate a' b' := fun hc => hb (hiff.mpr hc)
        rw [estimate_length_var.inner, estimate_length_var.inner]
        simp only [tie_point.get, if_pos ((not_nondegenerate_iff a b).mp hb),
          if_pos ((not_nondegenerate_iff a' b').mp hb')]

theorem estimate_length_var_outer_congr (sqrt : R → R) (den : R) (l l' : List (tie_point R))
    (hl : l.map tie_point.key = l'.map tie_point.key) (lv : R) :
    estimate_length_var.outer sqrt den l lv = estimate_length_var.outer sqrt den l' lv := by
  induction l generalizing l' lv with
  | nil =>
    cases l' with
    | nil => rfl
    | cons b' l' => simp at hl
  | cons a l ih =>
    cases l' with
    | nil => simp at hl
    | cons a' l' =>
      rw [List.map_cons, List.map_cons, List.cons.injEq] at hl
      match l, l', ih, hl with
      | [], [], _, _ => simp [estimate_length_var.outer]
      | [], _ :: _, _, hl => simp at hl
      | _ :: _, [], _, hl => simp at hl
      | b :: rest, b' :: rest', ih, hl =>
        rw [estimate_length_var.outer, estimate_length_var.outer]
        simp only [tie_point.get]
        rw [estimate_length_var_inner_congr sqrt den a a' hl.1 (b :: rest) (b' :: rest') hl.2]
        cases estimate_length_var.inner sqrt den a'.x_y_ a'.u_v_ (b' :: rest') lv with
        | error e => rfl
        | ok r =>
          obtain ⟨flag, lv'⟩ := r
          cases flag with
          | false => rfl
          | true => exact ih (b' :: rest') hl.2 lv'

/-- C13: two lists with the same set of distinct (work, reference) coordinates, whatever the
order and the number of repetitions of the tie points, give the same outcome of
`estimate_length_var`: the same flag and the same stored measurements. -/
theorem estimate_length_var_key_set (sqrt : R → R) (m : evaluation_measurements R)
    (l1 l2 : List (tie_point R)) (h : key_set l1 = key_set l2) :
    estimate_length_var sqrt m l1 = estimate_length_var sqrt m l2 := by
  have hk := std_set_map_key_eq l1 l2 h
  have hlen : (std_set l1).length = (std_set l2).length := by
    rw [std_set_length, std_set_length, h]
  simp only [estimate_length_var, hlen]
  by_cases h2 : (std_set l2).length < 2
  · rw [if_pos h2, if_pos h2]
  · rw [if_neg h2, if_neg h2]
    cases math.binomial_number ((std_set l2).length : Int) 2 with
    | error e => rfl
    | ok den =>
      simp only [bind, Except.bind]
      rw [estimate_length_var_outer_congr sqrt (den : R) (std_set l1) (std_set l2) hk]

/-- The example of C13: the same three tie points, in another order and with repetitions (one
of them with other sigmas and another role). -/
theorem estimate_length_var_key_set_witness :
    estimate_length_var Rat.sqrt (⟨5, 6, 7⟩ : evaluation_measurements ℚ)
        [⟨⟨3, 4, 1, 1⟩, ⟨6, 8, 1, 1⟩, tie_point.type.CONTROL⟩,
          ⟨⟨0, 0, 1, 1⟩, ⟨0, 0, 1, 1⟩, tie_point.type.CONTROL⟩,
          ⟨⟨6, 8, 1, 1⟩, ⟨12, 16, 1, 1⟩, tie_point.type.CONTROL⟩] =
      estimate_length_var Rat.sqrt (⟨5, 6, 7⟩ : evaluation_measurements ℚ)
        [⟨⟨6, 8, 1, 1⟩, ⟨12, 16, 1, 1⟩, tie_point.type.CONTROL⟩,
          ⟨⟨0, 0, 2, 3⟩, ⟨0, 0, 4, 5⟩, tie_point.type.NONE⟩,
          ⟨⟨6, 8, 1, 1⟩, ⟨12, 16, 1, 1⟩, tie_point.type.CONTROL⟩,
          ⟨⟨3, 4, 1, 1⟩, ⟨6, 8, 1, 1⟩, tie_point.type.CONTROL⟩,
          ⟨⟨0, 0, 1, 1⟩, ⟨0, 0, 1, 1⟩, tie_point.type.CONTROL⟩] :=
  estimate_length_var_key_set _ _ _ _ (by decide!)

/-! ## When `estimate_similarity` fails -/

theorem estimate_similarity_inner_fail_pair (sqrt acos : R → R) (den : R) (a b c : tie_point R)
    (l : List (tie_point R)) (s : R) (h : ¬ nondegenerate a b) :
    estimate_similarity.inner sqrt acos den a.x_y_ a.u_v_ b.x_y_ b.u_v_ (c :: l) s =
      Except.error Error.assertion_failed := by
  rw [estimate_similarity.inner]
  simp only [tie_point.get]
  cases hwb : a.x_y_.eq b.x_y_
  · cases hrb : a.u_v_.eq b.u_v_
    · exact absurd ⟨hwb, hrb⟩ h
    · cases hwc : a.x_y_.eq c.x_y_
      · simp only [vector_new_of_ne _ _ hwb, vector_new_of_ne _ _ hwc,
          vector_new_of_eq _ _ hrb]
      · simp only [vector_new_of_ne _ _ hwb, vector_new_of_eq _ _ hwc]
  · simp only [vector_new_of_eq _ _ hwb]

theorem estimate_similarity_inner_fail_mem (sqrt acos : R → R) (den : R) (a b : tie_point R)
    (hab : nondegenerate a b) (l : List (tie_point R)) (s : R)
    (h : ∃ c ∈ l, ¬ nondegenerate a c) :
    estimate_similarity.inner sqrt acos den a.x_y_ a.u_v_ b.x_y_ b.u_v_ l s =
      Except.error Error.assertion_failed := by
  induction l generalizing s with
  | nil => obtain ⟨c, hc, _⟩ := h; exact absurd hc (List.not_mem_nil c)
  | cons c l ih =>
    rw [estimate_similarity.inner]
    simp only [tie_point.get, vector_new_of_ne _ _ hab.1, vector_new_of_ne _ _ hab.2]
    cases hwc : a.x_y_.eq c.x_y_
    · cases hrc : a.u_v_.eq c.u_v_
      · simp only [vector_new_of_ne _ _ hwc, vector_new_of_ne _ _ hrc]
        apply ih
        obtain ⟨x, hx, hnx⟩ := h
        rcases List.mem_cons.mp hx with rfl | hx
        · exact absurd ⟨hwc, hrc⟩ hnx
        · exact ⟨x, hx, hnx⟩
      · simp only [vector_new_of_ne _ _ hwc, vector_new_of_eq _ _ hrc]
    · simp only [vector_new_of_eq _ _ hwc]

theorem estimate_similarity_middle_fail (sqrt acos : R → R) (den : R) (a b c : tie_point R)
    (rest : List (tie_point R)) (s : R) (h : ∃ x ∈ b :: c :: rest, ¬ nondegenerate a x) :
    estimate_similarity.middle sqrt acos den a.x_y_ a.u_v_ (b :: c :: rest) s =
      Except.error Error.assertion_failed := by
  rw [estimate_similarity.middle]
  simp only [tie_point.get]
  by_cases hb : nondegenerate a b
  · have hmem : ∃ x ∈ c :: rest, ¬ nondegenerate a x := by
      obtain ⟨x, hx, hnx⟩ := h
      rcases List.mem_cons.mp hx with rfl | hx
      · exact absurd hb hnx
      · exact ⟨x, hx, hnx⟩
    rw [estimate_similarity_inner_fail_mem sqrt acos den a b hb (c :: rest) s hmem]
  · rw [estimate_similarity_inner_fail_pair sqrt acos den a b c rest s hb]

theorem estimate_similarity_outer_checked (sqrt acos : R → R) (den : R)
    (l : List (tie_point R)) (h : similarity_checked l) (s : R) :
    estimate_similarity.outer sqrt acos den l s =
      Except.ok (s + triple_sum (fun a b c => similarity_ratio sqrt acos a b c / den) l) := by
  induction l generalizing s with
  | nil => simp [estimate_similarity.outer, triple_sum]
  | cons a l ih =>
    match l, ih, h with
    | [], _, _ => simp [estimate_similarity.outer, triple_sum, pair_sum]
    | [b], _, _ => simp [estimate_similarity.outer, triple_sum, pair_sum]
    | b :: c :: rest, ih, h =>
      rw [similarity_checked] at h
      rw [estimate_similarity.outer]
      simp only [tie_point.get]
      rw [estimate_similarity_middle_eq sqrt acos den a (b :: c :: rest) h.1]
      simp only []
      rw [ih h.2, triple_sum_cons _ a, add_assoc]

theorem estimate_similarity_outer_fail (sqrt acos : R → R) (den : R)
    (l : List (tie_point R)) (h : ¬ similarity_checked l) (s : R) :
    estimate_similarity.outer sqrt acos den l s = Except.error Error.assertion_failed := by
  induction l generalizing s with
  | nil => exact absurd (by simp [similarity_checked]) h
  | cons a l ih =>
    match l, ih, h with
    | [], _, h => exact absurd (by simp [similarity_checked]) h
    | [b], _, h => exact absurd (by simp [similarity_checked]) h
    | b :: c :: rest, ih, h =>
      rw [similarity_checked] at h
      rw [estimate_similarity.outer]
      simp only [tie_point.get]
      by_cases ha : ∀ x ∈ b :: c :: rest, nondegenerate a x
      · rw [estimate_similarity_middle_eq sqrt acos den a (b :: c :: rest) ha]
        simp only []
        exact ih (fun hc => h ⟨ha, hc⟩) _
      · have hex : ∃ x ∈ b :: c :: rest, ¬ nondegenerate a x := by
          by_contra hn
          exact ha (fun x hx => by_contra (fun hnx => hn ⟨x, hx, hnx⟩))
        rw [estimate_similarity_middle_fail sqrt acos den a b c rest s hex]

theorem similarity_checked_get (l : List (tie_point R)) (h : similarity_checked l) :
    ∀ i j k : Fin l.length, i < j → j < k →
      nondegenerate (l.get i) (l.get j) ∧ nondegenerate (l.get i) (l.get k) := by
  induction l with
  | nil => intro i; exact i.elim0
  | cons a l ih =>
    match l, ih, h with
    | [], _, _ =>
      intro i j k hij hjk
      have h1 := k.isLt
      have h2 : i.val < j.val := hij
      have h3 : j.val < k.val := hjk
      simp only [List.length_cons, List.length_nil] at h1
      omega
    | [b], _, _ =>
      intro i j k hij hjk
      have h1 := k.isLt
      have h2 : i.val < j.val := hij
      have h3 : j.val < k.val := hjk
      simp only [List.length_cons, List.length_nil] at h1
      omega
    | b :: c :: rest, ih, h =>
      rw [similarity_checked] at h
      intro i j k
      refine Fin.cases ?_ (fun i' => ?_) i
      · refine Fin.cases ?_ (fun j' => ?_) j
        · intro hij; exact absurd hij (lt_irrefl _)
        · refine Fin.cases ?_ (fun k' => ?_) k
          · intro _ hjk; exact absurd hjk (Fin.not_lt_zero _)
          · intro _ _
            exact ⟨h.1 _ (List.get_mem _ _ _), h.1 _ (List.get_mem _ _ _)⟩
      · refine Fin.cases ?_ (fun j' => ?_) j
        · intro hij; exact absurd hij (Fin.not_lt_zero _)
        · refine Fin.cases ?_ (fun k' => ?_) k
          · intro _ hjk; exact absurd hjk (Fin.not_lt_zero _)
          · intro hij hjk
            exact ih h.2 i' j' k' (Fin.succ_lt_succ_iff.mp hij) (Fin.succ_lt_succ_iff.mp hjk)

theorem estimate_similarity_of_outer (sqrt acos : R → R) (m : evaluation_measurements R)
    (l : List (tie_point R)) (h : 3 ≤ l.length) :
    estimate_similarity sqrt acos m l =
      match estimate_similarity.outer sqrt acos ((binomial_value l.length 3 : Int) : R) l 0 with
      | Except.ok s => Except.ok (true, { m with similarity_ := s })
      | Except.error e => Except.error e := by
  have h3 : ¬ l.length < 3 := by omega
  have hb := math_binomial_number_value l.length 3 (by norm_num) h
  simp only [estimate_similarity, if_neg h3]
  rw [show ((3 : Int)) = ((3 : Nat) : Int) from rfl, hb]
  simp only [bind, Except.bind]
  cases estimate_similarity.outer sqrt acos ((binomial_value l.length 3 : Int) : R) l 0 <;> rfl

theorem estimate_similarity_of_outer_small (sqrt acos : R → R) (m : evaluation_measurements R)
    (l : List (tie_point R)) (h : 3 ≤ l.length) (h28 : l.length ≤ 28) :
    estimate_similarity sqrt acos m l =
      match estimate_similarity.outer sqrt acos ((l.length.choose 3 : Nat) : R) l 0 with
      | Except.ok s => Except.ok (true, { m with similarity_ := s })
      | Except.error e => Except.error e := by
  rw [estimate_similarity_of_outer sqrt acos m l h,
    binomial_value_eq_choose l.length 3 (by norm_num) h h28, Int.cast_natCast]

/-- C12 as amended: if for some triple of positions `i < j < k` the work points or the
reference points of the entries `i` and `j`, or of the entries `i` and `k`, are equal,
`estimate_similarity` fails in the vector constructor and returns no value. -/
theorem estimate_similarity_degenerate (sqrt acos : R → R) (m : evaluation_measurements R)
    (l : List (tie_point R))
    (h : ∃ i j k : Fin l.length, i < j ∧ j < k ∧
      ((((l.get i).x_y_.eq (l.get j).x_y_ = true ∨ (l.get i).u_v_.eq (l.get j).u_v_ = true)) ∨
        ((l.get i).x_y_.eq (l.get k).x_y_ = true ∨ (l.get i).u_v_.eq (l.get k).u_v_ = true))) :
    estimate_similarity sqrt acos m l = Except.error Error.assertion_failed := by
  obtain ⟨i, j, k, hij, hjk, hd⟩ := h
  have h3 : 3 ≤ l.length := by
    have h1 := k.isLt
    have h2 : i.val < j.val := hij
    have h3 : j.val < k.val := hjk
    omega
  have hn : ¬ similarity_checked l := by
    intro hc
    have hg := similarity_checked_get l hc i j k hij hjk
    rcases hd with (hd | hd) | (hd | hd)
    · rw [hg.1.1] at hd; exact absurd hd (by simp)
    · rw [hg.1.2] at hd; exact absurd hd (by simp)
    · rw [hg.2.1] at hd; exact absurd hd (by simp)
    · rw [hg.2.2] at hd; exact absurd hd (by simp)
  rw [estimate_similarity_of_outer sqrt acos m l h3,
    estimate_similarity_outer_fail sqrt acos _ l hn]

/-- The example of C12 as amended: the first and the third entry have the same work point. -/
theorem estimate_similarity_degenerate_witness :
    estimate_similarity Rat.sqrt (fun x => x) (⟨5, 6, 7⟩ : evaluation_measurements ℚ)
        [⟨⟨0, 0, 1, 1⟩, ⟨0, 0, 1, 1⟩, tie_point.type.CONTROL⟩,
          ⟨⟨1, 0, 1, 1⟩, ⟨1, 0, 1, 1⟩, tie_point.type.CONTROL⟩,
          ⟨⟨0, 0, 1, 1⟩, ⟨0, 1, 1, 1⟩, tie_point.type.CONTROL⟩] =
      Except.error Error.assertion_failed :=
  estimate_similarity_degenerate _ _ _ _ (by decide!)

/-- The counterexample to C12: the second and the third entry have the same work point
`(1,0)`, no vector is built from the two, and `estimate_similarity` returns `true` and stores
`0 / (pi / 2) = 0`. -/
theorem estimate_similarity_equal_later_points :
    (⟨1, 0, 1, 1⟩ : point ℝ).eq ⟨1, 0, 1, 1⟩ = true ∧
    estimate_similarity Real.sqrt Real.arccos (⟨5, 6, 7⟩ : evaluation_measurements ℝ)
        [⟨⟨0, 0, 1, 1⟩, ⟨0, 0, 1, 1⟩, tie_point.type.CONTROL⟩,
          ⟨⟨1, 0, 1, 1⟩, ⟨1, 0, 1, 1⟩, tie_point.type.CONTROL⟩,
          ⟨⟨1, 0, 1, 1⟩, ⟨0, 1, 1, 1⟩, tie_point.type.CONTROL⟩] =
      Except.ok (true, ⟨5, 6, 0⟩) := by
  refine ⟨by simp [point.eq], ?_⟩
  rw [estimate_similarity_of_outer_small _ _ _ _ (by simp) (by simp),
    estimate_similarity_outer_checked _ _ _ _ (by simp [similarity_checked, nondegenerate,
      point.eq])]
  simp [triple_sum, pair_sum, similarity_ratio, vector.angle_b_vectors, vector.get,
    point.get_x, point.get_y]

/-! ## `estimate_similarity` on the image of a similarity transformation -/

theorem pair_sum_const {α : Type} (c : R) (l : List α) :
    pair_sum (fun _ _ => c) l = ((l.length.choose 2 : Nat) : R) * c := by
  have h : (fun (_ _ : α) => c) = (fun _ _ => (1 : R) * c) := by funext _ _; rw [one_mul]
  have hm : ∀ (f : α → α → R) (l : List α),
      pair_sum (fun a b => f a b * c) l = pair_sum f l * c := by
    intro f l
    induction l with
    | nil => simp [pair_sum]
    | cons a l ih => rw [pair_sum_cons, ih, pair_sum_cons, List.sum_map_mul_right, add_mul]
  rw [h, hm, pair_sum_one]

theorem triple_sum_const {α : Type} (c : R) (l : List α) :
    triple_sum (fun _ _ _ => c) l = ((l.length.choose 3 : Nat) : R) * c := by
  induction l with
  | nil => simp [triple_sum]
  | cons a l ih =>
    rw [triple_sum_cons, ih, pair_sum_const, List.length_cons, Nat.choose_succ_succ]
    push_cast
    ring

theorem triple_sum_congr_fin {α : Type} (f g : α → α → α → R) (l : List α)
    (h : ∀ i j k : Fin l.length, i < j → j < k →
      f (l.get i) (l.get j) (l.get k) = g (l.get i) (l.get j) (l.get k)) :
    triple_sum f l = triple_sum g l := by
  rw [triple_sum_eq_fin, triple_sum_eq_fin]
  refine Finset.sum_congr rfl (fun i _ => Finset.sum_congr rfl (fun j _ =>
    Finset.sum_congr rfl (fun k _ => ?_)))
  by_cases hc : i < j ∧ j < k
  · rw [if_pos hc, if_pos hc, h i j k hc.1 hc.2]
  · rw [if_neg hc, if_neg hc]

theorem angle_of_similarity_transform (a b c : tie_point ℝ) (θ s tx ty : ℝ) (hs : 0 < s)
    (ht : ∀ t : tie_point ℝ, t = a ∨ t = b ∨ t = c →
      t.u_v_.x_ = s * (Real.cos θ * t.x_y_.x_ - Real.sin θ * t.x_y_.y_) + tx ∧
      t.u_v_.y_ = s * (Real.sin θ * t.x_y_.x_ + Real.cos θ * t.x_y_.y_) + ty) :
    vector.angle_b_vectors Real.sqrt Real.arccos ⟨a.u_v_, b.u_v_⟩ ⟨a.u_v_, c.u_v_⟩ =
      vector.angle_b_vectors Real.sqrt Real.arccos ⟨a.x_y_, b.x_y_⟩ ⟨a.x_y_, c.x_y_⟩ := by
  have ha := ht a (Or.inl rfl)
  have hb := ht b (Or.inr (Or.inl rfl))
  have hc := ht c (Or.inr (Or.inr rfl))
  have hcs : Real.cos θ ^ 2 + Real.sin θ ^ 2 = 1 := Real.cos_sq_add_sin_sq θ
  simp only [vector.angle_b_vectors, vector.get, point.get_x, point.get_y]
  rw [ha.1, ha.2, hb.1, hb.2, hc.1, hc.2]
  have hdot : ∀ x1 y1 x2 y2 x0 y0 : ℝ,
      (s * (Real.cos θ * x1 - Real.sin θ * y1) + tx -
          (s * (Real.cos θ * x0 - Real.sin θ * y0) + tx)) *
        (s * (Real.cos θ * x2 - Real.sin θ * y2) + tx -
          (s * (Real.cos θ * x0 - Real.sin θ * y0) + tx)) +
      (s * (Real.sin θ * x1 + Real.cos θ * y1) + ty -
          (s * (Real.sin θ * x0 + Real.cos θ * y0) + ty)) *
        (s * (Real.sin θ * x2 + Real.cos θ * y2) + ty -
          (s * (Real.sin θ * x0 + Real.cos θ * y0) + ty)) =
      s ^ 2 * ((x1 - x0) * (x2 - x0) + (y1 - y0) * (y2 - y0)) := by
    intro x1 y1 x2 y2 x0 y0
    linear_combination
      (s ^ 2 * ((x1 - x0) * (x2 - x0) + (y1 - y0) * (y2 - y0))) * hcs
  have hnorm : ∀ x1 y1 x0 y0 : ℝ,
      Real.sqrt ((s * (Real.cos θ * x1 - Real.sin θ * y1) + tx -
          (s * (Real.cos θ * x0 - Real.sin θ * y0) + tx)) ^ 2 +
        (s * (Real.sin θ * x1 + Real.cos θ * y1) + ty -
          (s * (Real.sin θ * x0 + Real.cos θ * y0) + ty)) ^ 2) =
      s * Real.sqrt ((x1 - x0) ^ 2 + (y1 - y0) ^ 2) := by
    intro x1 y1 x0 y0
    have h1 := hdot x1 y1 x1 y1 x0 y0
    have h2 : ∀ z : ℝ, z ^ 2 = z * z := fun z => sq z
    rw [h2, h2, h1, Real.sqrt_mul (sq_nonneg s), Real.sqrt_sq hs.le, ← h2, ← h2]
  rw [hdot, hnorm, hnorm]
  have hs2 : s ^ 2 ≠ 0 := pow_ne_zero 2 hs.ne'
  rw [show s * Real.sqrt ((b.x_y_.x_ - a.x_y_.x_) ^ 2 + (b.x_y_.y_ - a.x_y_.y_) ^ 2) *
      (s * Real.sqrt ((c.x_y_.x_ - a.x_y_.x_) ^ 2 + (c.x_y_.y_ - a.x_y_.y_) ^ 2)) =
      s ^ 2 * (Real.sqrt ((b.x_y_.x_ - a.x_y_.x_) ^ 2 + (b.x_y_.y_ - a.x_y_.y_) ^ 2) *
        Real.sqrt ((c.x_y_.x_ - a.x_y_.x_) ^ 2 + (c.x_y_.y_ - a.x_y_.y_) ^ 2)) from by ring,
    mul_div_mul_left _ _ hs2]

theorem reference_ne_of_similarity_transform (a b : tie_point ℝ) (θ s tx ty : ℝ) (hs : 0 < s)
    (ha : a.u_v_.x_ = s * (Real.cos θ * a.x_y_.x_ - Real.sin θ * a.x_y_.y_) + tx ∧
      a.u_v_.y_ = s * (Real.sin θ * a.x_y_.x_ + Real.cos θ * a.x_y_.y_) + ty)
    (hb : b.u_v_.x_ = s * (Real.cos θ * b.x_y_.x_ - Real.sin θ * b.x_y_.y_) + tx ∧
      b.u_v_.y_ = s * (Real.sin θ * b.x_y_.x_ + Real.cos θ * b.x_y_.y_) + ty)
    (hw : a.x_y_.eq b.x_y_ = false) : a.u_v_.eq b.u_v_ = false := by
  rw [← Bool.not_eq_true, point_eq_iff] at hw ⊢
  rintro ⟨hx, hy⟩
  apply hw
  rw [ha.1, hb.1] at hx
  rw [ha.2, hb.2] at hy
  have hcs : Real.cos θ ^ 2 + Real.sin θ ^ 2 = 1 := Real.cos_sq_add_sin_sq θ
  have h1 : Real.cos θ * (a.x_y_.x_ - b.x_y_.x_) - Real.sin θ * (a.x_y_.y_ - b.x_y_.y_) = 0 := by
    have : s * (Real.cos θ * (a.x_y_.x_ - b.x_y_.x_) -
        Real.sin θ * (a.x_y_.y_ - b.x_y_.y_)) = 0 := by linarith
    rcases mul_eq_zero.mp this with h | h
    · exact absurd h hs.ne'
    · exact h
  have h2 : Real.sin θ * (a.x_y_.x_ - b.x_y_.x_) + Real.cos θ * (a.x_y_.y_ - b.x_y_.y_) = 0 := by
    have : s * (Real.sin θ * (a.x_y_.x_ - b.x_y_.x_) +
        Real.cos θ * (a.x_y_.y_ - b.x_y_.y_)) = 0 := by linarith
    rcases mul_eq_zero.mp this with h | h
    · exact absurd h hs.ne'
    · exact h
  constructor
  · have : a.x_y_.x_ - b.x_y_.x_ = 0 := by
      linear_combination Real.cos θ * h1 + Real.sin θ * h2 - (a.x_y_.x_ - b.x_y_.x_) * hcs
    linarith
  · have : a.x_y_.y_ - b.x_y_.y_ = 0 := by
      linear_combination Real.cos θ * h2 - Real.sin θ * h1 - (a.x_y_.y_ - b.x_y_.y_) * hcs
    linarith

/-- For a list of `n >= 3` tie points with pairwise distinct work points whose reference points
are the images of the work points under a rotation by `θ`, a scaling by `s > 0` and a
translation by `(tx, ty)`, and in which no triple of positions `i < j < k` has the angle `0`
between the work vectors `i -> j` and `i -> k`, `estimate_similarity` over the reals returns
`true` and stores `C(n,3) / den`, with `den` the value that `binomial_number( n, 3 )`
returned. -/
theorem estimate_similarity_of_similarity_transform_stored (m : evaluation_measurements ℝ)
    (l : List (tie_point ℝ)) (θ s tx ty : ℝ) (hs : 0 < s) (h3 : 3 ≤ l.length)
    (hw : l.Pairwise (fun a b => a.x_y_.eq b.x_y_ = false))
    (ht : ∀ t ∈ l,
      t.u_v_.x_ = s * (Real.cos θ * t.x_y_.x_ - Real.sin θ * t.x_y_.y_) + tx ∧
      t.u_v_.y_ = s * (Real.sin θ * t.x_y_.x_ + Real.cos θ * t.x_y_.y_) + ty)
    (ha : ∀ i j k : Fin l.length, i < j → j < k →
      vector.angle_b_vectors Real.sqrt Real.arccos
        ⟨(l.get i).x_y_, (l.get j).x_y_⟩ ⟨(l.get i).x_y_, (l.get k).x_y_⟩ ≠ 0) :
    estimate_similarity Real.sqrt Real.arccos m l =
      Except.ok (true, { m with similarity_ :=
        ((l.length.choose 3 : Nat) : ℝ) / ((binomial_value l.length 3 : Int) : ℝ) }) := by
  have hr : l.Pairwise (fun a b => a.u_v_.eq b.u_v_ = false) :=
    hw.imp_of_mem (fun {a b} hal hbl hab =>
      reference_ne_of_similarity_transform a b θ s tx ty hs (ht a hal) (ht b hbl) hab)
  rw [estimate_similarity_of_outer _ _ m l h3, estimate_similarity_outer_eq _ _ _ l hw hr]
  have hsum : triple_sum (fun a b c =>
      similarity_ratio Real.sqrt Real.arccos a b c / ((binomial_value l.length 3 : Int) : ℝ)) l =
      triple_sum (fun _ _ _ => 1 / ((binomial_value l.length 3 : Int) : ℝ)) l := by
    refine triple_sum_congr_fin _ _ l (fun i j k hij hjk => ?_)
    have hangle := angle_of_similarity_transform (l.get i) (l.get j) (l.get k) θ s tx ty hs
      (fun t htm => by
        rcases htm with rfl | rfl | rfl <;> exact ht _ (List.get_mem _ _ _))
    simp only [similarity_ratio]
    rw [hangle, div_self (ha i j k hij hjk)]
  simp only []
  rw [hsum, triple_sum_const, mul_one_div, zero_add]

/-- With at most 28 tie points the stored value is `1`. -/
theorem estimate_similarity_of_similarity_transform_small (m : evaluation_measurements ℝ)
    (l : List (tie_point ℝ)) (θ s tx ty : ℝ) (hs : 0 < s) (h3 : 3 ≤ l.length)
    (h28 : l.length ≤ 28)
    (hw : l.Pairwise (fun a b => a.x_y_.eq b.x_y_ = false))
    (ht : ∀ t ∈ l,
      t.u_v_.x_ = s * (Real.cos θ * t.x_y_.x_ - Real.sin θ * t.x_y_.y_) + tx ∧
      t.u_v_.y_ = s * (Real.sin θ * t.x_y_.x_ + Real.cos θ * t.x_y_.y_) + ty)
    (ha : ∀ i j k : Fin l.length, i < j → j < k →
      vector.angle_b_vectors Real.sqrt Real.arccos
        ⟨(l.get i).x_y_, (l.get j).x_y_⟩ ⟨(l.get i).x_y_, (l.get k).x_y_⟩ ≠ 0) :
    estimate_similarity Real.sqrt Real.arccos m l =
      Except.ok (true, { m with similarity_ := 1 }) := by
  have hc : (((l.length.choose 3 : Nat) : ℝ)) ≠ 0 :=
    Nat.cast_ne_zero.mpr (Nat.pos_iff_ne_zero.mp (Nat.choose_pos h3))
  rw [estimate_similarity_of_similarity_transform_stored m l θ s tx ty hs h3 hw ht ha,
    binomial_value_eq_choose l.length 3 (by norm_num) h3 h28, Int.cast_natCast, div_self hc]

theorem forall_triple_of_three {α : Type} (a b c : α) (P : α → α → α → Prop) (h : P a b c) :
    ∀ i j k : Fin [a, b, c].length, i < j → j < k →
      P ([a, b, c].get i) ([a, b, c].get j) ([a, b, c].get k) := by
  intro i j k hij hjk
  obtain ⟨i, hi⟩ := i
  obtain ⟨j, hj⟩ := j
  obtain ⟨k, hk⟩ := k
  simp only [List.length_cons, List.length_nil] at hi hj hk
  have h1 : i < j := hij
  have h2 : j < k := hjk
  have hi0 : i = 0 := by omega
  have hj1 : j = 1 := by omega
  have hk2 : k = 2 := by omega
  subst hi0 hj1 hk2
  exact h

/-- An example: the work points `(0,0)`, `(1,0)`, `(0,1)`, the reference points their images
under the scaling by 2 and the translation by `(1,1)` (rotation by 0). -/
theorem estimate_similarity_of_similarity_transform_small_example :
    estimate_similarity Real.sqrt Real.arccos (⟨5, 6, 7⟩ : evaluation_measurements ℝ)
        [⟨⟨0, 0, 1, 1⟩, ⟨1, 1, 1, 1⟩, tie_point.type.CONTROL⟩,
          ⟨⟨1, 0, 1, 1⟩, ⟨3, 1, 1, 1⟩, tie_point.type.CONTROL⟩,
          ⟨⟨0, 1, 1, 1⟩, ⟨1, 3, 1, 1⟩, tie_point.type.CONTROL⟩] =
      Except.ok (true, ⟨5, 6, 1⟩) := by
  have hangle : vector.angle_b_vectors Real.sqrt Real.arccos
      (⟨⟨0, 0, 1, 1⟩, ⟨1, 0, 1, 1⟩⟩ : vector ℝ) ⟨⟨0, 0, 1, 1⟩, ⟨0, 1, 1, 1⟩⟩ ≠ 0 := by
    simp [vector.angle_b_vectors, vector.get, point.get_x, point.get_y]
    exact Real.pi_pos.ne'
  have ha := forall_triple_of_three
    (⟨⟨0, 0, 1, 1⟩, ⟨1, 1, 1, 1⟩, tie_point.type.CONTROL⟩ : tie_point ℝ)
    ⟨⟨1, 0, 1, 1⟩, ⟨3, 1, 1, 1⟩, tie_point.type.CONTROL⟩
    ⟨⟨0, 1, 1, 1⟩, ⟨1, 3, 1, 1⟩, tie_point.type.CONTROL⟩
    (fun a b c => vector.angle_b_vectors Real.sqrt Real.arccos
      ⟨a.x_y_, b.x_y_⟩ ⟨a.x_y_, c.x_y_⟩ ≠ 0) hangle
  have hs : (0 : ℝ) < 2 := by norm_num
  have h3 : 3 ≤ [(⟨⟨0, 0, 1, 1⟩, ⟨1, 1, 1, 1⟩, tie_point.type.CONTROL⟩ : tie_point ℝ),
      ⟨⟨1, 0, 1, 1⟩, ⟨3, 1, 1, 1⟩, tie_point.type.CONTROL⟩,
      ⟨⟨0, 1, 1, 1⟩, ⟨1, 3, 1, 1⟩, tie_point.type.CONTROL⟩].length := by simp
  exact estimate_similarity_of_similarity_transform_small ⟨5, 6, 7⟩ _ 0 2 1 1 hs h3 (by simp)
    (by simp [point.eq]) (by simp; norm_num) ha

/-! ## The length of a vector and the angle between two vectors -/

/-- C21: for two different points `p` and `q` both `vector( p, q )` and `vector( q, p )` are
built, in either build, their `length_vector()` are equal, and both are
`sqrt( ( q.x - p.x )^2 + ( q.y - p.y )^2 )`. -/
theorem vector_length_vector_symmetric (sqrt : R → R) (ndebug : Bool) (p q : point R)
    (h : p.eq q = false) :
    ∃ v w : vector R, vector.construct ndebug p q = Except.ok v ∧
      vector.construct ndebug q p = Except.ok w ∧
      v.length_vector sqrt = w.length_vector sqrt ∧
      v.length_vector sqrt = sqrt ((q.x_ - p.x_) ^ 2 + (q.y_ - p.y_) ^ 2) ∧
      w.length_vector sqrt = sqrt ((q.x_ - p.x_) ^ 2 + (q.y_ - p.y_) ^ 2) := by
  have h' : q.eq p = false := by rw [point_eq_swap]; exact h
  have e : (p.x_ - q.x_) ^ 2 + (p.y_ - q.y_) ^ 2 = (q.x_ - p.x_) ^ 2 + (q.y_ - p.y_) ^ 2 := by
    ring
  refine ⟨⟨p, q⟩, ⟨q, p⟩, vector_construct_of_ne ndebug p q h, vector_construct_of_ne ndebug q p h',
    ?_, ?_, ?_⟩
  · simp only [vector.length_vector, point.get_x, point.get_y]; rw [e]
  · simp only [vector.length_vector, point.get_x, point.get_y]; rw [e]
  · simp only [vector.length_vector, point.get_x, point.get_y]

theorem vector_length_vector_symmetric_witness :
    (point.new (0 : ℝ) 0).eq (point.new 3 4) = false ∧
    ∃ v w : vector ℝ, vector.construct false (point.new 0 0) (point.new 3 4) = Except.ok v ∧
      vector.construct false (point.new 3 4) (point.new 0 0) = Except.ok w ∧
      v.length_vector Real.sqrt = w.length_vector Real.sqrt ∧
      v.length_vector Real.sqrt
        = Real.sqrt (((point.new (3 : ℝ) 4).x_ - (point.new (0 : ℝ) 0).x_) ^ 2
          + ((point.new (3 : ℝ) 4).y_ - (point.new (0 : ℝ) 0).y_) ^ 2) ∧
      w.length_vector Real.sqrt
        = Real.sqrt (((point.new (3 : ℝ) 4).x_ - (point.new (0 : ℝ) 0).x_) ^ 2
          + ((point.new (3 : ℝ) 4).y_ - (point.new (0 : ℝ) 0).y_) ^ 2) :=
  ⟨by simp [point.eq, point.new, point.get_x, point.get_y],
    vector_length_vector_symmetric Real.sqrt false (point.new 0 0) (point.new 3 4)
      (by simp [point.eq, point.new, point.get_x, point.get_y])⟩

/-! ## `math::compute_difference` -/

theorem abs_add_abs_of_mul_neg (a b : R) (h : a * b < 0) : |a| + |b| = |a - b| := by
  rcases mul_neg_iff.mp h with ⟨hl, hr⟩ | ⟨hl, hr⟩
  · rw [abs_of_pos hl, abs_of_neg hr, abs_of_pos (by linarith)]; ring
  · rw [abs_of_neg hl, abs_of_pos hr, abs_of_neg (by linarith)]; ring

theorem abs_abs_sub_abs_of_mul_nonneg (a b : R) (h : ¬ a * b < 0) :
    |(|a| - |b|)| = |a - b| := by
  have h0 : 0 ≤ a * b := not_lt.mp h
  rcases mul_nonneg_iff.mp h0 with ⟨hl, hr⟩ | ⟨hl, hr⟩
  · rw [abs_of_nonneg hl, abs_of_nonneg hr]
  · rw [abs_of_nonpos hl, abs_of_nonpos hr, neg_sub_neg, abs_sub_comm]

/-- With exact arithmetic (the identity for `fl`) `compute_difference( a, b )` returns
`|a - b|` on both branches. -/
theorem math_compute_difference_exact (a b : R) :
    math.compute_difference (fun x => x) a b = Except.ok |a - b| := by
  have e : (if a * b < 0 then |a| + |b| else |(|a| - |b|)|) = |a - b| := by
    split
    · exact abs_add_abs_of_mul_neg a b (by assumption)
    · exact abs_abs_sub_abs_of_mul_nonneg a b (by assumption)
  simp only [math.compute_difference, e, assert, ge_iff_le, abs_nonneg, decide_True]
  rfl

/-- C30, the code at the failing input: `2^-600` and `-2^-600` are `double`s; their product
`-2^-1200` is rounded to `0` (it underflows), the test `lhs * rhs < 0` fails, the branch
`| |lhs| - |rhs| |` is taken, and `compute_difference` returns `0`, where the absolute
difference `|lhs - rhs|` is `2^-599`, a `double` as well. -/
theorem math_compute_difference_underflow :
    binary64.round (pow2 (-600)) = pow2 (-600) ∧
    binary64.round (-(pow2 (-600))) = -(pow2 (-600)) ∧
    binary64.round (pow2 (-600) * -(pow2 (-600))) = 0 ∧
    math.compute_difference binary64.round (pow2 (-600)) (-(pow2 (-600))) = Except.ok 0 ∧
    |pow2 (-600) - -(pow2 (-600))| = pow2 (-599) ∧
    binary64.round (pow2 (-599)) = pow2 (-599) ∧
    (0 : ℚ) ≠ pow2 (-599) := by
  decide!

/-! ## `bilinear_interpolation` -/

/-- C27: for `x1 ≠ x2` and `y1 ≠ y2` the object built from the corners and the four values
returns `q11` at `(x1, y1)`, `q12` at `(x1, y2)`, `q21` at `(x2, y1)` and `q22` at
`(x2, y2)`. -/
theorem bilinear_interpolation_corners (x1 y1 x2 y2 q11 q12 q21 q22 : R) (hx : x1 ≠ x2)
    (hy : y1 ≠ y2) :
    (bilinear_interpolation.new x1 y1 x2 y2 q11 q12 q21 q22).interpolate_at x1 y1 = q11 ∧
    (bilinear_interpolation.new x1 y1 x2 y2 q11 q12 q21 q22).interpolate_at x1 y2 = q12 ∧
    (bilinear_interpolation.new x1 y1 x2 y2 q11 q12 q21 q22).interpolate_at x2 y1 = q21 ∧
    (bilinear_interpolation.new x1 y1 x2 y2 q11 q12 q21 q22).interpolate_at x2 y2 = q22 := by
  have hx' : x2 - x1 ≠ 0 := sub_ne_zero.mpr (Ne.symm hx)
  have hy' : y2 - y1 ≠ 0 := sub_ne_zero.mpr (Ne.symm hy)
  simp only [bilinear_interpolation.interpolate_at, bilinear_interpolation.new]
  refine ⟨?_, ?_, ?_, ?_⟩ <;> field_simp <;> ring

theorem bilinear_interpolation_corners_witness :
    (0 : ℚ) ≠ 2 ∧ (0 : ℚ) ≠ 3 ∧
    ((bilinear_interpolation.new (0 : ℚ) 0 2 3 5 6 7 8).interpolate_at 0 0 = 5 ∧
    (bilinear_interpolation.new (0 : ℚ) 0 2 3 5 6 7 8).interpolate_at 0 3 = 6 ∧
    (bilinear_interpolation.new (0 : ℚ) 0 2 3 5 6 7 8).interpolate_at 2 0 = 7 ∧
    (bilinear_interpolation.new (0 : ℚ) 0 2 3 5 6 7 8).interpolate_at 2 3 = 8) :=
  ⟨by decide, by decide, bilinear_interpolation_corners 0 0 2 3 5 6 7 8 (by decide) (by decide)⟩

/-! ## `math::binomial_number`: symmetry -/

/-- The rounded factorials give `binomial_number( 29, 1 ) = 28`. -/
theorem math_binomial_number_29_1 : math.binomial_number 29 1 = Except.ok 28 := by
  decide!

/-- C24: `a == b` holds exactly when the work and the reference coordinates are equal (the role
and the sigmas are not read); `a < b` is the lexicographic order on
`(work.x, work.y, ref.x, ref.y)`; exactly one of `a < b`, `a == b`, `b < a` holds, and `<` is
transitive. -/
theorem tie_point_strict_total_order (a b c : tie_point R) :
    (a.eq b = true ↔ (a.x_y_.x_ = b.x_y_.x_ ∧ a.x_y_.y_ = b.x_y_.y_ ∧
      a.u_v_.x_ = b.u_v_.x_ ∧ a.u_v_.y_ = b.u_v_.y_)) ∧
    (a.lt b = true ↔ (a.x_y_.x_ < b.x_y_.x_ ∨ (a.x_y_.x_ = b.x_y_.x_ ∧
      (a.x_y_.y_ < b.x_y_.y_ ∨ (a.x_y_.y_ = b.x_y_.y_ ∧
        (a.u_v_.x_ < b.u_v_.x_ ∨ (a.u_v_.x_ = b.u_v_.x_ ∧ a.u_v_.y_ < b.u_v_.y_))))))) ∧
    (a.lt b = true ∨ a.eq b = true ∨ b.lt a = true) ∧
    ¬ (a.lt b = true ∧ a.eq b = true) ∧
    ¬ (a.lt b = true ∧ b.lt a = true) ∧
    ¬ (a.eq b = true ∧ b.lt a = true) ∧
    (a.lt b = true → b.lt c = true → a.lt c = true) := by
  refine ⟨?_, ?_, ?_, ?_, ?_, ?_, ?_⟩
  · rw [tie_point_eq_iff]
    simp only [tie_point.key, Prod.mk.injEq]
  · rw [tie_point_lt_iff]
    simp only [tie_point.key, key_lt]
  · by_cases h1 : a.lt b = true
    · exact Or.inl h1
    · by_cases h2 : b.lt a = true
      · exact Or.inr (Or.inr h2)
      · refine Or.inr (Or.inl ((tie_point_eq_iff a b).mpr (key_eq_of_not_lt ?_ ?_)))
        · rwa [← tie_point_lt_iff]
        · rwa [← tie_point_lt_iff]
  · rintro ⟨h1, h2⟩
    rw [tie_point_lt_iff, (tie_point_eq_iff a b).mp h2] at h1
    exact key_lt_irrefl _ h1
  · rintro ⟨h1, h2⟩
    rw [tie_point_lt_iff] at h1 h2
    exact key_lt_asymm h1 h2
  · rintro ⟨h1, h2⟩
    rw [tie_point_lt_iff, (tie_point_eq_iff a b).mp h1] at h2
    exact key_lt_irrefl _ h2
  · intro h1 h2
    rw [tie_point_lt_iff] at h1 h2 ⊢
    exact key_lt_trans h1 h2

/-! ## The estimators write their own scalar only -/

theorem estimate_length_var_own_scalar (sqrt : R → R) (m : evaluation_measurements R)
    (l : List (tie_point R)) (r : evaluation_measurements R)
    (h : estimate_length_var sqrt m l = Except.ok (true, r)) :
    r.anisomorphism_ = m.anisomorphism_ ∧ r.similarity_ = m.similarity_ ∧
    ∀ m' : evaluation_measurements R, estimate_length_var sqrt m' l
      = Except.ok (true, { m' with length_variation_ := r.length_variation_ }) := by
  unfold estimate_length_var at h ⊢
  simp only at h ⊢
  split at h
  · cases h
  · rename_i hlen
    simp only [hlen, if_false]
    cases hb : math.binomial_number ((std_set l).length : Int) 2 with
    | error e => rw [hb] at h; cases h
    | ok den =>
      rw [hb] at h
      cases ho : estimate_length_var.outer sqrt (den : R) (std_set l) 0 with
      | error e => simp only [bind, Except.bind, ho] at h; cases h
      | ok p =>
        obtain ⟨b, v⟩ := p
        simp only [bind, Except.bind, ho, pure, Except.pure, Except.ok.injEq,
          Prod.mk.injEq] at h ⊢
        obtain ⟨hb', rfl⟩ := h
        subst hb'
        exact ⟨rfl, rfl, fun m' => ⟨rfl, rfl⟩⟩

theorem estimate_anisomorphism_own_scalar (m : evaluation_measurements R)
    (l : List (tie_point R)) (r : evaluation_measurements R)
    (h : estimate_anisomorphism m l = Except.ok (true, r)) :
    r.length_variation_ = m.length_variation_ ∧ r.similarity_ = m.similarity_ ∧
    ∀ m' : evaluation_measurements R, estimate_anisomorphism m' l
      = Except.ok (true, { m' with anisomorphism_ := r.anisomorphism_ }) := by
  unfold estimate_anisomorphism at h ⊢
  simp only at h ⊢
  split at h
  · cases h
  · rename_i hlen
    simp only [hlen, if_false]
    cases hb : math.binomial_number (l.length : Int) 2 with
    | error e => rw [hb] at h; cases h
    | ok den =>
      rw [hb] at h
      simp only [bind, Except.bind, pure, Except.pure] at h ⊢
      cases h
      exact ⟨rfl, rfl, fun m' => rfl⟩

theorem estimate_similarity_own_scalar (sqrt acos : R → R) (m : evaluation_measurements R)
    (l : List (tie_point R)) (r : evaluation_measurements R)
    (h : estimate_similarity sqrt acos m l = Except.ok (true, r)) :
    r.length_variation_ = m.length_variation_ ∧ r.anisomorphism_ = m.anisomorphism_ ∧
    ∀ m' : evaluation_measurements R, estimate_similarity sqrt acos m' l
      = Except.ok (true, { m' with similarity_ := r.similarity_ }) := by
  unfold estimate_similarity at h ⊢
  simp only at h ⊢
  split at h
  · cases h
  · rename_i hlen
    simp only [hlen, if_false]
    cases hb : math.binomial_number (l.length : Int) 3 with
    | error e => rw [hb] at h; cases h
    | ok den =>
      rw [hb] at h
      cases ho : estimate_similarity.outer sqrt acos (den : R) l 0 with
      | error e => simp only [bind, Except.bind, ho] at h; cases h
      | ok p =>
        simp only [bind, Except.bind, ho, pure, Except.pure] at h ⊢
        cases h
        exact ⟨rfl, rfl, fun m' => rfl⟩

/-- C25: a new `evaluation_measurements` holds 0 in its three scalars; a run of an estimator
that returns `true` leaves the two other scalars as they were, and the value it stores is the
same whatever object `m'` it starts from. -/
theorem estimators_own_scalar (sqrt acos : R → R) (m : evaluation_measurements R)
    (l : List (tie_point R)) (r : evaluation_measurements R) :
    ((evaluation_measurements.new : evaluation_measurements R).length_variation_ = 0 ∧
      (evaluation_measurements.new : evaluation_measurements R).anisomorphism_ = 0 ∧
      (evaluation_measurements.new : evaluation_measurements R).similarity_ = 0) ∧
    (estimate_length_var sqrt m l = Except.ok (true, r) →
      r.anisomorphism_ = m.anisomorphism_ ∧ r.similarity_ = m.similarity_ ∧
      ∀ m' : evaluation_measurements R, estimate_length_var sqrt m' l
        = Except.ok (true, { m' with length_variation_ := r.length_variation_ })) ∧
    (estimate_anisomorphism m l = Except.ok (true, r) →
      r.length_variation_ = m.length_variation_ ∧ r.similarity_ = m.similarity_ ∧
      ∀ m' : evaluation_measurements R, estimate_anisomorphism m' l
        = Except.ok (true, { m' with anisomorphism_ := r.anisomorphism_ })) ∧
    (estimate_similarity sqrt acos m l = Except.ok (true, r) →
      r.length_variation_ = m.length_variation_ ∧ r.anisomorphism_ = m.anisomorphism_ ∧
      ∀ m' : evaluation_measurements R, estimate_similarity sqrt acos m' l
        = Except.ok (true, { m' with similarity_ := r.similarity_ })) :=
  ⟨⟨rfl, rfl, rfl⟩, estimate_length_var_own_scalar sqrt m l r,
    estimate_anisomorphism_own_scalar m l r, estimate_similarity_own_scalar sqrt acos m l r⟩

/-! ## The estimators read the coordinates only -/

theorem triple_sum_map {α β : Type} (g : β → β → β → R) (f : α → β) (l : List α) :
    triple_sum (fun a b c => g (f a) (f b) (f c)) l = triple_sum g (l.map f) := by
  induction l with
  | nil => simp [triple_sum]
  | cons a l ih =>
    simp only [triple_sum, List.map_cons, ih]
    rw [pair_sum_map (g (f a)) f l]

theorem estimate_length_var_of_map_key_eq (sqrt : R → R) (m : evaluation_measurements R)
    (l l' : List (tie_point R)) (h : l.map tie_point.key = l'.map tie_point.key) :
    estimate_length_var sqrt m l = estimate_length_var sqrt m l' := by
  have hs : key_set l = key_set l' := by unfold key_set; rw [h]
  have hk := std_set_map_key_eq l l' hs
  have hlen : (std_set l).length = (std_set l').length := by
    rw [std_set_length, std_set_length, hs]
  simp only [estimate_length_var, hlen]
  by_cases h2 : (std_set l').length < 2
  · rw [if_pos h2, if_pos h2]
  · rw [if_neg h2, if_neg h2]
    cases math.binomial_number ((std_set l').length : Int) 2 with
    | error e => rfl
    | ok den =>
      simp only [bind, Except.bind]
      rw [estimate_length_var_outer_congr sqrt (den : R) (std_set l) (std_set l') hk]

theorem estimate_anisomorphism_outer_congr (l l' : List (tie_point R))
    (h : l.map tie_point.key = l'.map tie_point.key) (sd : R × R) :
    estimate_anisomorphism.outer l sd = estimate_anisomorphism.outer l' sd := by
  obtain ⟨s, d⟩ := sd
  rw [estimate_anisomorphism_outer_eq, estimate_anisomorphism_outer_eq]
  have e1 : ∀ l : List (tie_point R),
      pair_sum (fun a b => if anisomorphism_contributes a b then anisomorphism_ratio a b else 0) l
        = pair_sum (fun ka kb : R × R × R × R =>
            if |ka.2.2.1 - kb.2.2.1| * |ka.2.1 - kb.2.1| ≠ 0 then
              (|ka.1 - kb.1| * |ka.2.2.2 - kb.2.2.2|) /
                (|ka.2.2.1 - kb.2.2.1| * |ka.2.1 - kb.2.1|)
            else 0) (l.map tie_point.key) := by
    intro l
    rw [← pair_sum_map]
    rfl
  have e2 : ∀ l : List (tie_point R),
      pair_sum (fun a b => if anisomorphism_contributes a b then (0 : R) else 1) l
        = pair_sum (fun ka kb : R × R × R × R =>
            if |ka.2.2.1 - kb.2.2.1| * |ka.2.1 - kb.2.1| ≠ 0 then (0 : R) else 1)
            (l.map tie_point.key) := by
    intro l
    rw [← pair_sum_map]
    rfl
  rw [e1 l, e1 l', e2 l, e2 l', h]

theorem estimate_anisomorphism_of_map_key_eq (m : evaluation_measurements R)
    (l l' : List (tie_point R)) (h : l.map tie_point.key = l'.map tie_point.key) :
    estimate_anisomorphism m l = estimate_anisomorphism m l' := by
  have hlen : l.length = l'.length := by
    have := congrArg List.length h
    simpa using this
  simp only [estimate_anisomorphism, hlen]
  by_cases h2 : l'.length < 2
  · rw [if_pos h2, if_pos h2]
  · rw [if_neg h2, if_neg h2]
    cases math.binomial_number (l'.length : Int) 2 with
    | error e => rfl
    | ok den =>
      simp only [bind, Except.bind]
      rw [estimate_anisomorphism_outer_congr l l' h]

theorem forall_nondegenerate_congr (a a' : tie_point R) (ha : a.key = a'.key)
    (l l' : List (tie_point R)) (h : l.map tie_point.key = l'.map tie_point.key) :
    (∀ x ∈ l, nondegenerate a x) ↔ ∀ x ∈ l', nondegenerate a' x := by
  induction l generalizing l' with
  | nil =>
    cases l' with
    | nil => simp
    | cons b' l' => simp at h
  | cons b l ih =>
    cases l' with
    | nil => simp at h
    | cons b' l' =>
      rw [List.map_cons, List.map_cons, List.cons.injEq] at h
      rw [List.forall_mem_cons, List.forall_mem_cons, nondegenerate_congr a b a' b' ha h.1,
        ih l' h.2]

theorem similarity_checked_congr (l l' : List (tie_point R))
    (h : l.map tie_point.key = l'.map tie_point.key) :
    similarity_checked l ↔ similarity_checked l' := by
  induction l generalizing l' with
  | nil =>
    cases l' with
    | nil => rfl
    | cons b' l' => simp at h
  | cons a l ih =>
    cases l' with
    | nil => simp at h
    | cons a' l' =>
      rw [List.map_cons, List.map_cons, List.cons.injEq] at h
      match l, l', ih, h with
      | [], [], _, _ => simp [similarity_checked]
      | [], _ :: _, _, h => simp at h
      | _ :: _, [], _, h => simp at h
      | [b], [b'], _, _ => simp [similarity_checked]
      | [_], _ :: _ :: _, _, h => simp at h
      | _ :: _ :: _, [_], _, h => simp at h
      | b :: c :: rest, b' :: c' :: rest', ih, h =>
        rw [similarity_checked, similarity_checked,
          forall_nondegenerate_congr a a' h.1 (b :: c :: rest) (b' :: c' :: rest') h.2,
          ih (b' :: c' :: rest') h.2]

theorem estimate_similarity_outer_congr (sqrt acos : R → R) (den : R)
    (l l' : List (tie_point R)) (h : l.map tie_point.key = l'.map tie_point.key) (s : R) :
    estimate_similarity.outer sqrt acos den l s = estimate_similarity.outer sqrt acos den l' s := by
  have e : ∀ l : List (tie_point R),
      triple_sum (fun a b c => similarity_ratio sqrt acos a b c / den) l
        = triple_sum (fun ka kb kc : R × R × R × R =>
            (vector.angle_b_vectors sqrt acos ⟨point.new ka.1 ka.2.1, point.new kb.1 kb.2.1⟩
                ⟨point.new ka.1 ka.2.1, point.new kc.1 kc.2.1⟩ /
              vector.angle_b_vectors sqrt acos
                ⟨point.new ka.2.2.1 ka.2.2.2, point.new kb.2.2.1 kb.2.2.2⟩
                ⟨point.new ka.2.2.1 ka.2.2.2, point.new kc.2.2.1 kc.2.2.2⟩) / den)
            (l.map tie_point.key) := by
    intro l
    rw [← triple_sum_map]
    rfl
  by_cases hc : similarity_checked l
  · rw [estimate_similarity_outer_checked sqrt acos den l hc,
      estimate_similarity_outer_checked sqrt acos den l'
        ((similarity_checked_congr l l' h).mp hc), e l, e l', h]
  · rw [estimate_similarity_outer_fail sqrt acos den l hc,
      estimate_similarity_outer_fail sqrt acos den l'
        (fun hc' => hc ((similarity_checked_congr l l' h).mpr hc'))]

theorem estimate_similarity_of_map_key_eq (sqrt acos : R → R) (m : evaluation_measurements R)
    (l l' : List (tie_point R)) (h : l.map tie_point.key = l'.map tie_point.key) :
    estimate_similarity sqrt acos m l = estimate_similarity sqrt acos m l' := by
  have hlen : l.length = l'.length := by
    have := congrArg List.length h
    simpa using this
  simp only [estimate_similarity, hlen]
  by_cases h2 : l'.length < 3
  · rw [if_pos h2, if_pos h2]
  · rw [if_neg h2, if_neg h2]
    cases math.binomial_number (l'.length : Int) 3 with
    | error e => rfl
    | ok den =>
      simp only [bind, Except.bind]
      rw [estimate_similarity_outer_congr sqrt acos (den : R) l l' h]

/-- C26: two lists of the same length whose entries agree, position by position, on the work
coordinates and on the reference coordinates (the roles and the sigmas may differ) give, from
the same object, the same outcome of each of the three estimators: the same flag and the same
stored value, or the same failure. -/
theorem estimators_coordinates_only (sqrt acos : R → R) (m : evaluation_measurements R)
    (l l' : List (tie_point R)) (h : l.map tie_point.key = l'.map tie_point.key) :
    l.length = l'.length ∧
    estimate_length_var sqrt m l = estimate_length_var sqrt m l' ∧
    estimate_anisomorphism m l = estimate_anisomorphism m l' ∧
    estimate_similarity sqrt acos m l = estimate_similarity sqrt acos m l' :=
  ⟨by simpa using congrArg List.length h, estimate_length_var_of_map_key_eq sqrt m l l' h,
    estimate_anisomorphism_of_map_key_eq m l l' h,
    estimate_similarity_of_map_key_eq sqrt acos m l l' h⟩

theorem estimators_coordinates_only_witness :
    ([⟨⟨0, 0, 1, 1⟩, ⟨0, 0, 1, 1⟩, tie_point.type.CONTROL⟩,
        ⟨⟨1, 0, 1, 1⟩, ⟨2, 0, 1, 1⟩, tie_point.type.CONTROL⟩,
        ⟨⟨0, 1, 1, 1⟩, ⟨0, 3, 1, 1⟩, tie_point.type.CONTROL⟩] : List (tie_point ℝ)).length
      = ([⟨⟨0, 0, 2, 3⟩, ⟨0, 0, 4, 5⟩, tie_point.type.CHECK⟩,
        ⟨⟨1, 0, 1, 7⟩, ⟨2, 0, 1, 1⟩, tie_point.type.NONE⟩,
        ⟨⟨0, 1, 9, 1⟩, ⟨0, 3, 1, 8⟩, tie_point.type.CONTROL_CHECK⟩] : List (tie_point ℝ)).length ∧
    estimate_length_var Real.sqrt ⟨5, 6, 7⟩
        [⟨⟨0, 0, 1, 1⟩, ⟨0, 0, 1, 1⟩, tie_point.type.CONTROL⟩,
          ⟨⟨1, 0, 1, 1⟩, ⟨2, 0, 1, 1⟩, tie_point.type.CONTROL⟩,
          ⟨⟨0, 1, 1, 1⟩, ⟨0, 3, 1, 1⟩, tie_point.type.CONTROL⟩]
      = estimate_length_var Real.sqrt ⟨5, 6, 7⟩
        [⟨⟨0, 0, 2, 3⟩, ⟨0, 0, 4, 5⟩, tie_point.type.CHECK⟩,
          ⟨⟨1, 0, 1, 7⟩, ⟨2, 0, 1, 1⟩, tie_point.type.NONE⟩,
          ⟨⟨0, 1, 9, 1⟩, ⟨0, 3, 1, 8⟩, tie_point.type.CONTROL_CHECK⟩] ∧
    estimate_anisomorphism (⟨5, 6, 7⟩ : evaluation_measurements ℝ)
        [⟨⟨0, 0, 1, 1⟩, ⟨0, 0, 1, 1⟩, tie_point.type.CONTROL⟩,
          ⟨⟨1, 0, 1, 1⟩, ⟨2, 0, 1, 1⟩, tie_point.type.CONTROL⟩,
          ⟨⟨0, 1, 1, 1⟩, ⟨0, 3, 1, 1⟩, tie_point.type.CONTROL⟩]
      = estimate_anisomorphism (⟨5, 6, 7⟩ : evaluation_measurements ℝ)
        [⟨⟨0, 0, 2, 3⟩, ⟨0, 0, 4, 5⟩, tie_point.type.CHECK⟩,
          ⟨⟨1, 0, 1, 7⟩, ⟨2, 0, 1, 1⟩, tie_point.type.NONE⟩,
          ⟨⟨0, 1, 9, 1⟩, ⟨0, 3, 1, 8⟩, tie_point.type.CONTROL_CHECK⟩] ∧
    estimate_similarity Real.sqrt Real.arccos ⟨5, 6, 7⟩
        [⟨⟨0, 0, 1, 1⟩, ⟨0, 0, 1, 1⟩, tie_point.type.CONTROL⟩,
          ⟨⟨1, 0, 1, 1⟩, ⟨2, 0, 1, 1⟩, tie_point.type.CONTROL⟩,
          ⟨⟨0, 1, 1, 1⟩, ⟨0, 3, 1, 1⟩, tie_point.type.CONTROL⟩]
      = estimate_similarity Real.sqrt Real.arccos ⟨5, 6, 7⟩
        [⟨⟨0, 0, 2, 3⟩, ⟨0, 0, 4, 5⟩, tie_point.type.CHECK⟩,
          ⟨⟨1, 0, 1, 7⟩, ⟨2, 0, 1, 1⟩, tie_point.type.NONE⟩,
          ⟨⟨0, 1, 9, 1⟩, ⟨0, 3, 1, 8⟩, tie_point.type.CONTROL_CHECK⟩] := by
  have h : ([⟨⟨0, 0, 1, 1⟩, ⟨0, 0, 1, 1⟩, tie_point.type.CONTROL⟩,
        ⟨⟨1, 0, 1, 1⟩, ⟨2, 0, 1, 1⟩, tie_point.type.CONTROL⟩,
        ⟨⟨0, 1, 1, 1⟩, ⟨0, 3, 1, 1⟩, tie_point.type.CONTROL⟩] : List (tie_point ℝ)).map
        tie_point.key
      = ([⟨⟨0, 0, 2, 3⟩, ⟨0, 0, 4, 5⟩, tie_point.type.CHECK⟩,
        ⟨⟨1, 0, 1, 7⟩, ⟨2, 0, 1, 1⟩, tie_point.type.NONE⟩,
        ⟨⟨0, 1, 9, 1⟩, ⟨0, 3, 1, 8⟩, tie_point.type.CONTROL_CHECK⟩] : List (tie_point ℝ)).map
        tie_point.key := rfl
  exact estimators_coordinates_only Real.sqrt Real.arccos ⟨5, 6, 7⟩ _ _ h

/-! ## The angle between two vectors -/

theorem abs_inner_le_sqrt_mul_sqrt (x1 y1 x2 y2 : ℝ) :
    |x1 * x2 + y1 * y2| ≤ Real.sqrt (x1 ^ 2 + y1 ^ 2) * Real.sqrt (x2 ^ 2 + y2 ^ 2) := by
  rw [← Real.sqrt_mul (by positivity), ← Real.sqrt_sq_eq_abs]
  apply Real.sqrt_le_sqrt
  nlinarith [sq_nonneg (x1 * y2 - x2 * y1)]

theorem sqrt_sq_add_sq_pos (p q : point ℝ) (h : p.eq q = false) :
    0 < Real.sqrt ((q.get_x - p.get_x) ^ 2 + (q.get_y - p.get_y) ^ 2) := by
  apply Real.sqrt_pos.mpr
  have hne : ¬ (p.get_x = q.get_x ∧ p.get_y = q.get_y) := by
    simpa [point.eq] using h
  by_cases hx : p.get_x = q.get_x
  · have hy : q.get_y - p.get_y ≠ 0 := sub_ne_zero.mpr (fun e => hne ⟨hx, e.symm⟩)
    have := pow_pos (abs_pos.mpr hy) 2
    rw [sq_abs] at this
    have := sq_nonneg (q.get_x - p.get_x)
    linarith
  · have hx' : q.get_x - p.get_x ≠ 0 := sub_ne_zero.mpr (fun e => hx e.symm)
    have := pow_pos (abs_pos.mpr hx') 2
    rw [sq_abs] at this
    have := sq_nonneg (q.get_y - p.get_y)
    linarith

/-- In the exact arithmetic of the reals: for two vectors, each with two different end points,
the quotient `dot( a, b ) / ( |a| |b| )` that `angle_b_vectors` passes to `acos` (it is the
value of the method when the identity stands for `acos`) lies in `[-1, 1]`, and the arc cosine
of the reals of it lies in `[0, π]`. -/
theorem vector_angle_b_vectors_range_exact (a b : vector ℝ) (ha : a.p1_.eq a.p2_ = false)
    (hb : b.p1_.eq b.p2_ = false) :
    -1 ≤ a.angle_b_vectors Real.sqrt (fun q => q) b ∧
    a.angle_b_vectors Real.sqrt (fun q => q) b ≤ 1 ∧
    0 ≤ a.angle_b_vectors Real.sqrt Real.arccos b ∧
    a.angle_b_vectors Real.sqrt Real.arccos b ≤ Real.pi := by
  have h1 := sqrt_sq_add_sq_pos a.p1_ a.p2_ ha
  have h2 := sqrt_sq_add_sq_pos b.p1_ b.p2_ hb
  have hcs := abs_inner_le_sqrt_mul_sqrt (a.p2_.get_x - a.p1_.get_x) (a.p2_.get_y - a.p1_.get_y)
    (b.p2_.get_x - b.p1_.get_x) (b.p2_.get_y - b.p1_.get_y)
  have hpos := mul_pos h1 h2
  have hq := abs_le.mp hcs
  simp only [vector.angle_b_vectors, vector.get]
  refine ⟨?_, ?_, Real.arccos_nonneg _, Real.arccos_le_pi _⟩
  · rw [le_div_iff₀ hpos]; linarith [hq.1]
  · rw [div_le_one hpos]; exact hq.2

/-- With the identity for `fl`, `vector.angle_b_vectors_argument` is the argument of `acos`
in `vector.angle_b_vectors`. -/
theorem vector_angle_b_vectors_argument_exact (sqrt : R → R) (a b : vector R) :
    vector.angle_b_vectors_argument (fun x => x) sqrt a b =
      a.angle_b_vectors sqrt (fun q => q) b := rfl

/-- C22, the code at the failing input: for `a = b = (0,0) -> (1,5)`, a vector with different
end points, the `double` that `angle_b_vectors` passes to `std::acos` is `1 + 2^-52`, above `1`
(the dot product is `26`, `sqrt( 26 )` is rounded down, and the product of the two rounded
roots is the `double` below `26`); `std::acos` of it is NaN, no angle in `[0, π]`. -/
theorem vector_angle_b_vectors_argument_above_one :
    (point.new (0 : ℚ) 0).eq (point.new 1 5) = false ∧
    vector.new (point.new (0 : ℚ) 0) (point.new 1 5) =
      Except.ok ⟨point.new 0 0, point.new 1 5⟩ ∧
    binary64.sqrt 26 * binary64.sqrt 26 < 26 ∧
    vector.angle_b_vectors_argument binary64.round binary64.sqrt
        (⟨point.new 0 0, point.new 1 5⟩ : vector ℚ) ⟨point.new 0 0, point.new 1 5⟩ =
      1 + pow2 (-52) ∧
    (1 : ℚ) < 1 + pow2 (-52) := by
  decide!

/-! ## The vector form of `lagrange` -/

theorem lagrange_foldl_step (dx : List R) (x : R) (L : List Nat) (p0 p1 p2 p3 : R) :
    L.foldl (lagrange.step dx x) (p0, p1, p2, p3) =
      (p0 * ((L.filter (fun i => decide (i > 1))).map
          (fun i => (x - dx.getD i 0) / (dx.getD 0 0 - dx.getD i 0))).prod,
        p1 * ((L.filter (fun i => decide (i ≠ 1))).map
          (fun i => (x - dx.getD i 0) / (dx.getD 1 0 - dx.getD i 0))).prod,
        p2 * ((L.filter (fun i => decide (i ≠ 2))).map
          (fun i => (x - dx.getD i 0) / (dx.getD 2 0 - dx.getD i 0))).prod,
        p3 * ((L.filter (fun i => decide (i ≠ 3))).map
          (fun i => (x - dx.getD i 0) / (dx.getD 3 0 - dx.getD i 0))).prod) := by
  induction L generalizing p0 p1 p2 p3 with
  | nil => simp
  | cons i L ih =>
    rw [List.foldl_cons, lagrange.step, ih]
    simp only [List.filter_cons]
    refine Prod.ext ?_ (Prod.ext ?_ (Prod.ext ?_ ?_))
    · by_cases h : i > 1 <;> simp [h, mul_assoc]
    · by_cases h : i = 1 <;> simp [h, mul_assoc]
    · by_cases h : i = 2 <;> simp [h, mul_assoc]
    · by_cases h : i = 3 <;> simp [h, mul_assoc]

theorem lagrange_eq (dx im : List R) (x : R) (hn : 3 < dx.length)
    (hlen : dx.length = im.length) :
    lagrange dx im x = Except.ok
      (im.getD 0 0 * (x - dx.getD 1 0) / (dx.getD 0 0 - dx.getD 1 0) *
          (((List.range' 1 (dx.length - 1)).filter (fun i => decide (i > 1))).map
            (fun i => (x - dx.getD i 0) / (dx.getD 0 0 - dx.getD i 0))).prod +
        im.getD 1 0 * (x - dx.getD 0 0) / (dx.getD 1 0 - dx.getD 0 0) *
          (((List.range' 1 (dx.length - 1)).filter (fun i => decide (i ≠ 1))).map
            (fun i => (x - dx.getD i 0) / (dx.getD 1 0 - dx.getD i 0))).prod +
        im.getD 2 0 * (x - dx.getD 0 0) / (dx.getD 2 0 - dx.getD 0 0) *
          (((List.range' 1 (dx.length - 1)).filter (fun i => decide (i ≠ 2))).map
            (fun i => (x - dx.getD i 0) / (dx.getD 2 0 - dx.getD i 0))).prod +
        im.getD 3 0 * (x - dx.getD 0 0) / (dx.getD 3 0 - dx.getD 0 0) *
          (((List.range' 1 (dx.length - 1)).filter (fun i => decide (i ≠ 3))).map
            (fun i => (x - dx.getD i 0) / (dx.getD 3 0 - dx.getD i 0))).prod) := by
  have h1 : decide (dx.length > 3) = true := by simpa using hn
  have h2 : decide (dx.length = im.length) = true := by simpa using hlen
  simp only [lagrange, h1, h2, lagrange_foldl_step]
  rfl

theorem getD_ne_of_nodup (dx : List R) (hd : dx.Nodup) (i j : Nat) (hi : i < dx.length)
    (hj : j < dx.length) (hij : i ≠ j) : dx.getD i 0 ≠ dx.getD j 0 := by
  rw [List.getD_eq_getElem dx 0 hi, List.getD_eq_getElem dx 0 hj]
  intro h
  exact hij ((List.Nodup.getElem_inj_iff hd).mp h)

/-- The basis term of the node `j` has all its factors equal to 1 at the node `j`. -/
theorem lagrange_prod_eq_one (dx : List R) (hd : dx.Nodup) (j : Nat) (hj : j < dx.length)
    (c : Nat → Bool) (hc : ∀ i, c i = true → i ≠ j) :
    (((List.range' 1 (dx.length - 1)).filter c).map
      (fun i => (dx.getD j 0 - dx.getD i 0) / (dx.getD j 0 - dx.getD i 0))).prod = 1 := by
  apply List.prod_eq_one
  intro y hy
  obtain ⟨i, hi, rfl⟩ := List.mem_map.mp hy
  obtain ⟨hi1, hi2⟩ := List.mem_filter.mp hi
  have hlt : i < dx.length := by
    have := (List.mem_range'_1.mp hi1).2
    omega
  exact div_self (sub_ne_zero.mpr (getD_ne_of_nodup dx hd j i hj hlt (Ne.symm (hc i hi2))))

/-- The basis term of the node `j` has a factor 0 at a node `k` that its loop passes. -/
theorem lagrange_prod_eq_zero (dx : List R) (j k : Nat) (hk1 : 1 ≤ k) (hk : k < dx.length)
    (c : Nat → Bool) (hc : c k = true) :
    (((List.range' 1 (dx.length - 1)).filter c).map
      (fun i => (dx.getD k 0 - dx.getD i 0) / (dx.getD j 0 - dx.getD i 0))).prod = 0 := by
  apply List.prod_eq_zero
  apply List.mem_map.mpr
  refine ⟨k, List.mem_filter.mpr ⟨List.mem_range'_1.mpr ⟨hk1, by omega⟩, hc⟩, ?_⟩
  rw [sub_self, zero_div]

/-- C28 (where the claim fails): with the five nodes 0, 1, 2, 3, 4 and the images 1, 2, 3, 4, 5
the value of `lagrange` at the node `dx[4] = 4` is 0 and not `im[4] = 5`. -/
theorem lagrange_fifth_node :
    lagrange [(0 : ℚ), 1, 2, 3, 4] [1, 2, 3, 4, 5] ([(0 : ℚ), 1, 2, 3, 4].getD 4 0)
      = Except.ok 0 ∧
    ([1, 2, 3, 4, 5] : List ℚ).getD 4 0 = 5 ∧ [(0 : ℚ), 1, 2, 3, 4].Nodup := by
  decide!

/-- C28 (amended): for more than 3 pairwise different nodes `dx`, images `im` of the same size
and an index `i < 4`, `lagrange( dx, im, dx[i] )` returns `im[i]`: the data are met at the first
four nodes, which are all the nodes when the size is 4. -/
theorem lagrange_first_four_nodes (dx im : List R) (hn : 3 < dx.length)
    (hlen : dx.length = im.length) (hd : dx.Nodup) (i : Nat) (hi : i < 4) :
    lagrange dx im (dx.getD i 0) = Except.ok (im.getD i 0) := by
  rw [lagrange_eq dx im _ hn hlen]
  have hne := getD_ne_of_nodup dx hd
  have one := lagrange_prod_eq_one dx hd
  have zero := lagrange_prod_eq_zero dx
  congr 1
  interval_cases i
  · rw [one 0 (by omega) _ (by intro i h; have := of_decide_eq_true h; omega),
      sub_self, mul_zero, zero_div, zero_mul, mul_zero, zero_div, zero_mul, mul_zero, zero_div,
      zero_mul, mul_div_assoc, div_self (sub_ne_zero.mpr (hne 0 1 (by omega) (by omega)
        (by omega)))]
    ring
  · rw [one 1 (by omega) _ (by intro i h; have := of_decide_eq_true h; omega),
      zero 2 1 (by omega) (by omega) _ (by decide),
      zero 3 1 (by omega) (by omega) _ (by decide),
      sub_self, mul_zero, zero_div, zero_mul, mul_div_assoc,
      div_self (sub_ne_zero.mpr (hne 1 0 (by omega) (by omega) (by omega)))]
    ring
  · rw [one 2 (by omega) _ (by intro i h; have := of_decide_eq_true h; omega),
      zero 0 2 (by omega) (by omega) _ (by decide),
      zero 1 2 (by omega) (by omega) _ (by decide),
      zero 3 2 (by omega) (by omega) _ (by decide)]
    simp only [mul_zero, zero_add, add_zero, mul_one, mul_div_assoc]
    rw [div_self (sub_ne_zero.mpr (hne 2 0 (by omega) (by omega) (by omega))), mul_one]
  · rw [one 3 (by omega) _ (by intro i h; have := of_decide_eq_true h; omega),
      zero 0 3 (by omega) (by omega) _ (by decide),
      zero 1 3 (by omega) (by omega) _ (by decide),
      zero 2 3 (by omega) (by omega) _ (by decide)]
    simp only [mul_zero, zero_add, add_zero, mul_one, mul_div_assoc]
    rw [div_self (sub_ne_zero.mpr (hne 3 0 (by omega) (by omega) (by omega))), mul_one]

theorem lagrange_first_four_nodes_witness :
    3 < [(0 : ℚ), 1, 2, 3, 4].length ∧
    [(0 : ℚ), 1, 2, 3, 4].length = [(1 : ℚ), 2, 3, 4, 5].length ∧
    [(0 : ℚ), 1, 2, 3, 4].Nodup ∧ 2 < 4 ∧
    lagrange [(0 : ℚ), 1, 2, 3, 4] [1, 2, 3, 4, 5] ([(0 : ℚ), 1, 2, 3, 4].getD 2 0)
      = Except.ok (([1, 2, 3, 4, 5] : List ℚ).getD 2 0) :=
  ⟨by decide, by decide, by decide!, by decide,
    lagrange_first_four_nodes [0, 1, 2, 3, 4] [1, 2, 3, 4, 5] (by decide) (by decide)
      (by decide!) 2 (by decide)⟩

/-- At a node behind the fourth every one of the four terms has a factor 0: `lagrange` returns
0 there, whatever the images are. -/
theorem lagrange_later_nodes (dx im : List R) (hn : 3 < dx.length)
    (hlen : dx.length = im.length) (i : Nat) (hi : 4 ≤ i) (hi' : i < dx.length) :
    lagrange dx im (dx.getD i 0) = Except.ok 0 := by
  rw [lagrange_eq dx im _ hn hlen]
  have zero := lagrange_prod_eq_zero dx
  congr 1
  rw [zero 0 i (by omega) hi' _ (by simp; omega), zero 1 i (by omega) hi' _ (by simp; omega),
    zero 2 i (by omega) hi' _ (by simp; omega), zero 3 i (by omega) hi' _ (by simp; omega)]
  simp

/-! ## `cubic` and `bicubic` at the inner nodes -/

/-- At a whole `distance` the row of `cubic` is `weights_[0]`, with the weights 0, 1, 0, 0:
`cubic` returns `pt2`. -/
theorem cubic_of_int [FloorRing R] (n : Int) (pt1 pt2 pt3 pt4 : R) :
    cubic (n : R) pt1 pt2 pt3 pt4 = pt2 := by
  have h : Int.floor (((n : R) - ((Int.floor (n : R) : Int) : R)) * 100 + 1 / 2) = 0 := by
    rw [Int.floor_intCast, sub_self, zero_mul, zero_add, Int.floor_eq_iff]
    constructor <;> norm_num
  simp only [cubic, h, cubic.weights]
  simp

/-- With `xo < xf` and `yo < yf`, at each of the four nodes `(xo + dx, yo + dy)`,
`(xo + 2 dx, yo + dy)`, `(xo + dx, yo + 2 dy)`, `(xo + 2 dx, yo + 2 dy)` the `assert`s of
`bicubic` hold and it returns `f6`. -/
theorem bicubic_inner_nodes [FloorRing R] (xo xf yo yf f1 f2 f3 f4 f5 f6 f7 f8 f9 f10 f11 f12
    f13 f14 f15 f16 : R) (hx : xo < xf) (hy : yo < yf) (a b : Int) (ha : a = 1 ∨ a = 2)
    (hb : b = 1 ∨ b = 2) :
    bicubic xo xf yo yf f1 f2 f3 f4 f5 f6 f7 f8 f9 f10 f11 f12 f13 f14 f15 f16
      (xo + (a : R) * ((xf - xo) / 3)) (yo + (b : R) * ((yf - yo) / 3)) = Except.ok f6 := by
  have hdx : 0 < (xf - xo) / 3 := by linarith
  have hdy : 0 < (yf - yo) / 3 := by linarith
  have hnx : xf - xo ≠ 0 := by intro h; rw [h] at hdx; simp at hdx
  have hny : yf - yo ≠ 0 := by intro h; rw [h] at hdy; simp at hdy
  have ea : (xo + (a : R) * ((xf - xo) / 3) - (xo + (xf - xo) / 3)) / ((xf - xo) / 3)
      = (((a - 1 : Int)) : R) := by
    push_cast
    field_simp
    ring
  have eb : (yo + (b : R) * ((yf - yo) / 3) - (yo + (yf - yo) / 3)) / ((yf - yo) / 3)
      = (((b - 1 : Int)) : R) := by
    push_cast
    field_simp
    ring
  have a1 : (1 : R) ≤ (a : R) ∧ (a : R) ≤ 2 := by
    rcases ha with rfl | rfl <;> norm_num
  have b1 : (1 : R) ≤ (b : R) ∧ (b : R) ≤ 2 := by
    rcases hb with rfl | rfl <;> norm_num
  have c1 : decide (xo + (a : R) * ((xf - xo) / 3) > xo) = true := by
    rw [decide_eq_true_eq]; nlinarith
  have c2 : decide (xo + (a : R) * ((xf - xo) / 3) < xf) = true := by
    rw [decide_eq_true_eq]; nlinarith
  have c3 : decide (xo + (a : R) * ((xf - xo) / 3) ≥ xo + (xf - xo) / 3) = true := by
    rw [decide_eq_true_eq]; nlinarith
  have c4 : decide (xo + (a : R) * ((xf - xo) / 3) ≤ xo + (xf - xo) / 3 + (xf - xo) / 3)
      = true := by
    rw [decide_eq_true_eq]; nlinarith
  have c5 : decide (yo + (b : R) * ((yf - yo) / 3) ≥ yo + (yf - yo) / 3) = true := by
    rw [decide_eq_true_eq]; nlinarith
  have c6 : decide (yo + (b : R) * ((yf - yo) / 3) ≤ yo + (yf - yo) / 3 + (yf - yo) / 3)
      = true := by
    rw [decide_eq_true_eq]; nlinarith
  simp only [bicubic, c1, c2, c3, c4, c5, c6, ea, eb, cubic_of_int]
  rfl

/-- C29: with `xo = yo = 0`, `xf = yf = 3` (so that `dx = dy = 1`) and the values
`f1, ..., f16 = 1, ..., 16`, `bicubic` returns `f6 = 6` at `(xo + dx, yo + dy)`, and it returns
`f6 = 6` as well, not `f7 = 7`, `f10 = 10`, `f11 = 11`, at `(xo + 2 dx, yo + dy)`,
`(xo + dx, yo + 2 dy)` and `(xo + 2 dx, yo + 2 dy)`; just before the node, at
`x = 1999 / 1000`, it returns `f7`. -/
theorem bicubic_inner_nodes_example :
    bicubic (0 : ℚ) 3 0 3 1 2 3 4 5 6 7 8 9 10 11 12 13 14 15 16 1 1 = Except.ok 6 ∧
    bicubic (0 : ℚ) 3 0 3 1 2 3 4 5 6 7 8 9 10 11 12 13 14 15 16 2 1 = Except.ok 6 ∧
    bicubic (0 : ℚ) 3 0 3 1 2 3 4 5 6 7 8 9 10 11 12 13 14 15 16 1 2 = Except.ok 6 ∧
    bicubic (0 : ℚ) 3 0 3 1 2 3 4 5 6 7 8 9 10 11 12 13 14 15 16 2 2 = Except.ok 6 ∧
    bicubic (0 : ℚ) 3 0 3 1 2 3 4 5 6 7 8 9 10 11 12 13 14 15 16 (1999 / 1000) 1
      = Except.ok 7 := by
  decide!

/-! ## `remove_duplicate_points`: the entries kept, idempotence, termination -/

theorem point_eq_trans (a b c : point R) (h1 : a.eq b = true) (h2 : b.eq c = true) :
    a.eq c = true := by
  rw [point_eq_iff] at h1 h2 ⊢
  exact ⟨h1.1.trans h2.1, h1.2.trans h2.2⟩

theorem work_close_iff (max_dif : R) (e s : point R) :
    work_close max_dif e s =
      decide (|e.x_ - s.x_| ≤ max_dif ∧ |e.y_ - s.y_| ≤ max_dif) := by
  rw [Bool.eq_iff_iff]
  simp only [work_close, point.get_x, point.get_y, gt_iff_lt, Bool.not_eq_true',
    decide_eq_false_iff_not, not_or, not_lt, decide_eq_true_eq]

theorem kept_at_append (max_dif : R) (pre : List (tie_point R)) (e : tie_point R)
    (post : List (tie_point R)) :
    kept_at max_dif (pre ++ e :: post) pre.length =
      if (pre.all (fun s => !(s.u_v_.eq e.u_v_)) &&
          post.all (fun s => !(e.u_v_.eq s.u_v_) || work_close max_dif e.x_y_ s.x_y_)) = true
      then some e else none := by
  have h1 : (pre ++ e :: post)[pre.length]? = some e := by
    rw [List.getElem?_append_right (le_refl _)]; simp
  have h2 : (pre ++ e :: post).take pre.length = pre := by
    rw [List.take_append_eq_append_take]; simp
  have h3 : (pre ++ e :: post).drop (pre.length + 1) = post := by
    rw [List.drop_append_eq_append_drop]; simp
  have h4 : (fun s : tie_point R => !(s.u_v_.eq e.u_v_) ||
      decide (|e.x_y_.x_ - s.x_y_.x_| ≤ max_dif ∧ |e.x_y_.y_ - s.x_y_.y_| ≤ max_dif))
      = (fun s => !(e.u_v_.eq s.u_v_) || work_close max_dif e.x_y_ s.x_y_) := by
    funext s
    rw [work_close_iff, point_eq_swap]
  simp only [kept_at, h1, h2, h3, h4]

theorem kept_range_eq (max_dif : R) (l : List (tie_point R)) :
    ∀ pre : List (tie_point R),
      (List.range' pre.length l.length).filterMap (kept_at max_dif (pre ++ l)) =
        remove_duplicate_list max_dif
          (l.filter (fun e => pre.all (fun s => !(s.u_v_.eq e.u_v_)))) := by
  induction l with
  | nil => intro pre; simp [remove_duplicate_list]
  | cons e post ih =>
    intro pre
    have ih' := ih (pre ++ [e])
    rw [List.append_assoc, List.length_append, List.length_singleton] at ih'
    simp only [List.singleton_append] at ih'
    rw [List.length_cons, List.range'_succ, List.filterMap_cons, kept_at_append, ih']
    have hfilter : ∀ s : tie_point R,
        (pre ++ [e]).all (fun t => !(t.u_v_.eq s.u_v_)) =
          (pre.all (fun t => !(t.u_v_.eq s.u_v_)) && !(e.u_v_.eq s.u_v_)) := by
      intro s; simp [List.all_append]
    simp only [hfilter]
    by_cases hA : pre.all (fun s => !(s.u_v_.eq e.u_v_)) = true
    · rw [List.filter_cons, if_pos hA, remove_duplicate_list]
      have hall : (post.filter (fun e => pre.all (fun s => !(s.u_v_.eq e.u_v_)))).all
            (fun s => !(e.u_v_.eq s.u_v_) || work_close max_dif e.x_y_ s.x_y_)
          = post.all (fun s => !(e.u_v_.eq s.u_v_) || work_close max_dif e.x_y_ s.x_y_) := by
        rw [Bool.eq_iff_iff, List.all_eq_true, List.all_eq_true]
        constructor
        · intro h s hs
          by_cases hP : pre.all (fun t => !(t.u_v_.eq s.u_v_)) = true
          · exact h s (List.mem_filter.mpr ⟨hs, hP⟩)
          · have hne : e.u_v_.eq s.u_v_ = false := by
              by_contra hc
              rw [Bool.not_eq_false] at hc
              apply hP
              rw [List.all_eq_true] at hA ⊢
              intro t ht
              have hte := hA t ht
              rw [Bool.not_eq_true'] at hte ⊢
              by_contra hts
              rw [Bool.not_eq_false] at hts
              have : t.u_v_.eq e.u_v_ = true :=
                point_eq_trans _ _ _ hts (by rw [point_eq_swap]; exact hc)
              rw [hte] at this
              exact Bool.false_ne_true this
            simp [hne]
        · intro h s hs
          exact h s (List.mem_filter.mp hs).1
      have hff : (post.filter (fun e => pre.all (fun s => !(s.u_v_.eq e.u_v_)))).filter
            (fun s => !(e.u_v_.eq s.u_v_))
          = post.filter (fun s => pre.all (fun t => !(t.u_v_.eq s.u_v_)) &&
              !(e.u_v_.eq s.u_v_)) := by
        rw [List.filter_filter]
        apply List.filter_congr
        intro s _
        rw [Bool.and_comm]
      rw [hall, hff, hA, Bool.true_and]
      by_cases hB : post.all (fun s => !(e.u_v_.eq s.u_v_) ||
          work_close max_dif e.x_y_ s.x_y_) = true
      · rw [if_pos hB, if_pos hB]
      · rw [if_neg hB, if_neg hB]
    · rw [List.filter_cons, if_neg hA]
      have hcond : ¬ ((pre.all (fun s => !(s.u_v_.eq e.u_v_)) &&
          post.all (fun s => !(e.u_v_.eq s.u_v_) || work_close max_dif e.x_y_ s.x_y_))
            = true) := by
        rw [Bool.and_eq_true]; exact fun h => hA h.1
      rw [if_neg hcond]
      simp only []
      congr 1
      apply List.filter_congr
      intro s _
      by_cases hP : pre.all (fun t => !(t.u_v_.eq s.u_v_)) = true
      · rw [hP, Bool.true_and]
        rw [Bool.not_eq_true']
        by_contra hc
        rw [Bool.not_eq_false] at hc
        apply hA
        rw [List.all_eq_true] at hP ⊢
        intro t ht
        have hts := hP t ht
        rw [Bool.not_eq_true'] at hts ⊢
        by_contra hte
        rw [Bool.not_eq_false] at hte
        have : t.u_v_.eq s.u_v_ = true := point_eq_trans _ _ _ hte hc
        rw [hts] at this
        exact Bool.false_ne_true this
      · rw [Bool.not_eq_true] at hP
        rw [hP, Bool.false_and]

theorem remove_duplicate_list_eq_kept (max_dif : R) (l : List (tie_point R)) :
    remove_duplicate_list max_dif l = kept_subsequence max_dif l := by
  have h := kept_range_eq max_dif l []
  simp only [List.length_nil, List.nil_append, List.all_nil, List.filter_true] at h
  rw [kept_subsequence, List.range_eq_range', h]

/-- C32: whatever the sequence `L` and `max_dif`, `remove_duplicate_points` leaves exactly the
subsequence of `L`, in the order of `L`, of the entries `e` at a position `p` such that no entry
before `p` has a reference point equal to the one of `e` and every entry behind `p` with a
reference point equal to the one of `e` has `|work.x difference| <= max_dif` and
`|work.y difference| <= max_dif` to `e`. -/
theorem remove_duplicate_points_kept_subsequence (L : List (tie_point R)) (max_dif : R) :
    remove_duplicate_points L max_dif = some (kept_subsequence max_dif L) ∧
    (kept_subsequence max_dif L).Sublist L := by
  rw [← remove_duplicate_list_eq_kept]
  exact ⟨remove_duplicate_points_eq L max_dif, remove_duplicate_list_sublist max_dif L⟩

theorem remove_duplicate_list_of_pairwise (max_dif : R) (l : List (tie_point R))
    (h : l.Pairwise (fun a b => a.u_v_.eq b.u_v_ = false)) :
    remove_duplicate_list max_dif l = l := by
  induction l with
  | nil => simp [remove_duplicate_list]
  | cons t rest ih =>
    rw [List.pairwise_cons] at h
    have hf : rest.filter (fun s => !(t.u_v_.eq s.u_v_)) = rest := by
      rw [List.filter_eq_self]
      intro s hs
      rw [h.1 s hs]; rfl
    have hall : rest.all (fun s => !(t.u_v_.eq s.u_v_) || work_close max_dif t.x_y_ s.x_y_)
        = true := by
      rw [List.all_eq_true]
      intro s hs
      rw [h.1 s hs]; rfl
    rw [remove_duplicate_list, if_pos hall, hf, ih h.2]

/-- C33: after `remove_duplicate_points` with `max_dif`, a second application with any
`max_dif'` (negative values included) returns the same sequence; and a sequence whose reference
points are pairwise different is returned as it is. -/
theorem remove_duplicate_points_idempotent (L : List (tie_point R)) (max_dif max_dif' : R) :
    (∃ O, remove_duplicate_points L max_dif = some O ∧
      remove_duplicate_points O max_dif' = some O) ∧
    (L.Pairwise (fun a b => a.u_v_.eq b.u_v_ = false) →
      remove_duplicate_points L max_dif = some L) := by
  refine ⟨⟨remove_duplicate_list max_dif L, remove_duplicate_points_eq L max_dif, ?_⟩, ?_⟩
  · rw [remove_duplicate_points_eq,
      remove_duplicate_list_of_pairwise max_dif' _ (remove_duplicate_list_pairwise max_dif L)]
  · intro h
    rw [remove_duplicate_points_eq, remove_duplicate_list_of_pairwise max_dif L h]

theorem remove_duplicate_points_inner_terminates (max_dif : R) (w r : point R)
    (l : List (tie_point R)) (j : Nat) (b : Bool) (fuel : Nat) (hj : j ≤ l.length)
    (hfuel : l.length - j < fuel) :
    ∃ l' b', remove_duplicate_points.inner max_dif w r fuel l j b = some (l', b') ∧
      l'.take j = l.take j ∧ j ≤ l'.length ∧ l'.length ≤ l.length := by
  have hlen : (l.take j).length = j := by rw [List.length_take]; omega
  have h := remove_duplicate_points_inner_eq max_dif w r fuel (l.take j) (l.drop j) b
    (by rw [List.length_drop]; exact hfuel)
  rw [List.take_append_drop, hlen] at h
  refine ⟨_, _, h, ?_, ?_, ?_⟩
  · rw [List.take_append_eq_append_take, hlen]; simp
  · rw [List.length_append, hlen]; omega
  · have h1 := List.length_filter_le (fun s => !(r.eq s.u_v_)) (l.drop j)
    rw [List.length_drop] at h1
    rw [List.length_append, hlen]; omega

theorem remove_duplicate_points_outer_terminates (max_dif : R) (l : List (tie_point R))
    (i : Nat) (fuel : Nat) (hi : i ≤ l.length) (hfuel : l.length - i < fuel) :
    ∃ l', remove_duplicate_points.outer max_dif fuel l i = some l' := by
  have hlen : (l.take i).length = i := by rw [List.length_take]; omega
  have h := remove_duplicate_points_outer_eq max_dif fuel (l.take i) (l.drop i)
    (by rw [List.length_drop]; exact hfuel)
  rw [List.take_append_drop, hlen] at h
  exact ⟨_, h⟩

/-- C34: `remove_duplicate_points` returns on every sequence. The inner loop started at a
position `j` of a vector `l` ends within `size - j` iterations and leaves the entries before `j`
in place, each of its iterations erases the entry at `j < size` or advances `j`, and both make
`size - j` smaller; the outer loop started at `i` ends within `size - i` iterations, each of
them runs the inner loop from `i + 1`, which leaves more than `i` entries, and then erases the
entry at `i` or advances `i`, and both make `size - i` smaller. -/
theorem remove_duplicate_points_terminates (max_dif : R) (l : List (tie_point R)) :
    (∃ l', remove_duplicate_points l max_dif = some l') ∧
    (∀ (w r : point R) (j : Nat) (b : Bool) (fuel : Nat), j ≤ l.length → l.length - j < fuel →
      ∃ l' b', remove_duplicate_points.inner max_dif w r fuel l j b = some (l', b') ∧
        l'.take j = l.take j ∧ j ≤ l'.length ∧ l'.length ≤ l.length) ∧
    (∀ (w r : point R) (j : Nat) (b : Bool) (fuel : Nat), j < l.length →
      (∃ b', remove_duplicate_points.inner max_dif w r (fuel + 1) l j b =
          remove_duplicate_points.inner max_dif w r fuel (l.eraseIdx j) j b' ∧
        (l.eraseIdx j).length - j < l.length - j) ∨
      (remove_duplicate_points.inner max_dif w r (fuel + 1) l j b =
          remove_duplicate_points.inner max_dif w r fuel l (j + 1) b ∧
        l.length - (j + 1) < l.length - j)) ∧
    (∀ (i fuel : Nat), i ≤ l.length → l.length - i < fuel →
      ∃ l', remove_duplicate_points.outer max_dif fuel l i = some l') ∧
    (∀ (i fuel : Nat) (h : i + 1 < l.length),
      ∃ l1 b1, remove_duplicate_points.inner max_dif (l[i]).get.1 (l[i]).get.2 (l.length + 1) l
          (i + 1) true = some (l1, b1) ∧ i < l1.length ∧ l1.length ≤ l.length ∧
        ((remove_duplicate_points.outer max_dif (fuel + 1) l i =
            remove_duplicate_points.outer max_dif fuel (l1.eraseIdx i) i ∧
          (l1.eraseIdx i).length - i < l.length - i) ∨
        (remove_duplicate_points.outer max_dif (fuel + 1) l i =
            remove_duplicate_points.outer max_dif fuel l1 (i + 1) ∧
          l1.length - (i + 1) < l.length - i))) := by
  refine ⟨⟨_, remove_duplicate_points_eq l max_dif⟩, ?_, ?_, ?_, ?_⟩
  · intro w r j b fuel hj hfuel
    exact remove_duplicate_points_inner_terminates max_dif w r l j b fuel hj hfuel
  · intro w r j b fuel hj
    have hlen : (l.eraseIdx j).length = l.length - 1 := List.length_eraseIdx_of_lt hj
    by_cases hr : r.eq (l[j]).get.2 = true
    · left
      refine ⟨(if |w.get_x - (l[j]).get.1.get_x| > max_dif ∨
          |w.get_y - (l[j]).get.1.get_y| > max_dif then false else b), ?_, by omega⟩
      rw [remove_duplicate_points.inner, dif_pos hj]
      simp only [hr, if_true]
    · right
      refine ⟨?_, by omega⟩
      rw [remove_duplicate_points.inner, dif_pos hj]
      simp only [hr, if_false]
      rfl
  · intro i fuel hi hfuel
    exact remove_duplicate_points_outer_terminates max_dif l i fuel hi hfuel
  · intro i fuel h
    obtain ⟨l1, b1, h1, _, h3, h4⟩ := remove_duplicate_points_inner_terminates max_dif
      (l[i]).get.1 (l[i]).get.2 l (i + 1) true (l.length + 1) (by omega) (by omega)
    refine ⟨l1, b1, h1, by omega, h4, ?_⟩
    have hlen : (l1.eraseIdx i).length = l1.length - 1 :=
      List.length_eraseIdx_of_lt (by omega)
    cases b1 with
    | false =>
      left
      refine ⟨?_, by omega⟩
      rw [remove_duplicate_points.outer, dif_pos h]
      simp only [h1]
      rfl
    | true =>
      right
      refine ⟨?_, by omega⟩
      rw [remove_duplicate_points.outer, dif_pos h]
      simp only [h1]
      rfl

/-! ## `math::truncate` -/

theorem trunc_eq_int [FloorRing R] (x : R) :
    ∃ z : Int, trunc x = (z : R) ∧ |(z : R)| ≤ |x| ∧ |x| < |(z : R)| + 1 ∧ 0 ≤ (z : R) * x := by
  by_cases h : 0 ≤ x
  · refine ⟨Int.floor x, by simp [trunc, h], ?_, ?_, ?_⟩
    · have hz : (0 : R) ≤ (Int.floor x : R) := by exact_mod_cast Int.floor_nonneg.mpr h
      rw [abs_of_nonneg hz, abs_of_nonneg h]
      exact Int.floor_le x
    · have hz : (0 : R) ≤ (Int.floor x : R) := by exact_mod_cast Int.floor_nonneg.mpr h
      rw [abs_of_nonneg hz, abs_of_nonneg h]
      exact Int.lt_floor_add_one x
    · have hz : (0 : R) ≤ (Int.floor x : R) := by exact_mod_cast Int.floor_nonneg.mpr h
      exact mul_nonneg hz h
  · have hx : x < 0 := not_le.mp h
    have hz : (Int.ceil x : R) ≤ 0 := by
      have : Int.ceil x ≤ 0 := Int.ceil_le.mpr (by simpa using hx.le)
      exact_mod_cast this
    refine ⟨Int.ceil x, by simp [trunc, h], ?_, ?_, ?_⟩
    · rw [abs_of_nonpos hz, abs_of_neg hx]
      linarith [Int.le_ceil x]
    · rw [abs_of_nonpos hz, abs_of_neg hx]
      linarith [Int.ceil_lt_add_one x]
    · exact mul_nonneg_of_nonpos_of_nonpos hz hx.le

theorem trunc_neg [FloorRing R] (x : R) : trunc (-x) = - trunc x := by
  rcases lt_trichotomy x 0 with h | h | h
  · have h1 : 0 ≤ -x := by linarith
    have h2 : ¬ 0 ≤ x := not_le.mpr h
    simp only [trunc, h1, h2, if_true, if_false, Int.floor_neg, Int.cast_neg]
  · subst h; simp [trunc]
  · have h1 : ¬ 0 ≤ -x := by linarith
    have h2 : 0 ≤ x := h.le
    simp only [trunc, h1, h2, if_true, if_false, Int.ceil_neg, Int.cast_neg]

theorem math_truncate_eq [FloorRing R] (have_trunc : Bool) (value : R) (digits : Int) :
    math.truncate have_trunc value digits = trunc (value * 10 ^ digits) / 10 ^ digits := by
  have hp : (0 : R) < 10 ^ digits := zpow_pos (by norm_num) digits
  cases have_trunc with
  | true => simp [math.truncate]
  | false =>
    by_cases h : 0 ≤ value
    · have h' : 0 ≤ value * 10 ^ digits := mul_nonneg h hp.le
      simp [math.truncate, trunc, h, h']
    · have h' : ¬ 0 ≤ value * 10 ^ digits := by
        rw [not_le] at h ⊢
        exact mul_neg_of_neg_of_pos h hp
      simp [math.truncate, trunc, h, h']

/-- C31: in either build, `truncate( value, digits ) * 10^digits` is an integer `z`, the integer
part of `value * 10^digits` towards zero (`|z| <= |value * 10^digits| < |z| + 1`, and `z` has
the sign of `value` or is 0); `truncate( -v, d ) = -truncate( v, d )` and
`|truncate( v, d )| <= |v|`; and the six examples of the documentation hold at the rationals. -/
theorem math_truncate_towards_zero [FloorRing R] (have_trunc : Bool) (value : R)
    (digits : Int) :
    (∃ z : Int, math.truncate have_trunc value digits * 10 ^ digits = (z : R) ∧
      |(z : R)| ≤ |value * 10 ^ digits| ∧ |value * 10 ^ digits| < |(z : R)| + 1 ∧
      0 ≤ (z : R) * value) ∧
    math.truncate have_trunc (-value) digits = - math.truncate have_trunc value digits ∧
    |math.truncate have_trunc value digits| ≤ |value| ∧
    math.truncate have_trunc (1211 / 1000 : ℚ) 2 = 121 / 100 ∧
    math.truncate have_trunc (1211 / 1000 : ℚ) 1 = 12 / 10 ∧
    math.truncate have_trunc (1211 / 1000 : ℚ) 0 = 1 ∧
    math.truncate have_trunc (-1211 / 1000 : ℚ) 2 = -121 / 100 ∧
    math.truncate have_trunc (-1211 / 1000 : ℚ) 1 = -12 / 10 ∧
    math.truncate have_trunc (-1211 / 1000 : ℚ) 0 = -1 := by
  have hp : (0 : R) < 10 ^ digits := zpow_pos (by norm_num) digits
  obtain ⟨z, hz, h1, h2, h3⟩ := trunc_eq_int (value * 10 ^ digits)
  refine ⟨⟨z, ?_, h1, h2, ?_⟩, ?_, ?_, ?_⟩
  · rw [math_truncate_eq, div_mul_cancel₀ _ hp.ne', hz]
  · have : 0 ≤ (z : R) * value * 10 ^ digits := by rw [mul_assoc]; exact h3
    exact nonneg_of_mul_nonneg_left this hp
  · rw [math_truncate_eq, math_truncate_eq, neg_mul, trunc_neg, neg_div]
  · rw [math_truncate_eq, abs_div, abs_of_pos hp, hz, div_le_iff₀ hp]
    calc |(z : R)| ≤ |value * 10 ^ digits| := h1
      _ = |value| * 10 ^ digits := by rw [abs_mul, abs_of_pos hp]
  · cases have_trunc <;> decide!

/-! ## The row of the cache that `cubic` reads -/

theorem cubic_index_bounds [FloorRing R] (distance : R) :
    0 ≤ Int.floor ((distance - (Int.floor distance : R)) * 100 + 1 / 2) ∧
    Int.floor ((distance - (Int.floor distance : R)) * 100 + 1 / 2) ≤ 100 := by
  have h0 : 0 ≤ distance - (Int.floor distance : R) := sub_nonneg.mpr (Int.floor_le distance)
  have h1 : distance - (Int.floor distance : R) < 1 := by
    linarith [Int.lt_floor_add_one distance]
  constructor
  · apply Int.floor_nonneg.mpr
    linarith
  · have : Int.floor ((distance - (Int.floor distance : R)) * 100 + 1 / 2) < 101 := by
      rw [Int.floor_lt]
      push_cast
      linarith
    omega

/-- C38: for every `distance` the index `m = floor( ( distance - floor( distance ) ) * 100 +
0.5 )` that `cubic` computes satisfies `0 <= m <= 100`, so that the row `weights_[m]` it reads
(the value of `cubic` is written out with it) is one of the 101 rows; and
`cubic( d + 1, ... ) = cubic( d, ... )` for every `d`, in particular
`cubic( 1, ... ) = cubic( 0, ... )`. -/
theorem cubic_index_in_table [FloorRing R] (distance pt1 pt2 pt3 pt4 : R) :
    0 ≤ Int.floor ((distance - (Int.floor distance : R)) * 100 + 1 / 2) ∧
    Int.floor ((distance - (Int.floor distance : R)) * 100 + 1 / 2) ≤ 100 ∧
    (Int.floor ((distance - (Int.floor distance : R)) * 100 + 1 / 2)).toNat < 101 ∧
    cubic distance pt1 pt2 pt3 pt4 =
      0 + pt1 * (cubic.weights (Int.floor ((distance - (Int.floor distance : R)) * 100
          + 1 / 2)).toNat : R × R × R × R).1
        + pt2 * (cubic.weights (Int.floor ((distance - (Int.floor distance : R)) * 100
          + 1 / 2)).toNat : R × R × R × R).2.1
        + pt3 * (cubic.weights (Int.floor ((distance - (Int.floor distance : R)) * 100
          + 1 / 2)).toNat : R × R × R × R).2.2.1
        + pt4 * (cubic.weights (Int.floor ((distance - (Int.floor distance : R)) * 100
          + 1 / 2)).toNat : R × R × R × R).2.2.2 ∧
    cubic (distance + 1) pt1 pt2 pt3 pt4 = cubic distance pt1 pt2 pt3 pt4 ∧
    cubic (1 : R) pt1 pt2 pt3 pt4 = cubic 0 pt1 pt2 pt3 pt4 := by
  have hb := cubic_index_bounds distance
  have hshift : ∀ d : R, cubic (d + 1) pt1 pt2 pt3 pt4 = cubic d pt1 pt2 pt3 pt4 := by
    intro d
    have e : d + 1 - ((Int.floor (d + 1) : Int) : R) = d - ((Int.floor d : Int) : R) := by
      rw [Int.floor_add_one]; push_cast; ring
    simp only [cubic, e]
  refine ⟨hb.1, hb.2, by omega, rfl, hshift distance, ?_⟩
  have := hshift 0
  rwa [zero_add] at this

/-! ## `estimate_length_var` and `estimate_anisomorphism` never fail -/

theorem sq_add_sq_pos_of_ne (p q : point R) (h : p.eq q = false) :
    0 < (p.get_x - q.get_x) ^ 2 + (p.get_y - q.get_y) ^ 2 := by
  have hne : ¬ (p.x_ = q.x_ ∧ p.y_ = q.y_) := by
    rw [← point_eq_iff, h]; exact Bool.false_ne_true
  simp only [point.get_x, point.get_y]
  by_cases hx : p.x_ = q.x_
  · have hy : p.y_ - q.y_ ≠ 0 := sub_ne_zero.mpr (fun e => hne ⟨hx, e⟩)
    have := pow_pos (abs_pos.mpr hy) 2
    rw [sq_abs] at this
    have := sq_nonneg (p.x_ - q.x_)
    linarith
  · have hx' : p.x_ - q.x_ ≠ 0 := sub_ne_zero.mpr hx
    have := pow_pos (abs_pos.mpr hx') 2
    rw [sq_abs] at this
    have := sq_nonneg (p.y_ - q.y_)
    linarith

theorem checked_div_of_ne (a b : R) (h : b ≠ 0) : checked_div a b = Except.ok (a / b) := by
  rw [checked_div, if_neg h]

theorem vector_length_vector_rounded_exact (sqrt : R → R) (a : vector R) :
    vector.length_vector_rounded (fun x => x) sqrt a = a.length_vector sqrt := rfl

theorem estimate_length_var_inner_checked_eq (sqrt : R → R) (hsqrt : ∀ x, 0 < x → 0 < sqrt x)
    (den : R) (hden : den ≠ 0) (x_y_i u_v_i : point R) (l : List (tie_point R)) (lv : R) :
    estimate_length_var.inner_checked (fun x => x) sqrt den x_y_i u_v_i l lv =
      lift_error (estimate_length_var.inner sqrt den x_y_i u_v_i l lv) := by
  induction l generalizing lv with
  | nil => rfl
  | cons b l ih =>
    rw [estimate_length_var.inner_checked, estimate_length_var.inner]
    by_cases hdeg : (x_y_i.eq b.get.1 || u_v_i.eq b.get.2) = true
    · simp only [hdeg, if_true]; rfl
    · simp only [hdeg]
      rw [Bool.or_eq_true, not_or, Bool.not_eq_true, Bool.not_eq_true] at hdeg
      have hpos : vector.length_vector sqrt ⟨u_v_i, b.get.2⟩ ≠ 0 :=
        (hsqrt _ (sq_add_sq_pos_of_ne _ _ hdeg.2)).ne'
      simp only [vector_new_of_ne _ _ hdeg.1, vector_new_of_ne _ _ hdeg.2, lift_error,
        vector_length_vector_rounded_exact, checked_div_of_ne _ _ hpos,
        checked_div_of_ne _ _ hden]
      exact ih _

theorem estimate_length_var_outer_checked_eq (sqrt : R → R) (hsqrt : ∀ x, 0 < x → 0 < sqrt x)
    (den : R) (hden : den ≠ 0) (l : List (tie_point R)) (lv : R) :
    estimate_length_var.outer_checked (fun x => x) sqrt den l lv =
      lift_error (estimate_length_var.outer sqrt den l lv) := by
  induction l generalizing lv with
  | nil => rfl
  | cons a l ih =>
    match l, ih with
    | [], _ => rfl
    | b :: rest, ih =>
      rw [estimate_length_var.outer_checked, estimate_length_var.outer,
        estimate_length_var_inner_checked_eq sqrt hsqrt den hden]
      cases estimate_length_var.inner sqrt den a.get.1 a.get.2 (b :: rest) lv with
      | error e => rfl
      | ok r =>
        obtain ⟨flag, lv'⟩ := r
        cases flag with
        | false => rfl
        | true => exact ih lv'

theorem estimate_length_var_total (sqrt : R → R) (m : evaluation_measurements R)
    (l : List (tie_point R)) :
    ∃ b m', estimate_length_var sqrt m l = Except.ok (b, m') := by
  by_cases h : (key_set l).card < 2
  · exact ⟨_, _, estimate_length_var_of_lt sqrt m l h⟩
  · obtain ⟨b, lv, ho, _⟩ := estimate_length_var_outer_flag sqrt
      ((binomial_value (key_set l).card 2 : Int) : R) (std_set l) 0
    exact ⟨_, _, estimate_length_var_of_outer sqrt m l (by omega) b lv ho⟩

theorem estimate_length_var_checked_eq (sqrt : R → R) (hsqrt : ∀ x, 0 < x → 0 < sqrt x)
    (m : evaluation_measurements R) (l : List (tie_point R)) (h28 : (key_set l).card ≤ 28) :
    estimate_length_var_checked (fun x => x) sqrt m l =
      lift_error (estimate_length_var sqrt m l) := by
  simp only [estimate_length_var_checked, estimate_length_var]
  by_cases h2 : (std_set l).length < 2
  · rw [if_pos h2, if_pos h2]; rfl
  · rw [if_neg h2, if_neg h2]
    have hb := math_binomial_number_eq (std_set l).length 2 (by norm_num) (by omega)
      (by rw [std_set_length]; exact h28)
    have hden : ((((std_set l).length.choose 2 : Nat) : Int) : R) ≠ 0 := by
      have : 0 < (std_set l).length.choose 2 := Nat.choose_pos (by omega)
      rw [Int.cast_natCast]
      exact Nat.cast_ne_zero.mpr this.ne'
    rw [show ((2 : Int)) = ((2 : Nat) : Int) from rfl, hb]
    simp only [bind, Except.bind, lift_error]
    rw [estimate_length_var_outer_checked_eq sqrt hsqrt _ hden]
    cases estimate_length_var.outer sqrt
      ((((std_set l).length.choose 2 : Nat) : Int) : R) (std_set l) 0 <;> rfl

theorem estimate_anisomorphism_inner_checked_eq (x_y_i u_v_i : point R)
    (l : List (tie_point R)) (sd : R × R) :
    estimate_anisomorphism.inner_checked x_y_i u_v_i l sd =
      Except.ok (estimate_anisomorphism.inner x_y_i u_v_i l sd) := by
  induction l generalizing sd with
  | nil => rfl
  | cons b l ih =>
    obtain ⟨s, d⟩ := sd
    rw [estimate_anisomorphism.inner_checked, estimate_anisomorphism.inner]
    by_cases h : |u_v_i.get_x - b.get.2.get_x| * |x_y_i.get_y - b.get.1.get_y| ≠ 0
    · simp only [h, if_true, ne_eq, not_false_eq_true, checked_div_of_ne _ _ h]
      exact ih _
    · simp only [h, if_false]
      exact ih _

theorem estimate_anisomorphism_outer_checked_eq (l : List (tie_point R)) (sd : R × R) :
    estimate_anisomorphism.outer_checked l sd =
      Except.ok (estimate_anisomorphism.outer l sd) := by
  induction l generalizing sd with
  | nil => rfl
  | cons a l ih =>
    match l, ih with
    | [], _ => rfl
    | b :: rest, ih =>
      rw [estimate_anisomorphism.outer_checked, estimate_anisomorphism.outer,
        estimate_anisomorphism_inner_checked_eq]
      exact ih _

theorem estimate_anisomorphism_checked_eq (m : evaluation_measurements R)
    (l : List (tie_point R)) :
    estimate_anisomorphism_checked m l = lift_error (estimate_anisomorphism m l) := by
  simp only [estimate_anisomorphism_checked, estimate_anisomorphism]
  by_cases h2 : l.length < 2
  · rw [if_pos h2, if_pos h2]; rfl
  · rw [if_neg h2, if_neg h2]
    have hb := math_binomial_number_value l.length 2 (by norm_num) (by omega)
    rw [show ((2 : Int)) = ((2 : Nat) : Int) from rfl, hb]
    simp only [bind, Except.bind, lift_error, estimate_anisomorphism_outer_checked_eq]
    by_cases hd : (estimate_anisomorphism.outer l
        (0, ((binomial_value l.length 2 : Int) : R))).2 ≠ 0
    · simp only [hd, if_true, ne_eq, not_false_eq_true, checked_div_of_ne _ _ hd]
      rfl
    · simp only [hd, if_false]
      rfl

theorem estimate_anisomorphism_total (m : evaluation_measurements R)
    (l : List (tie_point R)) :
    ∃ b m', estimate_anisomorphism m l = Except.ok (b, m') := by
  by_cases h2 : l.length < 2
  · exact ⟨false, m, by simp [estimate_anisomorphism, h2]⟩
  · exact ⟨_, _, estimate_anisomorphism_unfold m l (by omega)⟩

/-- In exact arithmetic and with at most 28 distinct tie points: `estimate_length_var` and
`estimate_anisomorphism` return a flag and an object (no `assert` fails and nothing is thrown),
and the runs in which every division is checked return the same, so that no divisor is 0 (for
`estimate_length_var` with a `sqrt` that is positive on the positive numbers). Behind the size
test `binomial_number( n, 2 )` is called with `n >= 2` and returns a positive number for
`n <= 28`; two different points give a vector, and its exact length is positive. -/
theorem estimators_total_exact (sqrt : R → R) (hsqrt : ∀ x, 0 < x → 0 < sqrt x)
    (m : evaluation_measurements R) (l : List (tie_point R)) (h28 : (key_set l).card ≤ 28) :
    (∃ b m', estimate_length_var sqrt m l = Except.ok (b, m') ∧
      estimate_length_var_checked (fun x => x) sqrt m l = Except.ok (b, m')) ∧
    (∃ b m', estimate_anisomorphism m l = Except.ok (b, m') ∧
      estimate_anisomorphism_checked m l = Except.ok (b, m')) ∧
    (∀ n : Nat, ¬ n < 2 → n ≤ 28 →
      ∃ c : Int, math.binomial_number (n : Int) 2 = Except.ok c ∧ 0 < c) ∧
    (∀ p q : point R, p.eq q = false →
      ∃ v, vector.new p q = Except.ok v ∧ 0 < v.length_vector sqrt) := by
  refine ⟨?_, ?_, ?_, ?_⟩
  · obtain ⟨b, m', h⟩ := estimate_length_var_total sqrt m l
    exact ⟨b, m', h, by rw [estimate_length_var_checked_eq sqrt hsqrt m l h28, h]; rfl⟩
  · obtain ⟨b, m', h⟩ := estimate_anisomorphism_total m l
    exact ⟨b, m', h, by rw [estimate_anisomorphism_checked_eq, h]; rfl⟩
  · intro n hn hn28
    refine ⟨_, math_binomial_number_eq n 2 (by norm_num) (by omega) hn28, ?_⟩
    exact_mod_cast Nat.choose_pos (by omega)
  · intro p q h
    exact ⟨⟨p, q⟩, vector_new_of_ne p q h, hsqrt _ (sq_add_sq_pos_of_ne p q h)⟩

/-- C35, the code at the failing input: the reference points `(0,0)` and `(2^-600, 0)` are
different `double`s, so the test of line 57 passes and `v_uv` is built; in the arithmetic of
`double`s the square of `2^-600` underflows to `0`, `v_uv.length_vector()` is `0`, and line 63
divides by it: the run of `estimate_length_var` with checked divisions fails in a division by
zero. -/
theorem estimate_length_var_divides_by_zero :
    binary64.round (pow2 (-600)) = pow2 (-600) ∧
    (point.new (0 : ℚ) 0).eq (point.new (pow2 (-600)) 0) = false ∧
    vector.new (point.new (0 : ℚ) 0) (point.new (pow2 (-600)) 0) =
      Except.ok ⟨point.new 0 0, point.new (pow2 (-600)) 0⟩ ∧
    binary64.round ((0 - pow2 (-600)) ^ 2) = 0 ∧
    vector.length_vector_rounded binary64.round binary64.sqrt
      (⟨point.new 0 0, point.new (pow2 (-600)) 0⟩ : vector ℚ) = 0 ∧
    estimate_length_var_checked binary64.round binary64.sqrt
        (⟨5, 6, 7⟩ : evaluation_measurements ℚ)
        [⟨point.new 0 0, point.new 0 0, tie_point.type.CONTROL⟩,
          ⟨point.new 1 0, point.new (pow2 (-600)) 0, tie_point.type.CONTROL⟩] =
      Except.error Failure.division_by_zero := by
  decide!

/-! ## `estimate_anisomorphism`: the ratio of the scales of the two axes -/

theorem anisomorphism_ratio_of_axis_scale (a b : R) (s t : tie_point R)
    (hs : s.u_v_.x_ = a * s.x_y_.x_ ∧ s.u_v_.y_ = b * s.x_y_.y_)
    (ht : t.u_v_.x_ = a * t.x_y_.x_ ∧ t.u_v_.y_ = b * t.x_y_.y_)
    (h : anisomorphism_contributes s t) : anisomorphism_ratio s t = |b| / |a| := by
  unfold anisomorphism_contributes at h
  unfold anisomorphism_ratio
  rw [hs.1, ht.1] at h ⊢
  rw [hs.2, ht.2]
  rw [← mul_sub, abs_mul] at h ⊢
  rw [← mul_sub, abs_mul]
  have h1 : |a| ≠ 0 := fun e => h (by rw [e]; ring)
  have h2 : |s.x_y_.x_ - t.x_y_.x_| ≠ 0 := fun e => h (by rw [e]; ring)
  have h3 : |s.x_y_.y_ - t.x_y_.y_| ≠ 0 := fun e => h (by rw [e]; ring)
  field_simp
  ring

theorem anisomorphism_contributes_of_axis_scale (a : R) (ha : a ≠ 0) (s t : tie_point R)
    (hs : s.u_v_.x_ = a * s.x_y_.x_) (ht : t.u_v_.x_ = a * t.x_y_.x_) :
    anisomorphism_contributes s t ↔ (s.x_y_.x_ ≠ t.x_y_.x_ ∧ s.x_y_.y_ ≠ t.x_y_.y_) := by
  unfold anisomorphism_contributes
  rw [hs, ht, ← mul_sub, abs_mul, mul_ne_zero_iff, mul_ne_zero_iff, abs_ne_zero, abs_ne_zero,
    abs_ne_zero, sub_ne_zero, sub_ne_zero]
  exact ⟨fun h => ⟨h.1.2, h.2⟩, fun h => ⟨⟨ha, h.1⟩, h.2⟩⟩

theorem anisomorphism_ratio_nonneg (s t : tie_point R) : 0 ≤ anisomorphism_ratio s t := by
  unfold anisomorphism_ratio
  positivity

theorem anisomorphism_contributes_symm (s t : tie_point R) :
    anisomorphism_contributes s t ↔ anisomorphism_contributes t s := by
  unfold anisomorphism_contributes
  rw [abs_sub_comm s.u_v_.x_, abs_sub_comm s.x_y_.y_]

theorem anisomorphism_ratio_symm (s t : tie_point R) :
    anisomorphism_ratio s t = anisomorphism_ratio t s := by
  unfold anisomorphism_ratio
  rw [abs_sub_comm s.u_v_.x_, abs_sub_comm s.x_y_.y_, abs_sub_comm s.x_y_.x_,
    abs_sub_comm s.u_v_.y_]

theorem contributing_pairs_card_ne_zero_iff (l : List (tie_point R)) :
    ((contributing_pairs l).card : R) ≠ 0 ↔
      ∃ i j : Fin l.length, i < j ∧ anisomorphism_contributes (l.get i) (l.get j) := by
  rw [Nat.cast_ne_zero, ← Nat.pos_iff_ne_zero, Finset.card_pos]
  constructor
  · rintro ⟨⟨i, j⟩, hp⟩
    rw [contributing_pairs, Finset.mem_filter] at hp
    exact ⟨i, j, hp.2⟩
  · rintro ⟨i, j, h⟩
    exact ⟨(i, j), by rw [contributing_pairs, Finset.mem_filter]; exact ⟨Finset.mem_univ _, h⟩⟩

theorem estimate_anisomorphism_stored_nonneg (m r : evaluation_measurements R)
    (l : List (tie_point R)) (h28 : l.length ≤ 28)
    (h : estimate_anisomorphism m l = Except.ok (true, r)) :
    0 ≤ r.anisomorphism_ := by
  by_cases h2 : l.length < 2
  · simp [estimate_anisomorphism, h2] at h
  · rw [estimate_anisomorphism_unfold_small m l (by omega) h28,
      estimate_anisomorphism_outer_den_choose, estimate_anisomorphism_outer_sum] at h
    simp only [Except.ok.injEq, Prod.mk.injEq, true_and] at h
    rw [← h]
    simp only []
    split
    · apply div_nonneg
      · exact Finset.sum_nonneg (fun p _ => anisomorphism_ratio_nonneg _ _)
      · exact Nat.cast_nonneg _
    · exact zero_le_one

/-- For `a ≠ 0`, `b ≠ 0` and a list of at least 2 and at most 28 tie points whose reference
points are `(a * work.x, b * work.y)`, `estimate_anisomorphism` returns `true` and stores
`|b| / |a|` when two entries differ in both work coordinates, and `1` when no two entries do;
and whatever the list of at most 28 entries and the object, the value stored by a run that
returns `true` is not negative. -/
theorem estimate_anisomorphism_axis_scale_small (m : evaluation_measurements R)
    (l : List (tie_point R)) (a b : R) (ha : a ≠ 0) (_hb : b ≠ 0) (h : 2 ≤ l.length)
    (h28 : l.length ≤ 28)
    (hs : ∀ t ∈ l, t.u_v_.x_ = a * t.x_y_.x_ ∧ t.u_v_.y_ = b * t.x_y_.y_) :
    ((∃ i j : Fin l.length, (l.get i).x_y_.x_ ≠ (l.get j).x_y_.x_ ∧
        (l.get i).x_y_.y_ ≠ (l.get j).x_y_.y_) →
      estimate_anisomorphism m l = Except.ok (true, { m with anisomorphism_ := |b| / |a| })) ∧
    ((¬ ∃ i j : Fin l.length, (l.get i).x_y_.x_ ≠ (l.get j).x_y_.x_ ∧
        (l.get i).x_y_.y_ ≠ (l.get j).x_y_.y_) →
      estimate_anisomorphism m l = Except.ok (true, { m with anisomorphism_ := 1 })) ∧
    (∀ (m' r : evaluation_measurements R) (l' : List (tie_point R)), l'.length ≤ 28 →
      estimate_anisomorphism m' l' = Except.ok (true, r) → 0 ≤ r.anisomorphism_) := by
  have hsum : (estimate_anisomorphism.outer l (0, ((l.length.choose 2 : Nat) : R))).1 =
      ((contributing_pairs l).card : R) * (|b| / |a|) := by
    rw [estimate_anisomorphism_outer_eq, ← contributing_pairs_card, zero_add]
    have e : (fun s t : tie_point R => (if anisomorphism_contributes s t then (1 : R) else 0)
        * (|b| / |a|)) = fun s t => (if anisomorphism_contributes s t then |b| / |a| else 0) := by
      funext s t; split <;> simp
    have hmul : ∀ (f : tie_point R → tie_point R → R) (c : R) (l : List (tie_point R)),
        pair_sum (fun s t => f s t * c) l = pair_sum f l * c := by
      intro f c l
      have := pair_sum_div f c⁻¹ l
      simpa [div_eq_mul_inv] using this
    rw [← hmul, e]
    refine pair_sum_congr _ _ l (fun s hs' t ht' => ?_)
    by_cases hc : anisomorphism_contributes s t
    · rw [if_pos hc, if_pos hc,
        anisomorphism_ratio_of_axis_scale a b s t (hs s hs') (hs t ht') hc]
    · rw [if_neg hc, if_neg hc]
  have hiff : ((contributing_pairs l).card : R) ≠ 0 ↔
      ∃ i j : Fin l.length, (l.get i).x_y_.x_ ≠ (l.get j).x_y_.x_ ∧
        (l.get i).x_y_.y_ ≠ (l.get j).x_y_.y_ := by
    rw [contributing_pairs_card_ne_zero_iff]
    constructor
    · rintro ⟨i, j, _, hc⟩
      exact ⟨i, j, (anisomorphism_contributes_of_axis_scale a ha _ _
        (hs _ (List.get_mem l i.1 i.2)).1 (hs _ (List.get_mem l j.1 j.2)).1).mp hc⟩
    · rintro ⟨i, j, hx, hy⟩
      have hc := (anisomorphism_contributes_of_axis_scale a ha _ _
        (hs _ (List.get_mem l i.1 i.2)).1 (hs _ (List.get_mem l j.1 j.2)).1).mpr ⟨hx, hy⟩
      rcases lt_trichotomy i j with hij | hij | hij
      · exact ⟨i, j, hij, hc⟩
      · exact absurd (by rw [hij]) hx
      · exact ⟨j, i, hij, (anisomorphism_contributes_symm _ _).mp hc⟩
  refine ⟨?_, ?_, fun m' r l' hl' h' => estimate_anisomorphism_stored_nonneg m' r l' hl' h'⟩
  · intro hex
    have hc := hiff.mpr hex
    rw [estimate_anisomorphism_unfold_small m l h h28, estimate_anisomorphism_outer_den_choose,
      hsum, if_pos hc, mul_div_cancel_left₀ _ hc]
  · intro hex
    have hc : ¬ ((contributing_pairs l).card : R) ≠ 0 := fun hc => hex (hiff.mp hc)
    rw [estimate_anisomorphism_unfold_small m l h h28, estimate_anisomorphism_outer_den_choose,
      if_neg hc]

theorem estimate_anisomorphism_axis_scale_small_example :
    (2 : ℚ) ≠ 0 ∧ (-3 : ℚ) ≠ 0 ∧
    estimate_anisomorphism (⟨5, 6, 7⟩ : evaluation_measurements ℚ)
        [⟨⟨0, 0, 1, 1⟩, ⟨0, 0, 1, 1⟩, tie_point.type.CONTROL⟩,
          ⟨⟨1, 2, 1, 1⟩, ⟨2, -6, 1, 1⟩, tie_point.type.CONTROL⟩,
          ⟨⟨1, 5, 1, 1⟩, ⟨2, -15, 1, 1⟩, tie_point.type.CONTROL⟩]
      = Except.ok (true, ⟨5, |(-3 : ℚ)| / |(2 : ℚ)|, 7⟩) :=
  ⟨by decide, by decide,
    (estimate_anisomorphism_axis_scale_small (⟨5, 6, 7⟩ : evaluation_measurements ℚ)
      [⟨⟨0, 0, 1, 1⟩, ⟨0, 0, 1, 1⟩, tie_point.type.CONTROL⟩,
        ⟨⟨1, 2, 1, 1⟩, ⟨2, -6, 1, 1⟩, tie_point.type.CONTROL⟩,
        ⟨⟨1, 5, 1, 1⟩, ⟨2, -15, 1, 1⟩, tie_point.type.CONTROL⟩] 2 (-3) (by decide) (by decide)
      (by decide) (by decide) (by decide!)).1 ⟨⟨0, by decide⟩, ⟨1, by decide⟩, by decide!⟩⟩

/-! ## The order of the list: `estimate_similarity` against `estimate_anisomorphism` -/

theorem pair_sum_perm {α : Type} (f : α → α → R) (hf : ∀ a b, f a b = f b a) (l l' : List α)
    (h : l.Perm l') : pair_sum f l = pair_sum f l' := by
  induction h with
  | nil => rfl
  | cons a hp ih =>
    simp only [pair_sum]
    rw [ih, (hp.map (f a)).sum_eq]
  | swap a b l =>
    simp only [pair_sum, List.map_cons, List.sum_cons]
    rw [hf b a]
    ring
  | trans _ _ ih1 ih2 => exact ih1.trans ih2

theorem estimate_anisomorphism_perm (m : evaluation_measurements R)
    (l l' : List (tie_point R)) (h : l.Perm l') :
    estimate_anisomorphism m l = estimate_anisomorphism m l' := by
  have hlen : l.length = l'.length := h.length_eq
  have houter : ∀ sd : R × R,
      estimate_anisomorphism.outer l sd = estimate_anisomorphism.outer l' sd := by
    rintro ⟨s, d⟩
    rw [estimate_anisomorphism_outer_eq, estimate_anisomorphism_outer_eq,
      pair_sum_perm _ _ l l' h, pair_sum_perm _ _ l l' h]
    · intro a b
      by_cases hc : anisomorphism_contributes a b
      · rw [if_pos hc, if_pos ((anisomorphism_contributes_symm a b).mp hc)]
      · rw [if_neg hc, if_neg (fun hc' => hc ((anisomorphism_contributes_symm a b).mpr hc'))]
    · intro a b
      by_cases hc : anisomorphism_contributes a b
      · rw [if_pos hc, if_pos ((anisomorphism_contributes_symm a b).mp hc),
          anisomorphism_ratio_symm]
      · rw [if_neg hc, if_neg (fun hc' => hc ((anisomorphism_contributes_symm a b).mpr hc'))]
  simp only [estimate_anisomorphism, hlen]
  by_cases h2 : l'.length < 2
  · rw [if_pos h2, if_pos h2]
  · rw [if_neg h2, if_neg h2]
    cases math.binomial_number (l'.length : Int) 2 with
    | error e => rfl
    | ok den =>
      simp only [bind, Except.bind]
      rw [houter]

theorem arccos_one_div_sqrt_two : Real.arccos (1 / Real.sqrt 2) = Real.pi / 4 := by
  have h : (1 : ℝ) / Real.sqrt 2 = Real.cos (Real.pi / 4) := by
    rw [Real.cos_pi_div_four]
    have h2 : Real.sqrt 2 ≠ 0 := (Real.sqrt_pos.mpr (by norm_num)).ne'
    field_simp
  rw [h, Real.arccos_cos (by positivity) (by linarith [Real.pi_pos])]

/-- C37: the three tie points `(0,0) -> (0,0)`, `(1,0) -> (1,0)`, `(0,1) -> (1,1)` have pairwise
different, non-collinear work points and reference points; in this order `estimate_similarity`
returns `true` and stores `(π/2) / (π/4) = 2`, the quotient of the angles at the first entry,
and with the first two entries swapped it returns `true` and stores `(π/4) / (π/2) = 1/2`;
whereas `estimate_anisomorphism` gives the same outcome for every permutation of every
list. -/
theorem estimate_similarity_order_dependent (m : evaluation_measurements ℝ) :
    List.Perm
      ([⟨⟨0, 0, 1, 1⟩, ⟨0, 0, 1, 1⟩, tie_point.type.CONTROL⟩,
        ⟨⟨1, 0, 1, 1⟩, ⟨1, 0, 1, 1⟩, tie_point.type.CONTROL⟩,
        ⟨⟨0, 1, 1, 1⟩, ⟨1, 1, 1, 1⟩, tie_point.type.CONTROL⟩] : List (tie_point ℝ))
      [⟨⟨1, 0, 1, 1⟩, ⟨1, 0, 1, 1⟩, tie_point.type.CONTROL⟩,
        ⟨⟨0, 0, 1, 1⟩, ⟨0, 0, 1, 1⟩, tie_point.type.CONTROL⟩,
        ⟨⟨0, 1, 1, 1⟩, ⟨1, 1, 1, 1⟩, tie_point.type.CONTROL⟩] ∧
    ((1 - 0) * (1 - 0) - (0 - 0) * (0 - 0) ≠ (0 : ℝ) ∧
      (1 - 0) * (1 - 0) - (0 - 0) * (1 - 0) ≠ (0 : ℝ)) ∧
    estimate_similarity Real.sqrt Real.arccos m
        [⟨⟨0, 0, 1, 1⟩, ⟨0, 0, 1, 1⟩, tie_point.type.CONTROL⟩,
          ⟨⟨1, 0, 1, 1⟩, ⟨1, 0, 1, 1⟩, tie_point.type.CONTROL⟩,
          ⟨⟨0, 1, 1, 1⟩, ⟨1, 1, 1, 1⟩, tie_point.type.CONTROL⟩]
      = Except.ok (true, { m with similarity_ := 2 }) ∧
    estimate_similarity Real.sqrt Real.arccos m
        [⟨⟨1, 0, 1, 1⟩, ⟨1, 0, 1, 1⟩, tie_point.type.CONTROL⟩,
          ⟨⟨0, 0, 1, 1⟩, ⟨0, 0, 1, 1⟩, tie_point.type.CONTROL⟩,
          ⟨⟨0, 1, 1, 1⟩, ⟨1, 1, 1, 1⟩, tie_point.type.CONTROL⟩]
      = Except.ok (true, { m with similarity_ := 1 / 2 }) ∧
    (2 : ℝ) ≠ 1 / 2 ∧
    (∀ (m' : evaluation_measurements ℝ) (l l' : List (tie_point ℝ)), l.Perm l' →
      estimate_anisomorphism m' l = estimate_anisomorphism m' l') := by
  have hpi : Real.pi ≠ 0 := Real.pi_pos.ne'
  have a1 : vector.angle_b_vectors Real.sqrt Real.arccos
      (⟨⟨0, 0, 1, 1⟩, ⟨1, 0, 1, 1⟩⟩ : vector ℝ) ⟨⟨0, 0, 1, 1⟩, ⟨0, 1, 1, 1⟩⟩
      = Real.pi / 2 := by
    simp [vector.angle_b_vectors, vector.get, point.get_x, point.get_y]
  have a2 : vector.angle_b_vectors Real.sqrt Real.arccos
      (⟨⟨0, 0, 1, 1⟩, ⟨1, 0, 1, 1⟩⟩ : vector ℝ) ⟨⟨0, 0, 1, 1⟩, ⟨1, 1, 1, 1⟩⟩
      = Real.pi / 4 := by
    rw [← arccos_one_div_sqrt_two]
    simp [vector.angle_b_vectors, vector.get, point.get_x, point.get_y]
    norm_num
  have b1 : vector.angle_b_vectors Real.sqrt Real.arccos
      (⟨⟨1, 0, 1, 1⟩, ⟨0, 0, 1, 1⟩⟩ : vector ℝ) ⟨⟨1, 0, 1, 1⟩, ⟨0, 1, 1, 1⟩⟩
      = Real.pi / 4 := by
    rw [← arccos_one_div_sqrt_two]
    simp [vector.angle_b_vectors, vector.get, point.get_x, point.get_y]
    norm_num
  have b2 : vector.angle_b_vectors Real.sqrt Real.arccos
      (⟨⟨1, 0, 1, 1⟩, ⟨0, 0, 1, 1⟩⟩ : vector ℝ) ⟨⟨1, 0, 1, 1⟩, ⟨1, 1, 1, 1⟩⟩
      = Real.pi / 2 := by
    simp [vector.angle_b_vectors, vector.get, point.get_x, point.get_y]
  refine ⟨List.Perm.swap _ _ _, ⟨by norm_num, by norm_num⟩, ?_, ?_, by norm_num,
    fun m' l l' h => estimate_anisomorphism_perm m' l l' h⟩
  · rw [estimate_similarity_of_outer_small _ _ _ _ (by simp) (by simp),
      estimate_similarity_outer_checked _ _ _ _ (by simp [similarity_checked, nondegenerate,
        point.eq])]
    simp only [triple_sum, pair_sum, similarity_ratio, a1, a2, List.map_cons, List.map_nil,
      List.sum_cons, List.sum_nil, List.length_cons, List.length_nil]
    norm_num
    field_simp
    ring
  · rw [estimate_similarity_of_outer_small _ _ _ _ (by simp) (by simp),
      estimate_similarity_outer_checked _ _ _ _ (by simp [similarity_checked, nondegenerate,
        point.eq])]
    simp only [triple_sum, pair_sum, similarity_ratio, b1, b2, List.map_cons, List.map_nil,
      List.sum_cons, List.sum_nil, List.length_cons, List.length_nil]
    norm_num
    field_simp
    ring

/-! ## `estimate_anisomorphism` on 29 tie points -/

theorem estimate_anisomorphism_outer_of_ratio (l : List (tie_point R)) (c d : R)
    (hp : l.Pairwise (fun a b => anisomorphism_contributes a b ∧ anisomorphism_ratio a b = c)) :
    estimate_anisomorphism.outer l (0, d) = (((l.length.choose 2 : Nat) : R) * c, d) := by
  rw [estimate_anisomorphism_outer_eq]
  have h1 : pair_sum (fun a b =>
      if anisomorphism_contributes a b then anisomorphism_ratio a b else 0) l =
      pair_sum (fun _ _ => c) l :=
    pair_sum_congr_pairwise _ _ l (hp.imp (fun {a b} h => by rw [if_pos h.1, h.2]))
  have h2 : pair_sum (fun a b => if anisomorphism_contributes a b then (0 : R) else 1) l =
      pair_sum (fun _ _ => (0 : R)) l :=
    pair_sum_congr_pairwise _ _ l (hp.imp (fun {a b} h => by rw [if_pos h.1]))
  rw [h1, h2, pair_sum_const, pair_sum_const, mul_zero, zero_add, sub_zero]

theorem estimate_anisomorphism_outer_of_skipped (l : List (tie_point R)) (d : R)
    (hp : l.Pairwise (fun a b => ¬ anisomorphism_contributes a b)) :
    estimate_anisomorphism.outer l (0, d) = (0, d - ((l.length.choose 2 : Nat) : R)) := by
  rw [estimate_anisomorphism_outer_eq]
  have h1 : pair_sum (fun a b =>
      if anisomorphism_contributes a b then anisomorphism_ratio a b else 0) l =
      pair_sum (fun _ _ => (0 : R)) l :=
    pair_sum_congr_pairwise _ _ l (hp.imp (fun {a b} h => by rw [if_neg h]))
  have h2 : pair_sum (fun a b => if anisomorphism_contributes a b then (0 : R) else 1) l =
      pair_sum (fun _ _ => (1 : R)) l :=
    pair_sum_congr_pairwise _ _ l (hp.imp (fun {a b} h => by rw [if_neg h]))
  rw [h1, h2, pair_sum_const, pair_sum_const, mul_zero, mul_one, add_zero]

theorem contributing_pairs_card_of_pairwise (l : List (tie_point R))
    (hp : l.Pairwise anisomorphism_contributes) :
    (contributing_pairs l).card = l.length.choose 2 := by
  have h := contributing_pairs_card l
  rw [pair_sum_congr_pairwise _ (fun _ _ => (1 : R)) l (hp.imp (fun {a b} h => if_pos h)),
    pair_sum_one] at h
  exact (Nat.cast_injective h).symm

theorem contributing_pairs_card_of_skipped (l : List (tie_point R))
    (hp : l.Pairwise (fun a b => ¬ anisomorphism_contributes a b)) :
    (contributing_pairs l).card = 0 := by
  have h := contributing_pairs_card l
  rw [pair_sum_congr_pairwise _ (fun _ _ => (0 : R)) l (hp.imp (fun {a b} h => if_neg h)),
    pair_sum_const, mul_zero] at h
  have h0 : (((contributing_pairs l).card : Nat) : R) = ((0 : Nat) : R) := by
    rw [← h, Nat.cast_zero]
  exact Nat.cast_injective h0

theorem choose_29 : Nat.choose 29 2 = 406 ∧ Nat.choose 29 3 = 3654 := by
  decide

/-- On 29 tie points of which every pair contributes with the ratio `c`,
`estimate_anisomorphism` divides the sum `406 * c` by `den = 405`. -/
theorem estimate_anisomorphism_29_of_ratio (m : evaluation_measurements R)
    (f : Nat → tie_point R) (c : R)
    (hf : ∀ i j : Nat, i < j →
      anisomorphism_contributes (f i) (f j) ∧ anisomorphism_ratio (f i) (f j) = c) :
    estimate_anisomorphism m ((List.range 29).map f) =
      Except.ok (true, { m with anisomorphism_ := 406 * c / 405 }) ∧
    (contributing_pairs ((List.range 29).map f)).card = 406 ∧
    (∑ p in contributing_pairs ((List.range 29).map f),
      anisomorphism_ratio (((List.range 29).map f).get p.1) (((List.range 29).map f).get p.2)) =
        406 * c ∧
    (estimate_anisomorphism.outer ((List.range 29).map f)
      (0, ((binomial_value 29 2 : Int) : R))) = (406 * c, 405) := by
  have hp : ((List.range 29).map f).Pairwise
      (fun a b => anisomorphism_contributes a b ∧ anisomorphism_ratio a b = c) :=
    List.pairwise_map.mpr ((List.pairwise_lt_range 29).imp (fun {i j} h => hf i j h))
  have hlen : ((List.range 29).map f).length = 29 := by simp
  have ho : estimate_anisomorphism.outer ((List.range 29).map f)
      (0, ((binomial_value 29 2 : Int) : R)) = (406 * c, 405) := by
    rw [estimate_anisomorphism_outer_of_ratio _ c _ hp, hlen, choose_29.1, binomial_value_29.2.1]
    norm_num
  refine ⟨?_, ?_, ?_, ho⟩
  · rw [estimate_anisomorphism_unfold m _ (by rw [hlen]; norm_num), hlen, ho]
    norm_num
  · rw [contributing_pairs_card_of_pairwise _ (hp.imp (fun {a b} h => h.1)), hlen, choose_29.1]
  · rw [← estimate_anisomorphism_outer_sum _ ((binomial_value 29 2 : Int) : R), ho]

/-- On 29 tie points of which no pair contributes, `estimate_anisomorphism` ends with the sum
`0` and `den = 405 - 406 = -1`, not `0`, and stores `0 / -1`. -/
theorem estimate_anisomorphism_29_of_skipped (m : evaluation_measurements R)
    (f : Nat → tie_point R)
    (hf : ∀ i j : Nat, i < j → ¬ anisomorphism_contributes (f i) (f j)) :
    estimate_anisomorphism m ((List.range 29).map f) =
      Except.ok (true, { m with anisomorphism_ := 0 }) ∧
    (contributing_pairs ((List.range 29).map f)).card = 0 ∧
    (estimate_anisomorphism.outer ((List.range 29).map f)
      (0, ((binomial_value 29 2 : Int) : R))) = (0, -1) := by
  have hp : ((List.range 29).map f).Pairwise (fun a b => ¬ anisomorphism_contributes a b) :=
    List.pairwise_map.mpr ((List.pairwise_lt_range 29).imp (fun {i j} h => hf i j h))
  have hlen : ((List.range 29).map f).length = 29 := by simp
  have ho : estimate_anisomorphism.outer ((List.range 29).map f)
      (0, ((binomial_value 29 2 : Int) : R)) = (0, -1) := by
    rw [estimate_anisomorphism_outer_of_skipped _ _ hp, hlen, choose_29.1,
      binomial_value_29.2.1]
    norm_num
  refine ⟨?_, contributing_pairs_card_of_skipped _ hp, ho⟩
  rw [estimate_anisomorphism_unfold m _ (by rw [hlen]; norm_num), hlen, ho]
  norm_num

theorem nat_cast_sub_ne_zero (i j : Nat) (h : i < j) : |(i : R) - (j : R)| ≠ 0 := by
  have : (i : R) < (j : R) := Nat.cast_lt.mpr h
  exact abs_ne_zero.mpr (by linarith)

/-- C7, the code at the failing input: the 29 tie points `(i,i) -> (i,i)`, `i = 0, ..., 28`.
All 406 pairs contribute, each with the ratio `1`, so the sum of the ratios of the contributing
pairs divided by their number is `1`; `binomial_number( 29, 2 )` returns `405`, no pair is
skipped, the counter `den` ends at `405`, not at the number `406` of the contributing pairs,
and the value stored is `406 / 405`. -/
theorem estimate_anisomorphism_mean_fails_on_29 (m : evaluation_measurements ℚ) :
    math.binomial_number 29 2 = Except.ok 405 ∧
    estimate_anisomorphism m ((List.range 29).map
        (fun i : Nat => ⟨⟨i, i, 1, 1⟩, ⟨i, i, 1, 1⟩, tie_point.type.CONTROL⟩)) =
      Except.ok (true, { m with anisomorphism_ := 406 / 405 }) ∧
    (contributing_pairs ((List.range 29).map
        (fun i : Nat => (⟨⟨i, i, 1, 1⟩, ⟨i, i, 1, 1⟩, tie_point.type.CONTROL⟩ : tie_point ℚ)))).card
      = 406 ∧
    (∑ p in contributing_pairs ((List.range 29).map
        (fun i : Nat => (⟨⟨i, i, 1, 1⟩, ⟨i, i, 1, 1⟩, tie_point.type.CONTROL⟩ : tie_point ℚ))),
      anisomorphism_ratio
        (((List.range 29).map
          (fun i : Nat => (⟨⟨i, i, 1, 1⟩, ⟨i, i, 1, 1⟩, tie_point.type.CONTROL⟩ : tie_point ℚ))).get
            p.1)
        (((List.range 29).map
          (fun i : Nat => (⟨⟨i, i, 1, 1⟩, ⟨i, i, 1, 1⟩, tie_point.type.CONTROL⟩ : tie_point ℚ))).get
            p.2)) / (406 : ℚ) = 1 ∧
    (estimate_anisomorphism.outer ((List.range 29).map
        (fun i : Nat => (⟨⟨i, i, 1, 1⟩, ⟨i, i, 1, 1⟩, tie_point.type.CONTROL⟩ : tie_point ℚ)))
      (0, ((405 : Int) : ℚ))).2 = 405 ∧
    (406 : ℚ) / 405 ≠ 1 := by
  have h := estimate_anisomorphism_29_of_ratio m
    (fun i : Nat => (⟨⟨i, i, 1, 1⟩, ⟨i, i, 1, 1⟩, tie_point.type.CONTROL⟩ : tie_point ℚ)) 1
    (fun i j hij => by
      have hne : |(i : ℚ) - (j : ℚ)| ≠ 0 := nat_cast_sub_ne_zero i j hij
      refine ⟨mul_ne_zero hne hne, ?_⟩
      exact div_self (mul_ne_zero hne hne))
  rw [binomial_value_29.2.1, mul_one] at h
  have hb := math_binomial_number_value 29 2 (by norm_num) (by norm_num)
  rw [binomial_value_29.2.1] at hb
  refine ⟨hb, h.1, h.2.1, ?_, ?_, by norm_num⟩
  · exact (congrArg (fun z : ℚ => z / 406) h.2.2.1).trans (by norm_num)
  · exact congrArg Prod.snd h.2.2.2

/-- C10, the code at the failing inputs. The 29 tie points `(i,i) -> (2i,2i)`: every pair
contributes with the ratio `1`, `den` is `405`, and the value stored is `406 / 405`. The 29 tie
points `(i,0) -> (2i,0)`: no pair contributes, `den` ends at `405 - 406 = -1`, which is not
`0`, and the value stored is `0 / -1 = 0`. Neither is `1`. -/
theorem estimate_anisomorphism_uniform_scale_fails_on_29 (m : evaluation_measurements ℚ) :
    estimate_anisomorphism m ((List.range 29).map
        (fun i : Nat => ⟨⟨i, i, 1, 1⟩, ⟨2 * i, 2 * i, 1, 1⟩, tie_point.type.CONTROL⟩)) =
      Except.ok (true, { m with anisomorphism_ := 406 / 405 }) ∧
    estimate_anisomorphism m ((List.range 29).map
        (fun i : Nat => ⟨⟨i, 0, 1, 1⟩, ⟨2 * i, 2 * 0, 1, 1⟩, tie_point.type.CONTROL⟩)) =
      Except.ok (true, { m with anisomorphism_ := 0 }) ∧
    (estimate_anisomorphism.outer ((List.range 29).map
        (fun i : Nat => (⟨⟨i, 0, 1, 1⟩, ⟨2 * i, 2 * 0, 1, 1⟩, tie_point.type.CONTROL⟩ : tie_point ℚ)))
      (0, ((405 : Int) : ℚ))) = (0, -1) ∧
    (406 : ℚ) / 405 ≠ 1 ∧ (0 : ℚ) ≠ 1 := by
  have h1 := estimate_anisomorphism_29_of_ratio m
    (fun i : Nat => (⟨⟨i, i, 1, 1⟩, ⟨2 * i, 2 * i, 1, 1⟩, tie_point.type.CONTROL⟩ : tie_point ℚ)) 1
    (fun i j hij => by
      have hne : |(i : ℚ) - (j : ℚ)| ≠ 0 := nat_cast_sub_ne_zero i j hij
      have h2 : |2 * (i : ℚ) - 2 * (j : ℚ)| = 2 * |(i : ℚ) - (j : ℚ)| := by
        rw [← mul_sub, abs_mul, abs_two]
      have hc : |2 * (i : ℚ) - 2 * (j : ℚ)| * |(i : ℚ) - (j : ℚ)| ≠ 0 := by
        rw [h2]; exact mul_ne_zero (mul_ne_zero two_ne_zero hne) hne
      refine ⟨hc, ?_⟩
      show (|(i : ℚ) - (j : ℚ)| * |2 * (i : ℚ) - 2 * (j : ℚ)|) /
        (|2 * (i : ℚ) - 2 * (j : ℚ)| * |(i : ℚ) - (j : ℚ)|) = 1
      rw [mul_comm, div_self hc])
  have h2 := estimate_anisomorphism_29_of_skipped m
    (fun i : Nat => (⟨⟨i, 0, 1, 1⟩, ⟨2 * i, 2 * 0, 1, 1⟩, tie_point.type.CONTROL⟩ : tie_point ℚ))
    (fun i j _ hc => hc (by simp))
  rw [binomial_value_29.2.1] at h2
  rw [mul_one] at h1
  exact ⟨h1.1, h2.1, h2.2.2, by norm_num, by norm_num⟩

/-- C36, the code at the failing inputs, with `a = 2` and `b = -3`. The 29 tie points
`(i,i) -> (2i,-3i)`: all pairs differ in both work coordinates and contribute with the ratio
`3/2`, `den` is `405`, and the value stored is `406 * (3/2) / 405 = 203/135`, not `3/2`. The 29
tie points `(i,0) -> (2i,-3*0)`: no two entries differ in work y, no pair contributes, `den`
ends at `-1`, and the value stored is `0`, not `1`. -/
theorem estimate_anisomorphism_axis_scale_fails_on_29 (m : evaluation_measurements ℚ) :
    estimate_anisomorphism m ((List.range 29).map
        (fun i : Nat => ⟨⟨i, i, 1, 1⟩, ⟨2 * i, -3 * i, 1, 1⟩, tie_point.type.CONTROL⟩)) =
      Except.ok (true, { m with anisomorphism_ := 203 / 135 }) ∧
    estimate_anisomorphism m ((List.range 29).map
        (fun i : Nat => ⟨⟨i, 0, 1, 1⟩, ⟨2 * i, -3 * 0, 1, 1⟩, tie_point.type.CONTROL⟩)) =
      Except.ok (true, { m with anisomorphism_ := 0 }) ∧
    (203 : ℚ) / 135 ≠ |(-3 : ℚ)| / |(2 : ℚ)| ∧ (0 : ℚ) ≠ 1 := by
  have h1 := estimate_anisomorphism_29_of_ratio m
    (fun i : Nat => (⟨⟨i, i, 1, 1⟩, ⟨2 * i, -3 * i, 1, 1⟩, tie_point.type.CONTROL⟩ : tie_point ℚ))
    (3 / 2)
    (fun i j hij => by
      have hne : |(i : ℚ) - (j : ℚ)| ≠ 0 := nat_cast_sub_ne_zero i j hij
      have h2 : |2 * (i : ℚ) - 2 * (j : ℚ)| = 2 * |(i : ℚ) - (j : ℚ)| := by
        rw [← mul_sub, abs_mul, abs_two]
      have h3 : |-3 * (i : ℚ) - -3 * (j : ℚ)| = 3 * |(i : ℚ) - (j : ℚ)| := by
        rw [← mul_sub, abs_mul, abs_neg, abs_of_pos (by norm_num : (0 : ℚ) < 3)]
      have hc : |2 * (i : ℚ) - 2 * (j : ℚ)| * |(i : ℚ) - (j : ℚ)| ≠ 0 := by
        rw [h2]; exact mul_ne_zero (mul_ne_zero two_ne_zero hne) hne
      refine ⟨hc, ?_⟩
      show (|(i : ℚ) - (j : ℚ)| * |-3 * (i : ℚ) - -3 * (j : ℚ)|) /
        (|2 * (i : ℚ) - 2 * (j : ℚ)| * |(i : ℚ) - (j : ℚ)|) = 3 / 2
      rw [h2, h3]
      field_simp
      ring)
  have h2 := estimate_anisomorphism_29_of_skipped m
    (fun i : Nat => (⟨⟨i, 0, 1, 1⟩, ⟨2 * i, -3 * 0, 1, 1⟩, tie_point.type.CONTROL⟩ : tie_point ℚ))
    (fun i j _ hc => hc (by simp))
  exact ⟨h1.1.trans (by norm_num), h2.1, by norm_num [abs_of_pos], by norm_num⟩

/-! ## `estimate_length_var` on 29 tie points -/

theorem key_set_card_map_range (n : Nat) (f : Nat → tie_point R)
    (hf : Function.Injective (tie_point.key ∘ f)) :
    (key_set ((List.range n).map f)).card = n := by
  rw [key_set, List.map_map, List.toFinset_card_of_nodup ((List.nodup_range n).map hf),
    List.length_map, List.length_range]

theorem mem_key_set_map_range (n : Nat) (f : Nat → tie_point R) (a : R × R × R × R)
    (h : a ∈ key_set ((List.range n).map f)) : ∃ i : Nat, a = (f i).key := by
  rw [key_set, List.mem_toFinset, List.mem_map] at h
  obtain ⟨t, ht, rfl⟩ := h
  rw [List.mem_map] at ht
  obtain ⟨i, _, rfl⟩ := ht
  exact ⟨i, rfl⟩

/-- When every pair of distinct elements of the set has different work points, different
reference points and the ratio `c`, `estimate_length_var` stores `C(n,2) * c / den`, with `den`
the value that `binomial_number( n, 2 )` returned. -/
theorem estimate_length_var_of_constant_ratio (sqrt : R → R) (m : evaluation_measurements R)
    (l : List (tie_point R)) (h : 2 ≤ (key_set l).card) (c : R)
    (hd : ∀ a ∈ key_set l, ∀ b ∈ key_set l, a ≠ b →
      ((a.1, a.2.1) ≠ (b.1, b.2.1) ∧ (a.2.2.1, a.2.2.2) ≠ (b.2.2.1, b.2.2.2)) ∧
        length_ratio sqrt a b = c) :
    estimate_length_var sqrt m l = Except.ok (true, { m with length_variation_ :=
      (((key_set l).card.choose 2 : Nat) : R) * c /
        ((binomial_value (key_set l).card 2 : Int) : R) }) ∧
    (∑ p in key_pairs (key_set l), length_ratio sqrt p.1 p.2) =
      (((key_set l).card.choose 2 : Nat) : R) * c := by
  have hsum : (∑ p in key_pairs (key_set l), length_ratio sqrt p.1 p.2) =
      (((key_set l).card.choose 2 : Nat) : R) * c := by
    have h1 : (∑ p in key_pairs (key_set l), length_ratio sqrt p.1 p.2) =
        ∑ _p in key_pairs (key_set l), c :=
      Finset.sum_congr rfl (fun p hp => by
        rw [key_pairs, Finset.mem_filter, Finset.mem_product] at hp
        exact (hd p.1 hp.1.1 p.2 hp.1.2 (fun e => key_lt_irrefl p.2 (e ▸ hp.2))).2)
    rw [h1, Finset.sum_const, key_pairs_card, nsmul_eq_mul]
  refine ⟨?_, hsum⟩
  rw [estimate_length_var_stored sqrt m l h (fun a ha b hb hab => (hd a ha b hb hab).1), hsum]

theorem sqrt_three_four (d : ℝ) : Real.sqrt ((3 * d) ^ 2 + (4 * d) ^ 2) = 5 * |d| := by
  rw [show (3 * d) ^ 2 + (4 * d) ^ 2 = (5 * d) ^ 2 by ring, Real.sqrt_sq_eq_abs, abs_mul,
    abs_of_pos (by norm_num : (0 : ℝ) < 5)]

/-- C3, the code at the failing input: the 29 tie points `(3i,4i) -> (6i,8i)`, `i = 0, ..., 28`,
are pairwise different in their work points and in their reference points, every pair has the
ratio `5|i-j| / 10|i-j| = 1/2` of the work distance to the reference distance, so that the mean
over the 406 pairs is `1/2`; `binomial_number( 29, 2 )` returns `405`, and
`estimate_length_var` returns `true` and stores `406 * (1/2) / 405 = 203/405`. -/
theorem estimate_length_var_mean_fails_on_29 (m : evaluation_measurements ℝ) :
    math.binomial_number 29 2 = Except.ok 405 ∧
    (key_set ((List.range 29).map (fun i : Nat =>
      (⟨⟨3 * i, 4 * i, 1, 1⟩, ⟨6 * i, 8 * i, 1, 1⟩, tie_point.type.CONTROL⟩ : tie_point ℝ)))).card
        = 29 ∧
    estimate_length_var Real.sqrt m ((List.range 29).map (fun i : Nat =>
        ⟨⟨3 * i, 4 * i, 1, 1⟩, ⟨6 * i, 8 * i, 1, 1⟩, tie_point.type.CONTROL⟩)) =
      Except.ok (true, { m with length_variation_ := 203 / 405 }) ∧
    (∑ p in key_pairs (key_set ((List.range 29).map (fun i : Nat =>
        (⟨⟨3 * i, 4 * i, 1, 1⟩, ⟨6 * i, 8 * i, 1, 1⟩, tie_point.type.CONTROL⟩ : tie_point ℝ)))),
      length_ratio Real.sqrt p.1 p.2) / ((Nat.choose 29 2 : Nat) : ℝ) = 1 / 2 ∧
    (203 : ℝ) / 405 ≠ 1 / 2 := by
  have hinj : Function.Injective (tie_point.key ∘ (fun i : Nat =>
      (⟨⟨3 * i, 4 * i, 1, 1⟩, ⟨6 * i, 8 * i, 1, 1⟩, tie_point.type.CONTROL⟩ : tie_point ℝ))) := by
    intro i j hij
    have h1 : (3 : ℝ) * i = 3 * j := congrArg Prod.fst hij
    have h2 : (i : ℝ) = j := by linarith
    exact Nat.cast_injective h2
  have hcard := key_set_card_map_range 29 _ hinj
  have hb := math_binomial_number_value 29 2 (by norm_num) (by norm_num)
  rw [binomial_value_29.2.1] at hb
  have hmain := estimate_length_var_of_constant_ratio Real.sqrt m
    ((List.range 29).map (fun i : Nat =>
      (⟨⟨3 * i, 4 * i, 1, 1⟩, ⟨6 * i, 8 * i, 1, 1⟩, tie_point.type.CONTROL⟩ : tie_point ℝ)))
    (by rw [hcard]; norm_num) (1 / 2)
    (by
      intro a ha b hb' hab
      obtain ⟨i, rfl⟩ := mem_key_set_map_range 29 _ a ha
      obtain ⟨j, rfl⟩ := mem_key_set_map_range 29 _ b hb'
      have hij : (i : ℝ) ≠ j := by
        intro e
        apply hab
        rw [Nat.cast_injective e]
      have hd : (i : ℝ) - j ≠ 0 := sub_ne_zero.mpr hij
      have habs : |(i : ℝ) - j| ≠ 0 := abs_ne_zero.mpr hd
      refine ⟨⟨?_, ?_⟩, ?_⟩
      · intro e
        have e1 : (3 : ℝ) * i = 3 * j := congrArg Prod.fst e
        exact hij (by linarith)
      · intro e
        have e1 : (6 : ℝ) * i = 6 * j := congrArg Prod.fst e
        exact hij (by linarith)
      · simp only [length_ratio, distance, tie_point.key]
        rw [show ((3 : ℝ) * i - 3 * j) ^ 2 + (4 * i - 4 * j) ^ 2 =
            (3 * ((i : ℝ) - j)) ^ 2 + (4 * ((i : ℝ) - j)) ^ 2 by ring,
          show ((6 : ℝ) * i - 6 * j) ^ 2 + (8 * i - 8 * j) ^ 2 =
            (3 * (2 * ((i : ℝ) - j))) ^ 2 + (4 * (2 * ((i : ℝ) - j))) ^ 2 by ring,
          sqrt_three_four, sqrt_three_four, abs_mul, abs_two]
        field_simp
        ring)
  rw [hcard, binomial_value_29.2.1, choose_29.1] at hmain
  refine ⟨hb, hcard, hmain.1.trans (by norm_num), ?_, by norm_num⟩
  rw [hmain.2, choose_29.1]
  norm_num

/-- C9, the code at the failing input: the 29 tie points `(3i,4i) -> (3i,4i)`, `i = 0, ..., 28`,
are 29 distinct tie points with the reference point equal to the work point;
`binomial_number( 29, 2 )` returns `405`, each of the 406 pairs adds `1 / 405`, and
`estimate_length_var` returns `true` and stores `406 / 405`, not `1`. -/
theorem estimate_length_var_identity_fails_on_29 (m : evaluation_measurements ℝ) :
    math.binomial_number 29 2 = Except.ok 405 ∧
    (∀ t ∈ (List.range 29).map (fun i : Nat =>
      (⟨⟨3 * i, 4 * i, 1, 1⟩, ⟨3 * i, 4 * i, 1, 1⟩, tie_point.type.CONTROL⟩ : tie_point ℝ)),
      t.u_v_.eq t.x_y_ = true) ∧
    (key_set ((List.range 29).map (fun i : Nat =>
      (⟨⟨3 * i, 4 * i, 1, 1⟩, ⟨3 * i, 4 * i, 1, 1⟩, tie_point.type.CONTROL⟩ : tie_point ℝ)))).card
        = 29 ∧
    estimate_length_var Real.sqrt m ((List.range 29).map (fun i : Nat =>
        ⟨⟨3 * i, 4 * i, 1, 1⟩, ⟨3 * i, 4 * i, 1, 1⟩, tie_point.type.CONTROL⟩)) =
      Except.ok (true, { m with length_variation_ := 406 / 405 }) ∧
    (406 : ℝ) / 405 ≠ 1 := by
  have hinj : Function.Injective (tie_point.key ∘ (fun i : Nat =>
      (⟨⟨3 * i, 4 * i, 1, 1⟩, ⟨3 * i, 4 * i, 1, 1⟩, tie_point.type.CONTROL⟩ : tie_point ℝ))) := by
    intro i j hij
    have h1 : (3 : ℝ) * i = 3 * j := congrArg Prod.fst hij
    have h2 : (i : ℝ) = j := by linarith
    exact Nat.cast_injective h2
  have hcard := key_set_card_map_range 29 _ hinj
  have hb := math_binomial_number_value 29 2 (by norm_num) (by norm_num)
  rw [binomial_value_29.2.1] at hb
  have he : ∀ t ∈ (List.range 29).map (fun i : Nat =>
      (⟨⟨3 * i, 4 * i, 1, 1⟩, ⟨3 * i, 4 * i, 1, 1⟩, tie_point.type.CONTROL⟩ : tie_point ℝ)),
      t.u_v_.eq t.x_y_ = true := by
    intro t ht
    rw [List.mem_map] at ht
    obtain ⟨i, _, rfl⟩ := ht
    simp [point.eq]
  have hmain := estimate_length_var_identity_stored Real.sqrt
    (fun x hx => (Real.sqrt_pos.mpr hx).ne') m _ (by rw [hcard]; norm_num) he
  rw [hcard, binomial_value_29.2.1, choose_29.1] at hmain
  exact ⟨hb, he, hcard, hmain.trans (by norm_num), by norm_num⟩

/-! ## `estimate_similarity` on 29 tie points -/

/-- Two vectors of the real plane that are not parallel (their cross product is not `0`) have
an angle other than `0`. -/
theorem angle_ne_zero_of_cross_ne_zero (a b : vector ℝ)
    (h : (a.p2_.x_ - a.p1_.x_) * (b.p2_.y_ - b.p1_.y_) -
      (a.p2_.y_ - a.p1_.y_) * (b.p2_.x_ - b.p1_.x_) ≠ 0) :
    a.angle_b_vectors Real.sqrt Real.arccos b ≠ 0 := by
  simp only [vector.angle_b_vectors, vector.get, point.get_x, point.get_y]
  generalize a.p2_.x_ - a.p1_.x_ = x1 at h ⊢
  generalize a.p2_.y_ - a.p1_.y_ = y1 at h ⊢
  generalize b.p2_.x_ - b.p1_.x_ = x2 at h ⊢
  generalize b.p2_.y_ - b.p1_.y_ = y2 at h ⊢
  rw [Ne, Real.arccos_eq_zero, not_le]
  have hc : 0 < (x1 * y2 - y1 * x2) ^ 2 := by positivity
  have hid : (x1 ^ 2 + y1 ^ 2) * (x2 ^ 2 + y2 ^ 2) =
      (x1 * x2 + y1 * y2) ^ 2 + (x1 * y2 - y1 * x2) ^ 2 := by ring
  have hprod : (x1 * x2 + y1 * y2) ^ 2 < (x1 ^ 2 + y1 ^ 2) * (x2 ^ 2 + y2 ^ 2) := by
    rw [hid]; linarith
  have hpos : 0 < (x1 ^ 2 + y1 ^ 2) * (x2 ^ 2 + y2 ^ 2) :=
    lt_of_le_of_lt (sq_nonneg _) hprod
  rw [← Real.sqrt_mul (by positivity)]
  have hs : 0 < Real.sqrt ((x1 ^ 2 + y1 ^ 2) * (x2 ^ 2 + y2 ^ 2)) := Real.sqrt_pos.mpr hpos
  rw [div_lt_one hs]
  by_cases hd : x1 * x2 + y1 * y2 < 0
  · linarith
  · exact (Real.lt_sqrt (not_lt.mp hd)).mpr hprod

/-- On the 29 tie points `f 0, ..., f 28` whose work points are `(i, i^2)` and whose reference
points are the images of the work points under a rotation by `θ`, a scaling by `s > 0` and a
translation by `(tx, ty)`, every triple has the ratio `1` of its two angles, and
`estimate_similarity` over the reals divides the sum `3654` by `den = 3653`. -/
theorem estimate_similarity_29_on_parabola (m : evaluation_measurements ℝ)
    (f : Nat → tie_point ℝ) (θ s tx ty : ℝ) (hs : 0 < s)
    (hw : ∀ i : Nat, (f i).x_y_.x_ = (i : ℝ) ∧ (f i).x_y_.y_ = (i : ℝ) ^ 2)
    (ht : ∀ i : Nat,
      (f i).u_v_.x_ = s * (Real.cos θ * (f i).x_y_.x_ - Real.sin θ * (f i).x_y_.y_) + tx ∧
      (f i).u_v_.y_ = s * (Real.sin θ * (f i).x_y_.x_ + Real.cos θ * (f i).x_y_.y_) + ty) :
    estimate_similarity Real.sqrt Real.arccos m ((List.range 29).map f) =
      Except.ok (true, { m with similarity_ := 3654 / 3653 }) ∧
    ((List.range 29).map f).Pairwise (fun a b => a.x_y_.eq b.x_y_ = false) ∧
    ((List.range 29).map f).Pairwise (fun a b => a.u_v_.eq b.u_v_ = false) ∧
    (∑ t in position_triples ((List.range 29).map f).length,
      similarity_ratio Real.sqrt Real.arccos (((List.range 29).map f).get t.1)
        (((List.range 29).map f).get t.2.1) (((List.range 29).map f).get t.2.2) /
          ((Nat.choose 29 3 : Nat) : ℝ)) = 1 := by
  have hlen : ((List.range 29).map f).length = 29 := by simp
  have hpw : ((List.range 29).map f).Pairwise (fun a b => a.x_y_.eq b.x_y_ = false) := by
    refine List.pairwise_map.mpr ((List.pairwise_lt_range 29).imp (fun {i j} hij => ?_))
    rw [← Bool.not_eq_true, point_eq_iff, (hw i).1, (hw j).1]
    rintro ⟨e, _⟩
    exact absurd (Nat.cast_injective e) (Nat.ne_of_lt hij)
  have htl : ∀ t ∈ (List.range 29).map f,
      t.u_v_.x_ = s * (Real.cos θ * t.x_y_.x_ - Real.sin θ * t.x_y_.y_) + tx ∧
      t.u_v_.y_ = s * (Real.sin θ * t.x_y_.x_ + Real.cos θ * t.x_y_.y_) + ty := by
    intro t htm
    rw [List.mem_map] at htm
    obtain ⟨i, _, rfl⟩ := htm
    exact ht i
  have hpr : ((List.range 29).map f).Pairwise (fun a b => a.u_v_.eq b.u_v_ = false) :=
    hpw.imp_of_mem (fun {a b} hal hbl hab =>
      reference_ne_of_similarity_transform a b θ s tx ty hs (htl a hal) (htl b hbl) hab)
  have ha : ∀ i j k : Fin ((List.range 29).map f).length, i < j → j < k →
      vector.angle_b_vectors Real.sqrt Real.arccos
        ⟨(((List.range 29).map f).get i).x_y_, (((List.range 29).map f).get j).x_y_⟩
        ⟨(((List.range 29).map f).get i).x_y_, (((List.range 29).map f).get k).x_y_⟩ ≠ 0 := by
    intro i j k hij hjk
    apply angle_ne_zero_of_cross_ne_zero
    simp only [List.get_eq_getElem, List.getElem_map, List.getElem_range, (hw _).1, (hw _).2]
    have h1 : ((i : Nat) : ℝ) < ((j : Nat) : ℝ) := Nat.cast_lt.mpr hij
    have h2 : ((j : Nat) : ℝ) < ((k : Nat) : ℝ) := Nat.cast_lt.mpr hjk
    have e : (((j : Nat) : ℝ) - (i : Nat)) * (((k : Nat) : ℝ) ^ 2 - ((i : Nat) : ℝ) ^ 2) -
        (((j : Nat) : ℝ) ^ 2 - ((i : Nat) : ℝ) ^ 2) * (((k : Nat) : ℝ) - (i : Nat)) =
        (((j : Nat) : ℝ) - (i : Nat)) * (((k : Nat) : ℝ) - (i : Nat)) *
          (((k : Nat) : ℝ) - (j : Nat)) := by ring
    rw [e]
    exact mul_ne_zero (mul_ne_zero (by linarith) (by linarith)) (by linarith)
  have hmain := estimate_similarity_of_similarity_transform_stored m _ θ s tx ty hs
    (by rw [hlen]; norm_num) hpw htl ha
  rw [hlen, binomial_value_29.2.2, choose_29.2] at hmain
  refine ⟨hmain.trans (by norm_num), hpw, hpr, ?_⟩
  rw [← triple_sum_eq_sum_filter (fun a b c =>
    similarity_ratio Real.sqrt Real.arccos a b c / ((Nat.choose 29 3 : Nat) : ℝ))]
  have hsum : triple_sum (fun a b c =>
      similarity_ratio Real.sqrt Real.arccos a b c / ((Nat.choose 29 3 : Nat) : ℝ))
        ((List.range 29).map f) =
      triple_sum (fun _ _ _ => 1 / ((Nat.choose 29 3 : Nat) : ℝ)) ((List.range 29).map f) := by
    refine triple_sum_congr_fin _ _ _ (fun i j k hij hjk => ?_)
    have hangle := angle_of_similarity_transform (((List.range 29).map f).get i)
      (((List.range 29).map f).get j) (((List.range 29).map f).get k) θ s tx ty hs
      (fun t htm => by
        rcases htm with rfl | rfl | rfl <;> exact htl _ (List.get_mem _ _ _))
    simp only [similarity_ratio]
    rw [hangle, div_self (ha i j k hij hjk)]
  rw [hsum, triple_sum_const, hlen, choose_29.2]
  norm_num

/-- C8, the code at the failing input: the 29 tie points `(i, i^2) -> (i, i^2)`,
`i = 0, ..., 28`, have pairwise distinct work points and pairwise distinct reference points, no
three of them lie on a line, and every triple has the ratio `1` of the work angle to the
reference angle, so that the sum over the 3654 triples divided by `C(29,3) = 3654` is `1`;
`binomial_number( 29, 3 )` returns `3653`, and `estimate_similarity` returns `true` and stores
`3654 / 3653`. -/
theorem estimate_similarity_sum_fails_on_29 (m : evaluation_measurements ℝ) :
    math.binomial_number 29 3 = Except.ok 3653 ∧
    estimate_similarity Real.sqrt Real.arccos m ((List.range 29).map (fun i : Nat =>
        (⟨⟨i, i ^ 2, 1, 1⟩, ⟨i, i ^ 2, 1, 1⟩, tie_point.type.CONTROL⟩ : tie_point ℝ))) =
      Except.ok (true, { m with similarity_ := 3654 / 3653 }) ∧
    ((List.range 29).map (fun i : Nat =>
        (⟨⟨i, i ^ 2, 1, 1⟩, ⟨i, i ^ 2, 1, 1⟩, tie_point.type.CONTROL⟩ : tie_point ℝ))).Pairwise
      (fun a b => a.x_y_.eq b.x_y_ = false) ∧
    ((List.range 29).map (fun i : Nat =>
        (⟨⟨i, i ^ 2, 1, 1⟩, ⟨i, i ^ 2, 1, 1⟩, tie_point.type.CONTROL⟩ : tie_point ℝ))).Pairwise
      (fun a b => a.u_v_.eq b.u_v_ = false) ∧
    (∑ t in position_triples ((List.range 29).map (fun i : Nat =>
        (⟨⟨i, i ^ 2, 1, 1⟩, ⟨i, i ^ 2, 1, 1⟩, tie_point.type.CONTROL⟩ : tie_point ℝ))).length,
      similarity_ratio Real.sqrt Real.arccos
        (((List.range 29).map (fun i : Nat =>
          (⟨⟨i, i ^ 2, 1, 1⟩, ⟨i, i ^ 2, 1, 1⟩, tie_point.type.CONTROL⟩ : tie_point ℝ))).get t.1)
        (((List.range 29).map (fun i : Nat =>
          (⟨⟨i, i ^ 2, 1, 1⟩, ⟨i, i ^ 2, 1, 1⟩, tie_point.type.CONTROL⟩ : tie_point ℝ))).get
            t.2.1)
        (((List.range 29).map (fun i : Nat =>
          (⟨⟨i, i ^ 2, 1, 1⟩, ⟨i, i ^ 2, 1, 1⟩, tie_point.type.CONTROL⟩ : tie_point ℝ))).get
            t.2.2) / ((Nat.choose 29 3 : Nat) : ℝ)) = 1 ∧
    (3654 : ℝ) / 3653 ≠ 1 := by
  have hb := math_binomial_number_value 29 3 (by norm_num) (by norm_num)
  rw [binomial_value_29.2.2] at hb
  have h := estimate_similarity_29_on_parabola m (fun i : Nat =>
    (⟨⟨i, i ^ 2, 1, 1⟩, ⟨i, i ^ 2, 1, 1⟩, tie_point.type.CONTROL⟩ : tie_point ℝ)) 0 1 0 0
    one_pos (fun i => ⟨rfl, rfl⟩) (fun i => by simp)
  exact ⟨hb, h.1, h.2.1, h.2.2.1, h.2.2.2, by norm_num⟩

/-- C11, the code at the failing inputs. The 29 tie points `(i, i^2) -> (1 - 2 i^2, 1 + 2 i)`,
`i = 0, ..., 28`: the work points are pairwise distinct, no three of them lie on a line, and the
reference points are their images under the rotation by `π/2`, the scaling by `2` and the
translation by `(1, 1)`; every triple has the ratio `1`, `binomial_number( 29, 3 )` returns
`3653`, and `estimate_similarity` returns `true` and stores `3654 / 3653`. And for the work
points `(0,0)`, `(1,0)`, `(2,0)` (pairwise distinct, with the reference points equal to them) the
angle between the vectors from `(0,0)` is `acos( 1 ) = 0`, for the work and for the reference
points alike: line 174 divides `0` by `0`. -/
theorem estimate_similarity_of_similarity_transform_fails (m : evaluation_measurements ℝ) :
    math.binomial_number 29 3 = Except.ok 3653 ∧
    estimate_similarity Real.sqrt Real.arccos m ((List.range 29).map (fun i : Nat =>
        (⟨⟨i, i ^ 2, 1, 1⟩, ⟨1 - 2 * i ^ 2, 1 + 2 * i, 1, 1⟩, tie_point.type.CONTROL⟩ :
          tie_point ℝ))) =
      Except.ok (true, { m with similarity_ := 3654 / 3653 }) ∧
    ((List.range 29).map (fun i : Nat =>
        (⟨⟨i, i ^ 2, 1, 1⟩, ⟨1 - 2 * i ^ 2, 1 + 2 * i, 1, 1⟩, tie_point.type.CONTROL⟩ :
          tie_point ℝ))).Pairwise (fun a b => a.x_y_.eq b.x_y_ = false) ∧
    (∀ i : Nat,
      (1 - 2 * (i : ℝ) ^ 2 =
        2 * (Real.cos (Real.pi / 2) * (i : ℝ) - Real.sin (Real.pi / 2) * (i : ℝ) ^ 2) + 1) ∧
      (1 + 2 * (i : ℝ) =
        2 * (Real.sin (Real.pi / 2) * (i : ℝ) + Real.cos (Real.pi / 2) * (i : ℝ) ^ 2) + 1)) ∧
    (3654 : ℝ) / 3653 ≠ 1 ∧
    vector.angle_b_vectors Real.sqrt Real.arccos
        (⟨⟨0, 0, 1, 1⟩, ⟨1, 0, 1, 1⟩⟩ : vector ℝ) ⟨⟨0, 0, 1, 1⟩, ⟨2, 0, 1, 1⟩⟩ = 0 := by
  have hb := math_binomial_number_value 29 3 (by norm_num) (by norm_num)
  rw [binomial_value_29.2.2] at hb
  have htr : ∀ i : Nat,
      (1 - 2 * (i : ℝ) ^ 2 =
        2 * (Real.cos (Real.pi / 2) * (i : ℝ) - Real.sin (Real.pi / 2) * (i : ℝ) ^ 2) + 1) ∧
      (1 + 2 * (i : ℝ) =
        2 * (Real.sin (Real.pi / 2) * (i : ℝ) + Real.cos (Real.pi / 2) * (i : ℝ) ^ 2) + 1) := by
    intro i
    rw [Real.cos_pi_div_two, Real.sin_pi_div_two]
    constructor <;> ring
  have h := estimate_similarity_29_on_parabola m (fun i : Nat =>
    (⟨⟨i, i ^ 2, 1, 1⟩, ⟨1 - 2 * i ^ 2, 1 + 2 * i, 1, 1⟩, tie_point.type.CONTROL⟩ :
      tie_point ℝ)) (Real.pi / 2) 2 1 1 two_pos (fun i => ⟨rfl, rfl⟩) (fun i => htr i)
  have h4 : Real.sqrt (2 ^ 2) = 2 := Real.sqrt_sq (by norm_num)
  have hangle : vector.angle_b_vectors Real.sqrt Real.arccos
      (⟨⟨0, 0, 1, 1⟩, ⟨1, 0, 1, 1⟩⟩ : vector ℝ) ⟨⟨0, 0, 1, 1⟩, ⟨2, 0, 1, 1⟩⟩ = 0 := by
    simp [vector.angle_b_vectors, vector.get, point.get_x, point.get_y, h4]
  exact ⟨hb, h.1, h.2.1, htr, by norm_num, hangle⟩

end precision
